import Mathlib

/-!
# NonMetricSpaceLib: List of Clusters index

A shallow embedding of `similarity_search/src/method/list_clusters.cc`.

* `dist_t` is a type `D` of values with a linear order, `0`, and the exact
  `+` and `-` in which the specification speaks (`LinearOrderedAddCommGroup`).
  The sums and differences that the code computes are the operations of the
  class `DistArith`: they are the machine results, which differ from `+` and
  `-` where the `int` instantiation overflows or the `float`/`double`
  instantiations round.  The instance for `Int` is the `int` instantiation
  with wrap-around at 32 bits; the instance for `ℚ` has exact operations and
  stands for `float`/`double` at values that these represent exactly.
  Theorems that need a machine result to be the exact one say so in a
  hypothesis on the operands involved.
* `const Object*` is a type `Obj` with decidable equality (pointer identity).
* `std::vector` is `List`; `push_back` appends at the end.
* `LOG(LIB_FATAL)` and a failed `CHECK` abort: the embedding returns an error.
* `RandomInt()` is a stream `rnd : Nat → Nat`, read at the iteration number.
* `std::sort` is a function parameter `srt`; theorems that depend on its
  contract assume `IsStdSort srt` (a permutation of the input in which no
  element compares less than an earlier one).
* `std::priority_queue` is a function parameter `pq` that gives the order in
  which the pushed elements come out of the queue; `priorityQueue` is the
  queue ordered by `Elem::operator<`, with `top()` found by a scan.
* The query accumulators (`RangeQuery`, `KNNQuery`) are declared in headers
  that are not part of the sources at hand; they are modelled from the
  specification.  `Radius()` is an `Option`: `none` stands for the unbounded
  radius of a kNN queue that holds fewer than `k` entries.  The division
  `top / (1 + eps)` of the kNN bound is the operation `shrink` of `DistArith`.
* The build loop runs on fuel equal to the size of the dataset; `C9` shows that
  the fuel is never exhausted.
-/

set_option linter.unusedSectionVars false
set_option linter.unusedVariables false

namespace similarity

/-! ## Data model -/

/-- The enum `ListClustersStrategy`. -/
inductive ListClustersStrategy where
  | kRandom
  | kClosestPrevCenter
  | kFarthestPrevCenter
  | kMinSumDistPrevCenters
  | kMaxSumDistPrevCenters
  deriving DecidableEq

/-- Modelled from the spec: the distance space (`space.h` is not under src).  It exposes the
query-time `distance` and the build-time `IndexTimeDistance`. -/
structure Space (D Obj : Type) where
  distance : Obj → Obj → D
  IndexTimeDistance : Obj → Obj → D

/-- The class `ListClusters::Cluster`: center, covering radius and bucket. -/
structure Cluster (D Obj : Type) where
  center_ : Obj
  covering_radius_ : D
  bucket_ : List Obj
  deriving DecidableEq

deriving instance DecidableEq for Except

/-- The ways the constructor can abort, and the exhaustion of the fuel of the embedding. -/
inductive BuildError where
  | incorrectStrategy
  | checkFailed
  | skippedCenterAgain
  | outOfFuel
  deriving DecidableEq

/-- The arithmetic of `dist_t`.  The code computes `get<0> + get<1>` (line 137),
`p.first + dist` (line 154), `dist_qc - Radius()` (lines 200, 233) and `dist_qc + Radius()`
(lines 202, 253) in `dist_t`: `add a b` and `sub a b` are the values the machine computes, which
differ from `a + b` and `a - b` where the `int` instantiation overflows or the `float` and
`double` instantiations round.  Machine addition is commutative in the three instantiations.
Modelled from the spec: `shrink top eps` is the admission bound `top / (1 + eps)` of the kNN
accumulator as computed in `dist_t`. -/
class DistArith (D : Type) where
  add : D → D → D
  sub : D → D → D
  shrink : D → D → D
  add_comm : ∀ a b, add a b = add b a

/-- The value of a 32-bit two's complement `int` after an overflow that wraps around. -/
def wrapInt32 (x : Int) : Int := (x + 2147483648) % 4294967296 - 2147483648

/-- The `int` instantiation: values are the integers from `-2^31` to `2^31 - 1`, sums and
differences wrap around. -/
instance : DistArith Int where
  add := fun a b => wrapInt32 (a + b)
  sub := fun a b => wrapInt32 (a - b)
  shrink := fun top eps => top / (1 + eps)
  add_comm := fun a b => congrArg wrapInt32 (Int.add_comm a b)

/-- The rationals with exact operations: they stand for the `float` and `double` instantiations
at values where these compute without rounding, as in the concrete runs below. -/
instance : DistArith ℚ where
  add := fun a b => a + b
  sub := fun a b => a - b
  shrink := fun top eps => top / (1 + eps)
  add_comm := fun a b => add_comm a b

section Build

variable {D Obj : Type} [LinearOrderedAddCommGroup D] [DistArith D] [DecidableEq Obj]

/-- The constructor `Cluster::Cluster(center)`: covering radius 0 and an empty bucket. -/
def Cluster.init (center : Obj) : Cluster D Obj :=
  { center_ := center, covering_radius_ := 0, bucket_ := [] }

/-- The method `Cluster::AddObject(object, dist)`. -/
def Cluster.AddObject (c : Cluster D Obj) (object : Obj) (dist : D) : Cluster D Obj :=
  { c with
    bucket_ := c.bucket_ ++ [object]
    covering_radius_ := if c.covering_radius_ < dist then dist else c.covering_radius_ }

/-- The method `Cluster::GetBucket`. -/
def Cluster.GetBucket (c : Cluster D Obj) : List Obj := c.bucket_

/-- Modelled from the spec: `OptimizeBucket` lays the bucket out contiguously
(`CreateCacheOptimizedBucket` is not under src); the logical contents are unchanged. -/
def Cluster.OptimizeBucket (c : Cluster D Obj) : Cluster D Obj := c

/-- The centre and the bucket members of a cluster. -/
def Cluster.members (c : Cluster D Obj) : List Obj := c.center_ :: c.bucket_

/-- The scanning loop of the `kMinSumDistPrevCenters` case: `idx` moves to `i` whenever
`remaining[i].first < remaining[idx].first`. -/
def minSumScan (remaining : List (D × Obj)) (idx0 : Nat) : Nat :=
  (List.range remaining.length).foldl
    (fun idx i =>
      match remaining[i]?, remaining[idx]? with
      | some a, some b => if a.1 < b.1 then i else idx
      | _, _ => idx)
    idx0

/-- The scanning loop of the `kMaxSumDistPrevCenters` case. -/
def maxSumScan (remaining : List (D × Obj)) (idx0 : Nat) : Nat :=
  (List.range remaining.length).foldl
    (fun idx i =>
      match remaining[i]?, remaining[idx]? with
      | some a, some b => if a.1 > b.1 then i else idx
      | _, _ => idx)
    idx0

/-- The method `ListClusters::SelectNextCenter`; `r` is the value `RandomInt()` returns when
the strategy calls it, as the unsigned number that enters `% remaining.size()`.  `none` is the
failure of `CHECK(!remaining.empty())`. -/
def SelectNextCenter (remaining : List (D × Obj)) (strategy : ListClustersStrategy)
    (r : Nat) : Option Obj :=
  if remaining.isEmpty then none
  else
    match strategy with
    | .kRandom => (remaining[r % remaining.length]?).map Prod.snd
    | .kClosestPrevCenter => remaining.head?.map Prod.snd
    | .kFarthestPrevCenter => remaining.getLast?.map Prod.snd
    | .kMinSumDistPrevCenters =>
        (remaining[minSumScan remaining (r % remaining.length)]?).map Prod.snd
    | .kMaxSumDistPrevCenters =>
        (remaining[maxSumScan remaining (r % remaining.length)]?).map Prod.snd

/-- First loop of the bucket-size branch (lines 117-129): the centre is skipped once, a second
occurrence is fatal, every other object is pushed onto `dp` with its distance to the centre. -/
def scanBucketMode (space : Space D Obj) (center : Obj) :
    List (D × Obj) → Bool → List (D × D × Obj) → Except BuildError (List (D × D × Obj))
  | [], _, dp => .ok dp
  | p :: rest, center_skipped, dp =>
    if p.2 = center then
      if center_skipped then .error .skippedCenterAgain
      else scanBucketMode space center rest true dp
    else
      scanBucketMode space center rest center_skipped
        (dp ++ [(space.IndexTimeDistance p.2 center, p.1, p.2)])

/-- Second loop of the bucket-size branch (lines 132-139), over the sorted `dp`; the running
sum `get<0> + get<1>` is computed in `dist_t`. -/
def fillBucket (BucketSize_ : Nat) :
    List (D × D × Obj) → Cluster D Obj → List (D × Obj) → Cluster D Obj × List (D × Obj)
  | [], new_cluster, outside => (new_cluster, outside)
  | p :: rest, new_cluster, outside =>
    if new_cluster.GetBucket.length < BucketSize_ then
      fillBucket BucketSize_ rest (new_cluster.AddObject p.2.2 p.1) outside
    else
      fillBucket BucketSize_ rest new_cluster (outside ++ [(DistArith.add p.1 p.2.1, p.2.2)])

/-- Loop of the radius branch (lines 141-157); the running sum `p.first + dist` is computed in
`dist_t`. -/
def scanRadiusMode (space : Space D Obj) (Radius_ : D) (center : Obj) :
    List (D × Obj) → Bool → Cluster D Obj → List (D × Obj) →
      Except BuildError (Cluster D Obj × List (D × Obj))
  | [], _, new_cluster, outside => .ok (new_cluster, outside)
  | p :: rest, center_skipped, new_cluster, outside =>
    if p.2 = center then
      if center_skipped then .error .skippedCenterAgain
      else scanRadiusMode space Radius_ center rest true new_cluster outside
    else
      if space.IndexTimeDistance p.2 center < Radius_ then
        scanRadiusMode space Radius_ center rest center_skipped
          (new_cluster.AddObject p.2 (space.IndexTimeDistance p.2 center)) outside
      else
        scanRadiusMode space Radius_ center rest center_skipped new_cluster
          (outside ++ [(DistArith.add p.1 (space.IndexTimeDistance p.2 center), p.2)])

/-- The body of one build iteration after the `remaining.size() == 1` test (lines 113-158):
the filled cluster and the pool `outside`. -/
def buildStep (space : Space D Obj) (srt : List (D × D × Obj) → List (D × D × Obj))
    (UseBucketSize_ : Bool) (BucketSize_ : Nat) (Radius_ : D)
    (remaining : List (D × Obj)) (center : Obj) :
    Except BuildError (Cluster D Obj × List (D × Obj)) :=
  if UseBucketSize_ then
    match scanBucketMode space center remaining false [] with
    | .error e => .error e
    | .ok dp => .ok (fillBucket BucketSize_ (srt dp) (Cluster.init center) [])
  else
    scanRadiusMode space Radius_ center remaining false (Cluster.init center) []

/-- The build loop `while (!remaining.empty())` (lines 104-161).  `cluster_list` and
`iterations` are the clusters pushed and the iterations started so far; the result is the final
`cluster_list_` together with the number of iterations executed. -/
def buildLoop (space : Space D Obj) (srt : List (D × D × Obj) → List (D × D × Obj))
    (rnd : Nat → Nat) (Strategy_ : ListClustersStrategy)
    (UseBucketSize_ : Bool) (BucketSize_ : Nat) (Radius_ : D) :
    Nat → List (D × Obj) → List (Cluster D Obj) → Nat →
      Except BuildError (List (Cluster D Obj) × Nat)
  | fuel, remaining, cluster_list, iterations =>
    if remaining.isEmpty then .ok (cluster_list, iterations)
    else
      match fuel with
      | 0 => .error .outOfFuel
      | fuel + 1 =>
        match SelectNextCenter remaining Strategy_ (rnd iterations) with
        | none => .error .checkFailed
        | some center =>
          if remaining.length = 1 then
            .ok (cluster_list ++ [Cluster.init center], iterations + 1)
          else
            match buildStep space srt UseBucketSize_ BucketSize_ Radius_ remaining center with
            | .error e => .error e
            | .ok (new_cluster, outside) =>
              buildLoop space srt rnd Strategy_ UseBucketSize_ BucketSize_ Radius_
                fuel outside (cluster_list ++ [new_cluster]) (iterations + 1)

/-- The states of the build loop `while (!remaining.empty())` (lines 104-161) at the start of
its iterations, in order: the pool `remaining` and the clusters pushed so far (a trace of
`buildLoop`).  The last state is the one of the iteration that ends the loop or aborts. -/
def buildStates (space : Space D Obj) (srt : List (D × D × Obj) → List (D × D × Obj))
    (rnd : Nat → Nat) (Strategy_ : ListClustersStrategy)
    (UseBucketSize_ : Bool) (BucketSize_ : Nat) (Radius_ : D) :
    Nat → List (D × Obj) → List (Cluster D Obj) → Nat →
      List (List (D × Obj) × List (Cluster D Obj))
  | fuel, remaining, cluster_list, iterations =>
    if remaining.isEmpty then []
    else
      match fuel with
      | 0 => [(remaining, cluster_list)]
      | fuel + 1 =>
        match SelectNextCenter remaining Strategy_ (rnd iterations) with
        | none => [(remaining, cluster_list)]
        | some center =>
          if remaining.length = 1 then [(remaining, cluster_list)]
          else
            match buildStep space srt UseBucketSize_ BucketSize_ Radius_ remaining center with
            | .error _ => [(remaining, cluster_list)]
            | .ok (new_cluster, outside) =>
              (remaining, cluster_list) ::
                buildStates space srt rnd Strategy_ UseBucketSize_ BucketSize_ Radius_
                  fuel outside (cluster_list ++ [new_cluster]) (iterations + 1)

/-- Lines 72-88 of the constructor: the strategy named by the string `sVal`; any other string
is fatal. -/
def parseStrategy (sVal : String) : Except BuildError ListClustersStrategy :=
  if sVal = "random" then .ok .kRandom
  else if sVal = "closestPrevCenter" then .ok .kClosestPrevCenter
  else if sVal = "farthestPrevCenter" then .ok .kFarthestPrevCenter
  else if sVal = "minSumDistPrevCenters" then .ok .kMinSumDistPrevCenters
  else if sVal = "maxSumDistPrevCenters" then .ok .kMaxSumDistPrevCenters
  else .error .incorrectStrategy

/-- Modelled from the spec: the parameter bag read through `AnyParamManager::GetParamOptional`
(not under src).  A key that is absent leaves the variable at its default. -/
structure AnyParams (D : Type) where
  strategy : Option String
  useBucketSize : Option Bool
  bucketSize : Option Nat
  radius : Option D
  chunkBucket : Option Bool
  maxLeavesToVisit : Option Int

/-- The members of the class `ListClusters`. -/
structure ListClusters (D Obj : Type) where
  Strategy_ : ListClustersStrategy
  UseBucketSize_ : Bool
  BucketSize_ : Nat
  Radius_ : D
  MaxLeavesToVisit_ : Int
  ChunkBucket_ : Bool
  cluster_list_ : List (Cluster D Obj)
  deriving DecidableEq

/-- Lines 99-161: the pool starts with every dataset object at running sum 0 and the loop
runs; the fuel is the size of the dataset. -/
def buildClusters (space : Space D Obj) (srt : List (D × D × Obj) → List (D × D × Obj))
    (rnd : Nat → Nat) (Strategy_ : ListClustersStrategy)
    (UseBucketSize_ : Bool) (BucketSize_ : Nat) (Radius_ : D) (data : List Obj) :
    Except BuildError (List (Cluster D Obj) × Nat) :=
  buildLoop space srt rnd Strategy_ UseBucketSize_ BucketSize_ Radius_
    data.length (data.map (fun object => (0, object))) [] 0

/-- The constructor `ListClusters::ListClusters(space, data, MethParams)`.  The sentinel
`FAKE_MAX_LEAVES_TO_VISIT` is declared in a header that is not under src and is a parameter. -/
def ListClusters.create [One D] (FAKE_MAX_LEAVES_TO_VISIT : Int) (space : Space D Obj)
    (srt : List (D × D × Obj) → List (D × D × Obj)) (rnd : Nat → Nat)
    (data : List Obj) (MethParams : AnyParams D) : Except BuildError (ListClusters D Obj) :=
  match parseStrategy (MethParams.strategy.getD "random") with
  | .error e => .error e
  | .ok Strategy_ =>
    let UseBucketSize_ := MethParams.useBucketSize.getD true
    let BucketSize_ := MethParams.bucketSize.getD 50
    let Radius_ := MethParams.radius.getD 1
    let ChunkBucket_ := MethParams.chunkBucket.getD true
    let MaxLeavesToVisit_ := MethParams.maxLeavesToVisit.getD FAKE_MAX_LEAVES_TO_VISIT
    match buildClusters space srt rnd Strategy_ UseBucketSize_ BucketSize_ Radius_ data with
    | .error e => .error e
    | .ok (cluster_list, _) =>
      .ok { Strategy_ := Strategy_
            UseBucketSize_ := UseBucketSize_
            BucketSize_ := BucketSize_
            Radius_ := Radius_
            MaxLeavesToVisit_ := MaxLeavesToVisit_
            ChunkBucket_ := ChunkBucket_
            cluster_list_ :=
              if ChunkBucket_ then cluster_list.map Cluster.OptimizeBucket else cluster_list }

end Build

/-! ## Search -/

section Search

variable {D Obj Q : Type} [LinearOrderedAddCommGroup D] [DistArith D] [DecidableEq Obj]

/-- Modelled from the spec: the surface of a query accumulator that `GenSearch` uses through its
template parameter `QueryType` (`rangequery.h` and `knnquery.h` are not under src).
`DistanceObjLeft` returns the distance together with the accumulator whose `distance_evals` has
been incremented.  `Radius` is `none` while a kNN queue holds fewer than `k` entries: no
distance is then excluded. -/
structure QueryType (D Obj Q : Type) where
  DistanceObjLeft : Q → Obj → D × Q
  CheckAndAddToResult : Q → D → Obj → Q
  Radius : Q → Option D

/-- Modelled from the spec: `CheckAndAddToResult(obj)` is
`CheckAndAddToResult(DistanceObjLeft(obj), obj)`. -/
def QueryType.CheckAndAddObj (ops : QueryType D Obj Q) (query : Q) (object : Obj) : Q :=
  ops.CheckAndAddToResult (ops.DistanceObjLeft query object).2
    (ops.DistanceObjLeft query object).1 object

/-- The test `dist_qc - query->Radius() < covering_radius` (lines 200, 233), with the
difference computed in `dist_t`; with no bound on the radius it holds. -/
def ballIntersects (dist_qc : D) (radius : Option D) (covering_radius : D) : Bool :=
  match radius with
  | none => true
  | some r => decide (DistArith.sub dist_qc r < covering_radius)

/-- The test `dist_qc + query->Radius() < covering_radius` (lines 202, 253), with the sum
computed in `dist_t`; with no bound on the radius it fails. -/
def ballContained (dist_qc : D) (radius : Option D) (covering_radius : D) : Bool :=
  match radius with
  | none => false
  | some r => decide (DistArith.add dist_qc r < covering_radius)

/-- The method `Cluster::Search(query)`: every bucket object is submitted. -/
def Cluster.Search (ops : QueryType D Obj Q) (c : Cluster D Obj) (query : Q) : Q :=
  c.bucket_.foldl ops.CheckAndAddObj query

/-- The exact branch of `GenSearch` (lines 196-210). -/
def exactSearch (ops : QueryType D Obj Q) : List (Cluster D Obj) → Q → Q
  | [], query => query
  | cluster :: rest, query =>
    let dist_qc := (ops.DistanceObjLeft query cluster.center_).1
    let query1 := ops.CheckAndAddToResult (ops.DistanceObjLeft query cluster.center_).2
      dist_qc cluster.center_
    if ballIntersects dist_qc (ops.Radius query1) cluster.covering_radius_ then
      let query2 := cluster.Search ops query1
      if ballContained dist_qc (ops.Radius query2) cluster.covering_radius_ then query2
      else exactSearch ops rest query2
    else exactSearch ops rest query1

/-- The struct `Elem` of the approximate branch. -/
structure Elem (D Obj : Type) where
  cluster : Cluster D Obj
  dist_qc : D
  deriving DecidableEq

/-- The comparison `Elem::operator<` (line 224): `dist_qc > o.dist_qc`. -/
def Elem.lt (a o : Elem D Obj) : Bool := decide (a.dist_qc > o.dist_qc)

/-- The element `top()` of a `std::priority_queue<Elem>` that holds the elements of a list: a
greatest element under `Elem::operator<`, found by a scan that moves on to every element that
is greater than the current one.  Of several greatest elements the scan yields the one pushed
first; the standard library leaves open which one it hands out. -/
def queueTop : List (Elem D Obj) → Option (Elem D Obj)
  | [] => none
  | a :: rest => some (rest.foldl (fun best e => if Elem.lt best e then e else best) a)

/-- The loop `top(); pop();` on a `std::priority_queue<Elem>` until it is empty: the elements
in the order in which the queue hands them out.  The fuel is the number of elements held. -/
def queueDrain : Nat → List (Elem D Obj) → List (Elem D Obj)
  | 0, _ => []
  | fuel + 1, held =>
    match queueTop held with
    | none => []
    | some top => top :: queueDrain fuel (held.erase top)

/-- The order in which `priority_queue<Elem> queue` (line 228) hands out the elements pushed on
it by the first loop, all pushes preceding all pops. -/
def priorityQueue (pushed : List (Elem D Obj)) : List (Elem D Obj) :=
  queueDrain pushed.length pushed

/-- The first loop of the approximate branch (lines 230-237): every centre is submitted and
the clusters that pass the intersection test are pushed on the queue. -/
def collectCandidates (ops : QueryType D Obj Q) :
    List (Cluster D Obj) → Q → List (Elem D Obj) → Q × List (Elem D Obj)
  | [], query, pushed => (query, pushed)
  | cluster :: rest, query, pushed =>
    let dist_qc := (ops.DistanceObjLeft query cluster.center_).1
    let query1 := ops.CheckAndAddToResult (ops.DistanceObjLeft query cluster.center_).2
      dist_qc cluster.center_
    if ballIntersects dist_qc (ops.Radius query1) cluster.covering_radius_ then
      collectCandidates ops rest query1 (pushed ++ [Elem.mk cluster dist_qc])
    else collectCandidates ops rest query1 pushed

/-- The second loop of the approximate branch (lines 239-257) over the queue content in the
order in which `top()` yields it.  `none` is the failure of `CHECK(dist_qc >= PrevDist)`. -/
def visitLeaves (ops : QueryType D Obj Q) (MaxLeavesToVisit_ : Int) :
    List (Elem D Obj) → D → Int → Q → Option Q
  | [], _, _, query => some query
  | top :: rest, PrevDist, lproc, query =>
    if lproc < MaxLeavesToVisit_ then
      if top.dist_qc ≥ PrevDist then
        let query1 := top.cluster.Search ops query
        if ballContained top.dist_qc (ops.Radius query1) top.cluster.covering_radius_ then
          some query1
        else visitLeaves ops MaxLeavesToVisit_ rest top.dist_qc (lproc + 1) query1
      else none
    else some query

/-- The method `ListClusters::GenSearch(query)`.  `pq` gives the order in which
`std::priority_queue` hands out the elements pushed on it; `none` is a failed `CHECK`. -/
def GenSearch (FAKE_MAX_LEAVES_TO_VISIT : Int) (ops : QueryType D Obj Q)
    (pq : List (Elem D Obj) → List (Elem D Obj)) (index : ListClusters D Obj) (query : Q) :
    Option Q :=
  if index.MaxLeavesToVisit_ = FAKE_MAX_LEAVES_TO_VISIT then
    some (exactSearch ops index.cluster_list_ query)
  else
    let collected := collectCandidates ops index.cluster_list_ query []
    visitLeaves ops index.MaxLeavesToVisit_ (pq collected.2) 0 0 collected.1

/-- The elements that the second loop of the approximate branch takes from the queue and whose
bucket it scans, in the order in which it scans them (a trace of `visitLeaves`). -/
def leavesVisited (ops : QueryType D Obj Q) (MaxLeavesToVisit_ : Int) :
    List (Elem D Obj) → D → Int → Q → List (Elem D Obj)
  | [], _, _, _ => []
  | top :: rest, PrevDist, lproc, query =>
    if lproc < MaxLeavesToVisit_ then
      if top.dist_qc ≥ PrevDist then
        if ballContained top.dist_qc (ops.Radius (top.cluster.Search ops query))
            top.cluster.covering_radius_ then
          [top]
        else
          top :: leavesVisited ops MaxLeavesToVisit_ rest top.dist_qc (lproc + 1)
            (top.cluster.Search ops query)
      else []
    else []

/-- The trace of the second loop of the approximate branch of `GenSearch` for an index and a
query: the elements whose bucket is scanned, in order. -/
def approxLeaves (ops : QueryType D Obj Q) (pq : List (Elem D Obj) → List (Elem D Obj))
    (index : ListClusters D Obj) (query : Q) : List (Elem D Obj) :=
  leavesVisited ops index.MaxLeavesToVisit_
    (pq (collectCandidates ops index.cluster_list_ query []).2) 0 0
    (collectCandidates ops index.cluster_list_ query []).1

/-- The method `ListClusters::SetQueryTimeParamsInternal` (lines 43-48): the optional parameter
`maxLeavesToVisit` replaces `MaxLeavesToVisit_` when it is present. -/
def ListClusters.SetQueryTimeParams (index : ListClusters D Obj)
    (maxLeavesToVisit : Option Int) : ListClusters D Obj :=
  { index with MaxLeavesToVisit_ := maxLeavesToVisit.getD index.MaxLeavesToVisit_ }

/-- Modelled from the spec: the range query accumulator (`rangequery.h` is not under src). -/
structure RangeQuery (D Obj : Type) where
  query_object : Obj
  radius : D
  result : List (D × Obj)
  distance_evals : Nat
  deriving DecidableEq

/-- Modelled from the spec: a range accumulator with an empty result. -/
def RangeQuery.init (query_object : Obj) (radius : D) : RangeQuery D Obj :=
  { query_object := query_object, radius := radius, result := [], distance_evals := 0 }

/-- Modelled from the spec: the operations of the range accumulator.  `DistanceObjLeft(other)`
computes `distance(query, other)` and increments `distance_evals`; `CheckAndAddToResult(d, obj)`
admits the pair when `d ≤ radius`; `Radius()` is the fixed radius. -/
def rangeOps (space : Space D Obj) : QueryType D Obj (RangeQuery D Obj) where
  DistanceObjLeft := fun query other =>
    (space.distance query.query_object other,
      { query with distance_evals := query.distance_evals + 1 })
  CheckAndAddToResult := fun query d obj =>
    if d ≤ query.radius then { query with result := query.result ++ [(d, obj)] } else query
  Radius := fun query => some query.radius

/-- The method `ListClusters::Search(RangeQuery*)`. -/
def ListClusters.SearchRange (FAKE_MAX_LEAVES_TO_VISIT : Int) (space : Space D Obj)
    (pq : List (Elem D Obj) → List (Elem D Obj)) (index : ListClusters D Obj)
    (query : RangeQuery D Obj) : Option (RangeQuery D Obj) :=
  GenSearch FAKE_MAX_LEAVES_TO_VISIT (rangeOps space) pq index query

end Search

section KNN

variable {D Obj : Type} [LinearOrderedAddCommGroup D] [DistArith D] [DecidableEq Obj]

/-- Modelled from the spec: the kNN accumulator (`knnquery.h` and `knnqueue.h` are not under
src).  The bounded queue is kept as a list in ascending order of distance, so its top (the worst
admitted candidate) is the last entry. -/
structure KNNQuery (D Obj : Type) where
  query_object : Obj
  k : Nat
  eps : D
  queue : List (D × Obj)
  distance_evals : Nat
  deriving DecidableEq

/-- Modelled from the spec: a kNN accumulator with an empty queue. -/
def KNNQuery.init (query_object : Obj) (k : Nat) (eps : D) : KNNQuery D Obj :=
  { query_object := query_object, k := k, eps := eps, queue := [], distance_evals := 0 }

/-- Modelled from the spec: insertion in the queue; among equal distances the older entry
stays ahead of the newer one. -/
def knnPush : List (D × Obj) → D → Obj → List (D × Obj)
  | [], d, obj => [(d, obj)]
  | x :: rest, d, obj => if d < x.1 then (d, obj) :: x :: rest else x :: knnPush rest d obj

/-- Modelled from the spec: `Radius()` of the kNN accumulator, the admission bound
`top / (1 + eps)` once the queue holds `k` entries; before that no distance is excluded. -/
def KNNQuery.Radius (query : KNNQuery D Obj) : Option D :=
  if query.queue.length < query.k then none
  else query.queue.getLast?.map (fun top => DistArith.shrink top.1 query.eps)

/-- Modelled from the spec: `CheckAndAddToResult(d, obj)` of the kNN accumulator.  While the
queue holds fewer than `k` entries the candidate is inserted; when it is full the candidate is
admitted if `d < Radius()`: it is inserted and the entry that is then the worst is removed, so
that the candidate takes the place of the top whenever it improves on it. -/
def KNNQuery.CheckAndAddToResult (query : KNNQuery D Obj) (d : D) (obj : Obj) :
    KNNQuery D Obj :=
  if query.queue.length < query.k then { query with queue := knnPush query.queue d obj }
  else
    match query.Radius with
    | none => query
    | some bound =>
      if d < bound then { query with queue := (knnPush query.queue d obj).dropLast }
      else query

/-- Modelled from the spec: the operations of the kNN accumulator. -/
def knnOps (space : Space D Obj) : QueryType D Obj (KNNQuery D Obj) where
  DistanceObjLeft := fun query other =>
    (space.distance query.query_object other,
      { query with distance_evals := query.distance_evals + 1 })
  CheckAndAddToResult := KNNQuery.CheckAndAddToResult
  Radius := KNNQuery.Radius

/-- The method `ListClusters::Search(KNNQuery*)`. -/
def ListClusters.SearchKNN (FAKE_MAX_LEAVES_TO_VISIT : Int) (space : Space D Obj)
    (pq : List (Elem D Obj) → List (Elem D Obj)) (index : ListClusters D Obj)
    (query : KNNQuery D Obj) : Option (KNNQuery D Obj) :=
  GenSearch FAKE_MAX_LEAVES_TO_VISIT (knnOps space) pq index query

end KNN

/-! ## MultiIndex -/

section MultiIndexRange

variable {D Obj : Type} [LinearOrderedAddCommGroup D] [DistArith D] [DecidableEq Obj]

/-- Modelled from the spec: the polymorphic index base (`index.h` is not under src), as far as
`MultiIndex` uses a child: `Search` for each query kind mutates the accumulator it is given.
`none` is a child that aborts. -/
structure Index (D Obj : Type) where
  SearchRange : RangeQuery D Obj → Option (RangeQuery D Obj)
  SearchKNN : KNNQuery D Obj → Option (KNNQuery D Obj)

/-- Modelled from the spec: `AddDistanceComputations(n)` of the range accumulator, an external
bump of `distance_evals`. -/
def RangeQuery.AddDistanceComputations (query : RangeQuery D Obj) (n : Nat) :
    RangeQuery D Obj :=
  { query with distance_evals := query.distance_evals + n }

/-- The inner loop of `MultiIndex::Search(RangeQuery*)` (lines 90-96) over the result of one
child: an object that is not in `found` is submitted with the distance the child reported and
inserted in `found`. -/
def mergeRange (space : Space D Obj) :
    List (D × Obj) → RangeQuery D Obj → List Obj → RangeQuery D Obj × List Obj
  | [], query, found => (query, found)
  | p :: rest, query, found =>
    if p.2 ∈ found then mergeRange space rest query found
    else mergeRange space rest ((rangeOps space).CheckAndAddToResult query p.1 p.2)
      (p.2 :: found)

/-- The outer loop of `MultiIndex::Search(RangeQuery*)` (lines 83-97). -/
def searchRangeLoop (space : Space D Obj) :
    List (Index D Obj) → RangeQuery D Obj → List Obj → Option (RangeQuery D Obj)
  | [], query, _ => some query
  | child :: rest, query, found =>
    match child.SearchRange (RangeQuery.init query.query_object query.radius) with
    | none => none
    | some TmpRes =>
      searchRangeLoop space rest
        (mergeRange space TmpRes.result
          (query.AddDistanceComputations TmpRes.distance_evals) found).1
        (mergeRange space TmpRes.result
          (query.AddDistanceComputations TmpRes.distance_evals) found).2

/-- The method `MultiIndex::Search(RangeQuery*)`. -/
def MultiIndex.SearchRange (space : Space D Obj) (indices_ : List (Index D Obj))
    (query : RangeQuery D Obj) : Option (RangeQuery D Obj) :=
  searchRangeLoop space indices_ query []

end MultiIndexRange

section MultiIndexKNN

variable {D Obj : Type} [LinearOrderedAddCommGroup D] [DistArith D] [DecidableEq Obj]

/-- Modelled from the spec: `AddDistanceComputations(n)` of the kNN accumulator. -/
def KNNQuery.AddDistanceComputations (query : KNNQuery D Obj) (n : Nat) : KNNQuery D Obj :=
  { query with distance_evals := query.distance_evals + n }

/-- The loop `while (!ResQ->Empty())` of `MultiIndex::Search(KNNQuery*)` (lines 115-123) over
the entries of the cloned queue in the order in which `TopObject`, `TopDistance` and `Pop` hand
them out; `objId` is `Object::id()`. -/
def drainKNN (objId : Obj → Int) :
    List (D × Obj) → KNNQuery D Obj → List Int → KNNQuery D Obj × List Int
  | [], query, found => (query, found)
  | p :: rest, query, found =>
    if objId p.2 ∈ found then drainKNN objId rest query found
    else drainKNN objId rest (query.CheckAndAddToResult p.1 p.2) (objId p.2 :: found)

/-- Modelled from the spec: the order in which a queue hands out its entries.  The top of the
bounded queue is its worst entry, the last of the ascending list, and `Pop` removes it: the
entries come out from the last to the first. -/
def popOrder (queue : List (D × Obj)) : List (D × Obj) := queue.reverse

/-- The outer loop of `MultiIndex::Search(KNNQuery*)` (lines 108-124). -/
def searchKNNLoop (objId : Obj → Int) :
    List (Index D Obj) → KNNQuery D Obj → List Int → Option (KNNQuery D Obj)
  | [], query, _ => some query
  | child :: rest, query, found =>
    match child.SearchKNN (KNNQuery.init query.query_object query.k query.eps) with
    | none => none
    | some TmpRes =>
      searchKNNLoop objId rest
        (drainKNN objId (popOrder TmpRes.queue)
          (query.AddDistanceComputations TmpRes.distance_evals) found).1
        (drainKNN objId (popOrder TmpRes.queue)
          (query.AddDistanceComputations TmpRes.distance_evals) found).2

/-- The method `MultiIndex::Search(KNNQuery*)`. -/
def MultiIndex.SearchKNN (objId : Obj → Int) (indices_ : List (Index D Obj))
    (query : KNNQuery D Obj) : Option (KNNQuery D Obj) :=
  searchKNNLoop objId indices_ query []

/-- A List-of-Clusters index as a child of `MultiIndex`. -/
def ListClusters.toIndex (FAKE_MAX_LEAVES_TO_VISIT : Int) (space : Space D Obj)
    (pq : List (Elem D Obj) → List (Elem D Obj)) (index : ListClusters D Obj) : Index D Obj :=
  { SearchRange := ListClusters.SearchRange FAKE_MAX_LEAVES_TO_VISIT space pq index
    SearchKNN := ListClusters.SearchKNN FAKE_MAX_LEAVES_TO_VISIT space pq index }

end MultiIndexKNN

/-! ## Concrete instances used to run the code -/

section Instances

/-- An implementation of `std::sort` with the comparator `DistDistObjectTupleAscComparator`:
insertion sort on the first component. -/
def insertionSortDp {D Obj : Type} [LinearOrder D] (dp : List (D × D × Obj)) :
    List (D × D × Obj) :=
  dp.insertionSort (fun x y => x.1 ≤ y.1)

/-- An implementation of the min-heap on `dist_qc`: insertion sort on `dist_qc`. -/
def insertionSortPq {D Obj : Type} [LinearOrder D] (pushed : List (Elem D Obj)) :
    List (Elem D Obj) :=
  pushed.insertionSort (fun x y => x.dist_qc ≤ y.dist_qc)

/-- The space of the integers with `|a - b|`. -/
def lineSpace : Space Int Int :=
  { distance := fun a b => |a - b|, IndexTimeDistance := fun a b => |a - b| }

/-- The space of the rationals with `|a - b|`. -/
def ratLineSpace : Space ℚ ℚ :=
  { distance := fun a b => |a - b|, IndexTimeDistance := fun a b => |a - b| }

/-- A space on the integers whose distance `a - b - 10` takes negative values. -/
def negativeSpace : Space Int Int :=
  { distance := fun a b => a - b - 10, IndexTimeDistance := fun a b => a - b - 10 }

/-- A parameter bag that only sets the strategy. -/
def strategyParams (s : String) : AnyParams Int :=
  { strategy := some s, useBucketSize := none, bucketSize := none, radius := none,
    chunkBucket := none, maxLeavesToVisit := none }

/-- An index of three clusters on the integer line with a budget of one leaf. -/
def oneLeafIndex : ListClusters Int Int :=
  { Strategy_ := .kClosestPrevCenter, UseBucketSize_ := true, BucketSize_ := 2, Radius_ := 1,
    MaxLeavesToVisit_ := 1, ChunkBucket_ := true,
    cluster_list_ := [⟨0, 2, [1, 2]⟩, ⟨3, 2, [4, 5]⟩, ⟨6, 0, []⟩] }

/-- Parameters of an approximate index on the rationals: `closestPrevCenter`, buckets of two
objects and a budget of one leaf. -/
def oneLeafParams : AnyParams ℚ :=
  { strategy := some "closestPrevCenter", useBucketSize := none, bucketSize := some 2,
    radius := none, chunkBucket := none, maxLeavesToVisit := some 1 }

/-- The index that the constructor returns for the dataset 0, 1, 2, 3, 4, 5 with
`oneLeafParams`. -/
def sixPointIndex : ListClusters ℚ ℚ :=
  { Strategy_ := .kClosestPrevCenter, UseBucketSize_ := true, BucketSize_ := 2, Radius_ := 1,
    MaxLeavesToVisit_ := 1, ChunkBucket_ := true,
    cluster_list_ := [⟨0, 2, [1, 2]⟩, ⟨3, 2, [4, 5]⟩] }

/-- A symmetric, non-negative distance on the integers without the triangle inequality: 10
between 0 and 2, and 1 between any other two different points. -/
def jumpSpace : Space Int Int :=
  { distance := fun a b => if a = b then 0 else if a + b = 2 ∧ a * b = 0 then 10 else 1,
    IndexTimeDistance :=
      fun a b => if a = b then 0 else if a + b = 2 ∧ a * b = 0 then 10 else 1 }

/-- Parameters of an exact index: `closestPrevCenter` and buckets of one object. -/
def oneObjectBucketParams : AnyParams Int :=
  { strategy := some "closestPrevCenter", useBucketSize := none, bucketSize := some 1,
    radius := none, chunkBucket := none, maxLeavesToVisit := none }

/-- The index that the constructor returns on the integer line for the dataset 0, 2, 10 with
`oneObjectBucketParams`. -/
def boundaryIndex : ListClusters Int Int :=
  { Strategy_ := .kClosestPrevCenter, UseBucketSize_ := true, BucketSize_ := 1, Radius_ := 1,
    MaxLeavesToVisit_ := 2147483647, ChunkBucket_ := true,
    cluster_list_ := [⟨0, 2, [2]⟩, ⟨10, 0, []⟩] }

/-- The index that the constructor returns under `jumpSpace` for the dataset 0, 1 with the
default parameters. -/
def jumpIndex : ListClusters Int Int :=
  { Strategy_ := .kRandom, UseBucketSize_ := true, BucketSize_ := 50, Radius_ := 1,
    MaxLeavesToVisit_ := 2147483647, ChunkBucket_ := true,
    cluster_list_ := [⟨0, 1, [1]⟩] }

/-- Parameters of scenario S1 on the rationals: radius mode with radius 100 and the random
strategy. -/
def s1Params : AnyParams ℚ :=
  { strategy := some "random", useBucketSize := some false, bucketSize := none,
    radius := some 100, chunkBucket := none, maxLeavesToVisit := none }

/-- The index that the constructor returns for the dataset 0, 5, 10 with `s1Params` when
`RandomInt()` returns 0. -/
def s1Index : ListClusters ℚ ℚ :=
  { Strategy_ := .kRandom, UseBucketSize_ := false, BucketSize_ := 50, Radius_ := 100,
    MaxLeavesToVisit_ := 2147483647, ChunkBucket_ := true,
    cluster_list_ := [⟨0, 10, [5, 10]⟩] }

/-- A pool of five entries whose smallest running sum 2 is held at the indices 1 and 3, and
whose largest running sum 7 is held at the indices 0 and 4. -/
def tiePool : List (Int × Int) := [(7, 100), (2, 101), (5, 102), (2, 103), (7, 104)]

/-- Parameters of scenario S3: `farthestPrevCenter` and buckets of four objects. -/
def s3Params : AnyParams ℚ :=
  { strategy := some "farthestPrevCenter", useBucketSize := some true, bucketSize := some 4,
    radius := none, chunkBucket := none, maxLeavesToVisit := none }

/-- The cluster that the build of scenario S3 returns for the dataset 0, 1, 2, 3, 4. -/
def s3Cluster : Cluster ℚ ℚ := { center_ := 4, covering_radius_ := 4, bucket_ := [3, 2, 1, 0] }

/-- The index that the constructor returns for the dataset 0, 1, 2, 3, 4 with `s3Params`. -/
def s3Index : ListClusters ℚ ℚ :=
  { Strategy_ := .kFarthestPrevCenter, UseBucketSize_ := true, BucketSize_ := 4, Radius_ := 1,
    MaxLeavesToVisit_ := 2147483647, ChunkBucket_ := true, cluster_list_ := [s3Cluster] }

/-- Parameters of an approximate index with the default build and a budget of one leaf. -/
def oneLeafDefaultParams : AnyParams Int :=
  { strategy := none, useBucketSize := none, bucketSize := none, radius := none,
    chunkBucket := none, maxLeavesToVisit := some 1 }

/-- The index that the constructor returns under `negativeSpace` for the dataset 5, 3 with
`oneLeafDefaultParams`. -/
def negativeIndex : ListClusters Int Int :=
  { Strategy_ := .kRandom, UseBucketSize_ := true, BucketSize_ := 50, Radius_ := 1,
    MaxLeavesToVisit_ := 1, ChunkBucket_ := true, cluster_list_ := [⟨5, 0, [3]⟩] }

/-- The clusters of `oneLeafIndex` with a budget of three leaves. -/
def threeLeafIndex : ListClusters Int Int :=
  { Strategy_ := .kClosestPrevCenter, UseBucketSize_ := true, BucketSize_ := 2, Radius_ := 1,
    MaxLeavesToVisit_ := 3, ChunkBucket_ := true,
    cluster_list_ := [⟨0, 2, [1, 2]⟩, ⟨3, 2, [4, 5]⟩, ⟨6, 0, []⟩] }

/-- Parameters of an exact index on the rationals: `closestPrevCenter` and buckets of two
objects. -/
def twoObjectBucketParams : AnyParams ℚ :=
  { strategy := some "closestPrevCenter", useBucketSize := none, bucketSize := some 2,
    radius := none, chunkBucket := none, maxLeavesToVisit := none }

/-- The index that the constructor returns for the dataset 0, 8, 10, 18, 16, 20 with
`twoObjectBucketParams`. -/
def twoClusterIndex : ListClusters ℚ ℚ :=
  { Strategy_ := .kClosestPrevCenter, UseBucketSize_ := true, BucketSize_ := 2, Radius_ := 1,
    MaxLeavesToVisit_ := 2147483647, ChunkBucket_ := true,
    cluster_list_ := [⟨0, 10, [8, 10]⟩, ⟨16, 4, [18, 20]⟩] }

/-- The index that the constructor returns on the integer line for the dataset 0, 4, 10, 18
with `oneObjectBucketParams`: the ball of the second cluster reaches into the first one. -/
def overlapIndex : ListClusters Int Int :=
  { Strategy_ := .kClosestPrevCenter, UseBucketSize_ := true, BucketSize_ := 1, Radius_ := 1,
    MaxLeavesToVisit_ := 2147483647, ChunkBucket_ := true,
    cluster_list_ := [⟨0, 4, [4]⟩, ⟨10, 8, [18]⟩] }

/-- The states of the build loop for the dataset 0, 7, 3, 9, 20 on the integer line with
`closestPrevCenter` and buckets of one object. -/
def fivePointStates : List (List (Int × Int) × List (Cluster Int Int)) :=
  [([(0, 0), (0, 7), (0, 3), (0, 9), (0, 20)], []),
   ([(7, 7), (9, 9), (20, 20)], [⟨0, 3, [3]⟩]),
   ([(33, 20)], [⟨0, 3, [3]⟩, ⟨7, 2, [9]⟩])]

/-- The states of the build loop for the dataset 0, 100, 1100000000 on the integer line with
`closestPrevCenter` and buckets of no object: the third running sum has wrapped around. -/
def wrappedStates : List (List (Int × Int) × List (Cluster Int Int)) :=
  [([(0, 0), (0, 100), (0, 1100000000)], []),
   ([(100, 100), (1100000000, 1100000000)], [⟨0, 0, []⟩]),
   ([(-2094967396, 1100000000)], [⟨0, 0, []⟩, ⟨100, 0, []⟩])]

/-- The index that the constructor returns on the integer line for the dataset 0, 5,
1100000001 with `oneObjectBucketParams`. -/
def farIndex : ListClusters Int Int :=
  { Strategy_ := .kClosestPrevCenter, UseBucketSize_ := true, BucketSize_ := 1, Radius_ := 1,
    MaxLeavesToVisit_ := 2147483647, ChunkBucket_ := true,
    cluster_list_ := [⟨0, 5, [5]⟩, ⟨1100000001, 0, []⟩] }

/-- The exact List-of-Clusters child over the dataset 0, 8, 10, 18, 16, 20. -/
def exactChild : Index ℚ ℚ :=
  ListClusters.toIndex 2147483647 ratLineSpace insertionSortPq twoClusterIndex

/-- The same List-of-Clusters child with a budget of one leaf. -/
def oneLeafChild : Index ℚ ℚ :=
  ListClusters.toIndex 2147483647 ratLineSpace insertionSortPq
    (twoClusterIndex.SetQueryTimeParams (some 1))

/-- The range accumulator the one-leaf child returns for the query of radius 6 at 11. -/
def oneLeafReply : RangeQuery ℚ ℚ :=
  { query_object := 11, radius := 6, result := [(5, 16)], distance_evals := 4 }

/-- The range accumulator the exact child returns for the query of radius 6 at 11. -/
def exactReply : RangeQuery ℚ ℚ :=
  { query_object := 11, radius := 6, result := [(3, 8), (1, 10), (5, 16)],
    distance_evals := 6 }

/-- The kNN accumulator the exact child returns for the query with k = 3 at 11. -/
def exactKnnReply : KNNQuery ℚ ℚ :=
  { query_object := 11, k := 3, eps := 0, queue := [(1, 10), (3, 8), (5, 16)],
    distance_evals := 6 }

/-- The id of a rational point of the concrete datasets: its numerator. -/
def pointId (o : ℚ) : Int := o.num

/-- The value used for the sentinel in the concrete runs. -/
def sentinel : Int := 2147483647

/-- A parameter bag with no key set. -/
def noParams (D : Type) : AnyParams D :=
  { strategy := none, useBucketSize := none, bucketSize := none, radius := none,
    chunkBucket := none, maxLeavesToVisit := none }

end Instances

end similarity

/-! ## Specification vocabulary -/

namespace similarity

section Vocabulary

variable {D Obj : Type} [LinearOrderedAddCommGroup D] [DistArith D] [DecidableEq Obj]

/-- The contract of `std::sort` with `DistDistObjectTupleAscComparator`: the output is a
permutation of the input and no element compares less than an element before it. -/
def IsStdSort (srt : List (D × D × Obj) → List (D × D × Obj)) : Prop :=
  ∀ l, (srt l).Perm l ∧ (srt l).Pairwise (fun x y => ¬ y.1 < x.1)

/-- The tuple pushed on `dp` for a pool entry (line 126). -/
def dpEntry (space : Space D Obj) (center : Obj) (p : D × Obj) : D × D × Obj :=
  (space.IndexTimeDistance p.2 center, p.1, p.2)

/-- The pair pushed on `outside` for a tuple of `dp` (line 136), with the sum computed in
`dist_t`. -/
def outsideEntry (p : D × D × Obj) : D × Obj := (DistArith.add p.1 p.2.1, p.2.2)

/-- The pool entries whose object is not the centre. -/
def others (center : Obj) (remaining : List (D × Obj)) : List (D × Obj) :=
  remaining.filter (fun p => decide (p.2 ≠ center))

/-- The statement `new_cluster->AddObject(std::get<2>(p), std::get<0>(p))` on a tuple. -/
def addTuple (c : Cluster D Obj) (p : D × D × Obj) : Cluster D Obj := c.AddObject p.2.2 p.1

/-- The tuples of one build iteration: every non-centre pool entry with its distance to the
centre, in pool order. -/
def stepTuples (space : Space D Obj) (center : Obj) (remaining : List (D × Obj)) :
    List (D × D × Obj) :=
  (others center remaining).map (dpEntry space center)

/-- The tuples that join the bucket in one build iteration. -/
def stepInside (space : Space D Obj) (srt : List (D × D × Obj) → List (D × D × Obj))
    (UseBucketSize_ : Bool) (BucketSize_ : Nat) (Radius_ : D)
    (remaining : List (D × Obj)) (center : Obj) : List (D × D × Obj) :=
  if UseBucketSize_ then (srt (stepTuples space center remaining)).take BucketSize_
  else (stepTuples space center remaining).filter (fun t => decide (t.1 < Radius_))

/-- The tuples that go to the next pool in one build iteration. -/
def stepOutside (space : Space D Obj) (srt : List (D × D × Obj) → List (D × D × Obj))
    (UseBucketSize_ : Bool) (BucketSize_ : Nat) (Radius_ : D)
    (remaining : List (D × Obj)) (center : Obj) : List (D × D × Obj) :=
  if UseBucketSize_ then (srt (stepTuples space center remaining)).drop BucketSize_
  else (stepTuples space center remaining).filter (fun t => ! decide (t.1 < Radius_))

/-- The strategy names of the specification with the strategy each one selects. -/
def specStrategyNames : List (String × ListClustersStrategy) :=
  [("random", .kRandom), ("closestPrevCenter", .kClosestPrevCenter),
   ("farthestPrevCenter", .kFarthestPrevCenter),
   ("minSumDistPrevCenters", .kMinSumDistPrevCenters),
   ("maxSumDistPrevCenters", .kMaxSumDistPrevCenters)]

/-- The centres and bucket members of a cluster list, in order. -/
def allMembers : List (Cluster D Obj) → List Obj
  | [] => []
  | c :: rest => c.members ++ allMembers rest

/-- The distances of the bucket members of a cluster to its centre. -/
def bucketDists (space : Space D Obj) (c : Cluster D Obj) : List D :=
  c.bucket_.map (fun obj => space.IndexTimeDistance obj c.center_)

/-- The covering radius is the maximum of the bucket distances, and 0 for an empty bucket. -/
def CoveringRadiusIsMax (space : Space D Obj) (c : Cluster D Obj) : Prop :=
  (c.bucket_ = [] → c.covering_radius_ = 0) ∧
  (c.bucket_ ≠ [] →
    c.covering_radius_ ∈ bucketDists space c ∧ ∀ d ∈ bucketDists space c, d ≤ c.covering_radius_)

/-- A distance `d` is inside the current radius of the accumulator: the pruning tests of
`GenSearch` compare against this radius. -/
def Admits {Q : Type} (ops : QueryType D Obj Q) (query : Q) (d : D) : Prop :=
  match ops.Radius query with
  | none => True
  | some r => d < r

/-- An object needs no further attention: it is in the result (`Has`), or its distance from the
query (`dq`) is not inside the current radius. -/
def Settled {Q : Type} (ops : QueryType D Obj Q) (Has : Q → Obj → Prop) (dq : Obj → D)
    (query : Q) (o : Obj) : Prop :=
  Has query o ∨ ¬ Admits ops query (dq o)

/-- The shape of a cluster list that the pruning relies on: within a cluster no bucket member
is farther from the centre than the covering radius, and every object of a later cluster is at
least that far from the centre. -/
def IndexOrdered (space : Space D Obj) : List (Cluster D Obj) → Prop
  | [] => True
  | c :: rest =>
    (∀ o ∈ c.bucket_, space.IndexTimeDistance o c.center_ ≤ c.covering_radius_) ∧
    (∀ o ∈ allMembers rest, c.covering_radius_ ≤ space.IndexTimeDistance o c.center_) ∧
    IndexOrdered space rest

/-- The contract of `std::priority_queue<Elem>` with `operator<` of `Elem` (a min-heap on
`dist_qc`) when all pushes precede all pops: the elements come out as a permutation of the
pushed ones in which no element has a smaller `dist_qc` than an element before it. -/
def IsPqOrder (pq : List (Elem D Obj) → List (Elem D Obj)) : Prop :=
  ∀ l, (pq l).Perm l ∧ (pq l).Pairwise (fun a b => a.dist_qc ≤ b.dist_qc)

/-- The contract of `std::priority_queue<Elem>` with `Elem::operator<` when all pushes precede
all pops: the elements come out as a permutation of the pushed ones, and an element that
`top()` hands out is not less, under `Elem::operator<`, than any element that comes out
later. -/
def IsPriorityQueue (pq : List (Elem D Obj) → List (Elem D Obj)) : Prop :=
  ∀ l, (pq l).Perm l ∧ (pq l).Pairwise (fun a b => Elem.lt a b = false)

/-- The index scan of `SelectNextCenter` on a key function: starting from `idx0`, the index
moves to `i` whenever the key at `i` is smaller than the key at the current index, for `i` from
0 to `m - 1`. -/
def argScan {E : Type} [LinearOrder E] (v : Nat → E) (idx0 : Nat) (m : Nat) : Nat :=
  (List.range m).foldl (fun idx i => if v i < v idx then i else idx) idx0

/-- The reports that pass the duplicate filter of `MultiIndex::Search`: a report is kept when
the key of its object is not in `seen` and no earlier report has the same key. -/
def keepFirst {K : Type} [DecidableEq K] (key : Obj → K) :
    List K → List (D × Obj) → List (D × Obj)
  | _, [] => []
  | seen, p :: rest =>
    if key p.2 ∈ seen then keepFirst key seen rest
    else p :: keepFirst key (key p.2 :: seen) rest

/-- The result pairs of the temporary range queries of the children, child after child. -/
def rangeReports : List (RangeQuery D Obj) → List (D × Obj)
  | [] => []
  | t :: rest => t.result ++ rangeReports rest

/-- The sum of `IndexTimeDistance(obj, c)` over the centres `c` of a cluster list. -/
def sumToCenters (space : Space D Obj) (cluster_list : List (Cluster D Obj)) (obj : Obj) : D :=
  (cluster_list.map (fun c => space.IndexTimeDistance obj c.center_)).sum

/-- The running sum of an object as the build accumulates it: starting from 0, the distance
to each centre of the cluster list is added in `dist_t`, in the order of creation. -/
def machineSum (space : Space D Obj) (cluster_list : List (Cluster D Obj)) (obj : Obj) : D :=
  cluster_list.foldl (fun s c => DistArith.add s (space.IndexTimeDistance obj c.center_)) 0

/-- No addition overflows or rounds when the distances of an object to the centres of a cluster
list are added to the running sum `s`, one after the other. -/
def sumsExactFrom (space : Space D Obj) (obj : Obj) : List (Cluster D Obj) → D → Bool
  | [], _ => true
  | c :: rest, s =>
    decide (DistArith.add s (space.IndexTimeDistance obj c.center_)
      = s + space.IndexTimeDistance obj c.center_) &&
    sumsExactFrom space obj rest (s + space.IndexTimeDistance obj c.center_)

/-- The pool is in non-decreasing order of `IndexTimeDistance` to the object `center`. -/
def SortedToward (space : Space D Obj) (center : Obj) (remaining : List (D × Obj)) : Prop :=
  remaining.Pairwise
    (fun a b => space.IndexTimeDistance a.2 center ≤ space.IndexTimeDistance b.2 center)

/-- The running sum `remaining[i].first`, and 0 outside the pool. -/
def sumAt (remaining : List (D × Obj)) (i : Nat) : D :=
  match remaining[i]? with
  | some a => a.1
  | none => 0

end Vocabulary

section KNNVocabulary

variable {D Obj : Type} [LinearOrderedAddCommGroup D] [DistArith D] [DecidableEq Obj]

/-- The state of a kNN accumulator for the query object `x` with `k` neighbours and `eps = 0`:
at most `k` entries, in ascending order of distance, each at the distance of its object. -/
def KnnInv (space : Space D Obj) (x : Obj) (k : Nat) (q : KNNQuery D Obj) : Prop :=
  q.query_object = x ∧ q.k = k ∧ q.eps = 0 ∧ q.queue.length ≤ k ∧
  q.queue.Pairwise (fun a b => a.1 ≤ b.1) ∧
  ∀ p ∈ q.queue, p.1 = space.distance x p.2

/-- The object is in the queue of the kNN accumulator. -/
def KnnHas (q : KNNQuery D Obj) (o : Obj) : Prop := o ∈ q.queue.map Prod.snd

/-- The entries of the temporary kNN queries of the children, child after child, each queue in
the order in which it is drained. -/
def knnReports : List (KNNQuery D Obj) → List (D × Obj)
  | [] => []
  | t :: rest => popOrder t.queue ++ knnReports rest

/-- The kNN accumulator after `CheckAndAddToResult(d, obj)` for each report of a list, in
order. -/
def submitReports (l : List (D × Obj)) (query : KNNQuery D Obj) : KNNQuery D Obj :=
  l.foldl (fun q p => q.CheckAndAddToResult p.1 p.2) query

end KNNVocabulary

/-! ## The build: one iteration -/

section BuildLemmas

variable {D Obj : Type} [LinearOrderedAddCommGroup D] [DistArith D] [DecidableEq Obj]

theorem scanBucketMode_of_not_mem (space : Space D Obj) (center : Obj) :
    ∀ (l : List (D × Obj)) (skipped : Bool) (dp : List (D × D × Obj)),
      center ∉ l.map Prod.snd →
      scanBucketMode space center l skipped dp = .ok (dp ++ l.map (dpEntry space center)) := by
  intro l
  induction l with
  | nil => intro skipped dp _; simp [scanBucketMode]
  | cons p rest ih =>
    intro skipped dp h
    have hp : p.2 ≠ center := by
      intro e; apply h; simp [e]
    have hr : center ∉ rest.map Prod.snd := by
      intro e; apply h; simp only [List.map_cons, List.mem_cons]; exact Or.inr e
    rw [scanBucketMode, if_neg hp, ih skipped _ hr]
    simp [dpEntry]

theorem others_of_not_mem (center : Obj) (l : List (D × Obj))
    (h : center ∉ l.map Prod.snd) : others center l = l := by
  unfold others
  rw [List.filter_eq_self]
  intro p hp
  simp only [decide_eq_true_eq]
  intro e
  apply h
  rw [← e]
  exact List.mem_map_of_mem _ hp

theorem scanBucketMode_nodup (space : Space D Obj) (center : Obj) :
    ∀ (l : List (D × Obj)) (dp : List (D × D × Obj)),
      (l.map Prod.snd).count center ≤ 1 →
      scanBucketMode space center l false dp
        = .ok (dp ++ (others center l).map (dpEntry space center)) := by
  intro l
  induction l with
  | nil => intro dp _; simp [scanBucketMode, others]
  | cons p rest ih =>
    intro dp h
    rw [List.map_cons, List.count_cons] at h
    by_cases hp : p.2 = center
    · have hr : center ∉ rest.map Prod.snd := by
        rw [← List.count_eq_zero]
        simp only [hp, beq_self_eq_true, if_true] at h
        omega
      rw [scanBucketMode, if_pos hp]
      simp only [Bool.false_eq_true, if_false]
      rw [scanBucketMode_of_not_mem space center rest true dp hr]
      have : others center (p :: rest) = rest := by
        have h1 : others center (p :: rest) = others center rest := by
          simp [others, hp]
        rw [h1, others_of_not_mem center rest hr]
      rw [this]
    · have hr : (rest.map Prod.snd).count center ≤ 1 := by omega
      rw [scanBucketMode, if_neg hp, ih _ hr]
      have : others center (p :: rest) = p :: others center rest := by
        simp [others, hp]
      rw [this]
      simp [dpEntry]

theorem fillBucket_eq (BucketSize_ : Nat) :
    ∀ (dp : List (D × D × Obj)) (c : Cluster D Obj) (outside : List (D × Obj)),
      fillBucket BucketSize_ dp c outside =
        ((dp.take (BucketSize_ - c.bucket_.length)).foldl
            (fun c p => c.AddObject p.2.2 p.1) c,
          outside ++ (dp.drop (BucketSize_ - c.bucket_.length)).map outsideEntry) := by
  intro dp
  induction dp with
  | nil => intro c outside; simp [fillBucket]
  | cons p rest ih =>
    intro c outside
    by_cases hlt : c.bucket_.length < BucketSize_
    · rw [fillBucket, Cluster.GetBucket, if_pos hlt, ih]
      have h1 : BucketSize_ - c.bucket_.length = (BucketSize_ - (c.bucket_.length + 1)) + 1 := by
        omega
      have h2 : (c.AddObject p.2.2 p.1).bucket_.length = c.bucket_.length + 1 := by
        simp [Cluster.AddObject]
      rw [h2, h1]
      simp
    · rw [fillBucket, Cluster.GetBucket, if_neg hlt, ih]
      have h1 : BucketSize_ - c.bucket_.length = 0 := by omega
      rw [h1]
      simp [outsideEntry]

theorem ite_lt_eq_max (a b : D) : (if a < b then b else a) = max a b := by
  by_cases h : a < b
  · rw [if_pos h, max_eq_right (le_of_lt h)]
  · rw [if_neg h, max_eq_left (not_lt.mp h)]

theorem foldl_addTuple (ts : List (D × D × Obj)) :
    ∀ c : Cluster D Obj,
      (ts.foldl addTuple c).center_ = c.center_ ∧
      (ts.foldl addTuple c).bucket_ = c.bucket_ ++ ts.map (fun t => t.2.2) ∧
      (ts.foldl addTuple c).covering_radius_
        = (ts.map (fun t => t.1)).foldl max c.covering_radius_ := by
  induction ts with
  | nil => intro c; simp
  | cons t rest ih =>
    intro c
    obtain ⟨h1, h2, h3⟩ := ih (addTuple c t)
    simp only [List.foldl_cons, List.map_cons]
    refine ⟨?_, ?_, ?_⟩
    · rw [h1]; rfl
    · rw [h2]; simp [addTuple, Cluster.AddObject]
    · rw [h3]; simp [addTuple, Cluster.AddObject, ite_lt_eq_max]

theorem scanRadiusMode_of_not_mem (space : Space D Obj) (Radius_ : D) (center : Obj) :
    ∀ (l : List (D × Obj)) (skipped : Bool) (c : Cluster D Obj) (outside : List (D × Obj)),
      center ∉ l.map Prod.snd →
      scanRadiusMode space Radius_ center l skipped c outside
        = .ok (((l.map (dpEntry space center)).filter
                  (fun t => decide (t.1 < Radius_))).foldl addTuple c,
               outside ++ ((l.map (dpEntry space center)).filter
                  (fun t => ! decide (t.1 < Radius_))).map outsideEntry) := by
  intro l
  induction l with
  | nil => intro skipped c outside _; simp [scanRadiusMode]
  | cons p rest ih =>
    intro skipped c outside h
    have hp : p.2 ≠ center := by
      intro e; apply h; simp [e]
    have hr : center ∉ rest.map Prod.snd := by
      intro e; apply h; simp only [List.map_cons, List.mem_cons]; exact Or.inr e
    rw [scanRadiusMode, if_neg hp]
    by_cases hd : space.IndexTimeDistance p.2 center < Radius_
    · rw [if_pos hd, ih _ _ _ hr]
      simp [dpEntry, hd, addTuple]
    · rw [if_neg hd, ih _ _ _ hr]
      simp [dpEntry, hd, outsideEntry]
      exact DistArith.add_comm _ _

theorem scanRadiusMode_nodup (space : Space D Obj) (Radius_ : D) (center : Obj) :
    ∀ (l : List (D × Obj)) (c : Cluster D Obj) (outside : List (D × Obj)),
      (l.map Prod.snd).count center ≤ 1 →
      scanRadiusMode space Radius_ center l false c outside
        = .ok (((stepTuples space center l).filter
                  (fun t => decide (t.1 < Radius_))).foldl addTuple c,
               outside ++ ((stepTuples space center l).filter
                  (fun t => ! decide (t.1 < Radius_))).map outsideEntry) := by
  intro l
  induction l with
  | nil => intro c outside _; simp [scanRadiusMode, stepTuples, others]
  | cons p rest ih =>
    intro c outside h
    rw [List.map_cons, List.count_cons] at h
    by_cases hp : p.2 = center
    · have hr : center ∉ rest.map Prod.snd := by
        rw [← List.count_eq_zero]
        simp only [hp, beq_self_eq_true, if_true] at h
        omega
      rw [scanRadiusMode, if_pos hp]
      simp only [Bool.false_eq_true, if_false]
      rw [scanRadiusMode_of_not_mem space Radius_ center rest true c outside hr]
      have h1 : others center (p :: rest) = rest := by
        have h1 : others center (p :: rest) = others center rest := by
          simp [others, hp]
        rw [h1, others_of_not_mem center rest hr]
      rw [stepTuples, h1]
    · rw [scanRadiusMode, if_neg hp]
      have h1 : others center (p :: rest) = p :: others center rest := by
        simp [others, hp]
      have hr : (rest.map Prod.snd).count center ≤ 1 := by omega
      by_cases hd : space.IndexTimeDistance p.2 center < Radius_
      · rw [if_pos hd, ih _ _ hr]
        simp [stepTuples, h1, dpEntry, hd, addTuple]
      · rw [if_neg hd, ih _ _ hr]
        simp [stepTuples, h1, dpEntry, hd, outsideEntry]
        exact DistArith.add_comm _ _

/-- One build iteration on a pool that holds the centre at most once never hits the fatal
branch; the bucket is filled from `stepInside` and the next pool is `stepOutside`. -/
theorem buildStep_eq (space : Space D Obj) (srt : List (D × D × Obj) → List (D × D × Obj))
    (UseBucketSize_ : Bool) (BucketSize_ : Nat) (Radius_ : D)
    (remaining : List (D × Obj)) (center : Obj)
    (hnd : (remaining.map Prod.snd).count center ≤ 1) :
    buildStep space srt UseBucketSize_ BucketSize_ Radius_ remaining center
      = .ok ((stepInside space srt UseBucketSize_ BucketSize_ Radius_ remaining center).foldl
                addTuple (Cluster.init center),
             (stepOutside space srt UseBucketSize_ BucketSize_ Radius_ remaining center).map
                outsideEntry) := by
  cases UseBucketSize_ with
  | true =>
    simp only [buildStep, if_true, stepInside, stepOutside]
    rw [scanBucketMode_nodup space center remaining [] hnd]
    simp only [List.nil_append]
    rw [fillBucket_eq]
    simp only [Cluster.init, stepTuples, List.length_nil, Nat.sub_zero]
    rfl
  | false =>
    simp only [buildStep, Bool.false_eq_true, if_false, stepInside, stepOutside]
    rw [scanRadiusMode_nodup space Radius_ center remaining _ [] hnd]
    simp

/-! ## The build: centre selection -/

theorem foldl_choice_lt (n : Nat) (f : Nat → Nat → Nat)
    (hf : ∀ idx i, f idx i = i ∨ f idx i = idx) :
    ∀ (l : List Nat) (idx0 : Nat), idx0 < n → (∀ i ∈ l, i < n) → l.foldl f idx0 < n := by
  intro l
  induction l with
  | nil => intro idx0 h _; simpa using h
  | cons i rest ih =>
    intro idx0 h hl
    rw [List.foldl_cons]
    apply ih
    · rcases hf idx0 i with e | e
      · rw [e]; exact hl i (List.mem_cons_self _ _)
      · rw [e]; exact h
    · intro j hj
      exact hl j (List.mem_cons_of_mem _ hj)

theorem minSumScan_lt (remaining : List (D × Obj)) (idx0 : Nat) (h : idx0 < remaining.length) :
    minSumScan remaining idx0 < remaining.length := by
  unfold minSumScan
  apply foldl_choice_lt
  · intro idx i
    dsimp only
    split
    · split
      · exact Or.inl rfl
      · exact Or.inr rfl
    · exact Or.inr rfl
  · exact h
  · intro i hi
    exact List.mem_range.mp hi

theorem maxSumScan_lt (remaining : List (D × Obj)) (idx0 : Nat) (h : idx0 < remaining.length) :
    maxSumScan remaining idx0 < remaining.length := by
  unfold maxSumScan
  apply foldl_choice_lt
  · intro idx i
    dsimp only
    split
    · split
      · exact Or.inl rfl
      · exact Or.inr rfl
    · exact Or.inr rfl
  · exact h
  · intro i hi
    exact List.mem_range.mp hi

theorem getElem?_map_snd (remaining : List (D × Obj)) (i : Nat) (h : i < remaining.length) :
    ∃ c, (remaining[i]?).map Prod.snd = some c ∧ c ∈ remaining.map Prod.snd := by
  refine ⟨(remaining[i]).2, ?_, ?_⟩
  · rw [List.getElem?_eq_getElem h]; rfl
  · exact List.mem_map_of_mem _ (List.getElem_mem h)

/-- On a non-empty pool `SelectNextCenter` returns an object of the pool. -/
theorem SelectNextCenter_some (remaining : List (D × Obj)) (strategy : ListClustersStrategy)
    (r : Nat) (hne : remaining ≠ []) :
    ∃ c, SelectNextCenter remaining strategy r = some c ∧ c ∈ remaining.map Prod.snd := by
  have hpos : 0 < remaining.length := List.length_pos.mpr hne
  have hmod : r % remaining.length < remaining.length := Nat.mod_lt _ hpos
  have hempty : remaining.isEmpty = false := by
    cases remaining with
    | nil => exact absurd rfl hne
    | cons a l => rfl
  unfold SelectNextCenter
  rw [hempty]
  simp only [Bool.false_eq_true, if_false]
  cases strategy with
  | kRandom => exact getElem?_map_snd remaining _ hmod
  | kClosestPrevCenter =>
    cases remaining with
    | nil => exact absurd rfl hne
    | cons a l => exact ⟨a.2, rfl, by simp⟩
  | kFarthestPrevCenter =>
    refine ⟨(remaining.getLast hne).2, ?_, ?_⟩
    · simp only [List.getLast?_eq_getLast _ hne]; rfl
    · exact List.mem_map_of_mem _ (List.getLast_mem hne)
  | kMinSumDistPrevCenters => exact getElem?_map_snd remaining _ (minSumScan_lt remaining _ hmod)
  | kMaxSumDistPrevCenters => exact getElem?_map_snd remaining _ (maxSumScan_lt remaining _ hmod)

theorem SelectNextCenter_mem (remaining : List (D × Obj)) (strategy : ListClustersStrategy)
    (r : Nat) (center : Obj) (h : SelectNextCenter remaining strategy r = some center) :
    center ∈ remaining.map Prod.snd := by
  by_cases hne : remaining = []
  · rw [hne] at h
    simp [SelectNextCenter] at h
  · obtain ⟨c, hc, hmem⟩ := SelectNextCenter_some remaining strategy r hne
    rw [hc] at h
    cases h
    exact hmem

/-! ## The build: what one iteration does with the pool -/

theorem stepTuples_objs (space : Space D Obj) (center : Obj) (remaining : List (D × Obj)) :
    (stepTuples space center remaining).map (fun t => t.2.2)
      = (remaining.map Prod.snd).filter (fun o => decide (o ≠ center)) := by
  unfold stepTuples others
  induction remaining with
  | nil => rfl
  | cons p rest ih =>
    by_cases hp : p.2 = center
    · simp [List.filter_cons, hp] at ih ⊢
      exact ih
    · simp [List.filter_cons, hp, dpEntry] at ih ⊢
      exact ih

theorem stepTuples_mem (space : Space D Obj) (center : Obj) (remaining : List (D × Obj))
    (t : D × D × Obj) (ht : t ∈ stepTuples space center remaining) :
    t.1 = space.IndexTimeDistance t.2.2 center ∧ t.2.2 ≠ center ∧
      (t.2.1, t.2.2) ∈ remaining := by
  unfold stepTuples others at ht
  rw [List.mem_map] at ht
  obtain ⟨p, hp, rfl⟩ := ht
  rw [List.mem_filter] at hp
  refine ⟨rfl, ?_, hp.1⟩
  simpa using hp.2

/-- The tuples of an iteration are split between the bucket and the next pool. -/
theorem stepInside_append_perm (space : Space D Obj)
    (srt : List (D × D × Obj) → List (D × D × Obj)) (hsrt : IsStdSort srt)
    (UseBucketSize_ : Bool) (BucketSize_ : Nat) (Radius_ : D)
    (remaining : List (D × Obj)) (center : Obj) :
    (stepInside space srt UseBucketSize_ BucketSize_ Radius_ remaining center ++
      stepOutside space srt UseBucketSize_ BucketSize_ Radius_ remaining center).Perm
      (stepTuples space center remaining) := by
  cases UseBucketSize_ with
  | true =>
    simp only [stepInside, stepOutside, if_true, List.take_append_drop]
    exact (hsrt _).1
  | false =>
    simp only [stepInside, stepOutside, Bool.false_eq_true, if_false]
    exact List.filter_append_perm _ _

/-- Every tuple that joins the bucket is at most as far from the centre as every tuple that
goes to the next pool. -/
theorem stepInside_le_stepOutside (space : Space D Obj)
    (srt : List (D × D × Obj) → List (D × D × Obj)) (hsrt : IsStdSort srt)
    (UseBucketSize_ : Bool) (BucketSize_ : Nat) (Radius_ : D)
    (remaining : List (D × Obj)) (center : Obj) :
    ∀ a ∈ stepInside space srt UseBucketSize_ BucketSize_ Radius_ remaining center,
      ∀ b ∈ stepOutside space srt UseBucketSize_ BucketSize_ Radius_ remaining center,
        a.1 ≤ b.1 := by
  cases UseBucketSize_ with
  | true =>
    simp only [stepInside, stepOutside, if_true]
    intro a ha b hb
    have hp := (hsrt (stepTuples space center remaining)).2
    rw [← List.take_append_drop BucketSize_ (srt (stepTuples space center remaining))] at hp
    rw [List.pairwise_append] at hp
    exact not_lt.mp (hp.2.2 a ha b hb)
  | false =>
    simp only [stepInside, stepOutside, Bool.false_eq_true, if_false]
    intro a ha b hb
    rw [List.mem_filter] at ha hb
    have h1 : a.1 < Radius_ := by simpa using ha.2
    have h2 : ¬ b.1 < Radius_ := by simpa using hb.2
    exact le_of_lt (lt_of_lt_of_le h1 (not_lt.mp h2))

theorem perm_cons_filter_ne (a : Obj) :
    ∀ l : List Obj, l.Nodup → a ∈ l → (a :: l.filter (fun o => decide (o ≠ a))).Perm l := by
  intro l
  induction l with
  | nil => intro _ h; simp at h
  | cons b rest ih =>
    intro hnd hmem
    rw [List.nodup_cons] at hnd
    by_cases hb : b = a
    · subst hb
      have h1 : (b :: rest).filter (fun o => decide (o ≠ b)) = rest := by
        rw [List.filter_cons]
        simp only [ne_eq, not_true_eq_false, decide_False, Bool.false_eq_true, if_false]
        rw [List.filter_eq_self]
        intro o ho
        simp only [decide_eq_true_eq]
        intro e
        exact hnd.1 (e ▸ ho)
      rw [h1]
    · have hmem2 : a ∈ rest := by
        rcases List.mem_cons.mp hmem with e | e
        · exact absurd e.symm hb
        · exact e
      have h1 : (b :: rest).filter (fun o => decide (o ≠ a))
          = b :: rest.filter (fun o => decide (o ≠ a)) := by
        rw [List.filter_cons]
        simp [hb]
      rw [h1]
      exact (List.Perm.swap b a _).trans ((ih hnd.2 hmem2).cons b)

/-- The centre, the new bucket and the next pool together hold the objects of the pool. -/
theorem stepObjects_perm (space : Space D Obj)
    (srt : List (D × D × Obj) → List (D × D × Obj)) (hsrt : IsStdSort srt)
    (UseBucketSize_ : Bool) (BucketSize_ : Nat) (Radius_ : D)
    (remaining : List (D × Obj)) (center : Obj)
    (hnd : (remaining.map Prod.snd).Nodup) (hc : center ∈ remaining.map Prod.snd) :
    (center ::
      ((stepInside space srt UseBucketSize_ BucketSize_ Radius_ remaining center).map
          (fun t => t.2.2) ++
        (stepOutside space srt UseBucketSize_ BucketSize_ Radius_ remaining center).map
          (fun t => t.2.2))).Perm (remaining.map Prod.snd) := by
  have h1 := (stepInside_append_perm space srt hsrt UseBucketSize_ BucketSize_ Radius_
    remaining center).map (fun t => t.2.2)
  rw [List.map_append, stepTuples_objs] at h1
  exact (h1.cons center).trans (perm_cons_filter_ne center _ hnd hc)

theorem outsideEntry_snd (l : List (D × D × Obj)) :
    (l.map outsideEntry).map Prod.snd = l.map (fun t => t.2.2) := by
  rw [List.map_map]
  rfl

/-- The next pool holds distinct objects and is shorter than the pool. -/
theorem stepOutside_nodup_length (space : Space D Obj)
    (srt : List (D × D × Obj) → List (D × D × Obj)) (hsrt : IsStdSort srt)
    (UseBucketSize_ : Bool) (BucketSize_ : Nat) (Radius_ : D)
    (remaining : List (D × Obj)) (center : Obj)
    (hnd : (remaining.map Prod.snd).Nodup) (hc : center ∈ remaining.map Prod.snd) :
    (((stepOutside space srt UseBucketSize_ BucketSize_ Radius_ remaining center).map
        outsideEntry).map Prod.snd).Nodup ∧
    ((stepOutside space srt UseBucketSize_ BucketSize_ Radius_ remaining center).map
        outsideEntry).length + 1 ≤ remaining.length := by
  have hperm := stepObjects_perm space srt hsrt UseBucketSize_ BucketSize_ Radius_
    remaining center hnd hc
  have hnd2 := (hperm.nodup_iff).mpr hnd
  rw [List.nodup_cons] at hnd2
  constructor
  · rw [outsideEntry_snd]
    exact hnd2.2.of_append_right
  · have hlen := hperm.length_eq
    simp only [List.length_cons, List.length_append, List.length_map] at hlen ⊢
    omega

/-! ## The build loop -/

theorem buildLoop_nil (space : Space D Obj) (srt : List (D × D × Obj) → List (D × D × Obj))
    (rnd : Nat → Nat) (Strategy_ : ListClustersStrategy)
    (UseBucketSize_ : Bool) (BucketSize_ : Nat) (Radius_ : D)
    (fuel : Nat) (cl : List (Cluster D Obj)) (it : Nat) :
    buildLoop space srt rnd Strategy_ UseBucketSize_ BucketSize_ Radius_ fuel [] cl it
      = .ok (cl, it) := by
  unfold buildLoop
  simp

theorem buildLoop_succ (space : Space D Obj) (srt : List (D × D × Obj) → List (D × D × Obj))
    (rnd : Nat → Nat) (Strategy_ : ListClustersStrategy)
    (UseBucketSize_ : Bool) (BucketSize_ : Nat) (Radius_ : D)
    (fuel : Nat) (remaining : List (D × Obj)) (cl : List (Cluster D Obj)) (it : Nat)
    (center : Obj) (hne : remaining ≠ [])
    (hsel : SelectNextCenter remaining Strategy_ (rnd it) = some center) :
    buildLoop space srt rnd Strategy_ UseBucketSize_ BucketSize_ Radius_
        (fuel + 1) remaining cl it
      = if remaining.length = 1 then .ok (cl ++ [Cluster.init center], it + 1)
        else
          match buildStep space srt UseBucketSize_ BucketSize_ Radius_ remaining center with
          | .error e => .error e
          | .ok (new_cluster, outside) =>
            buildLoop space srt rnd Strategy_ UseBucketSize_ BucketSize_ Radius_
              fuel outside (cl ++ [new_cluster]) (it + 1) := by
  have hempty : remaining.isEmpty = false := by
    cases remaining with
    | nil => exact absurd rfl hne
    | cons a l => rfl
  rw [buildLoop]
  simp only [hempty, Bool.false_eq_true, if_false, hsel]

/-- Proof rule for the build loop on a pool of distinct objects: the loop returns, and a
property that the last iteration and every full iteration preserve holds of the result. -/
theorem buildLoop_rule (space : Space D Obj)
    (srt : List (D × D × Obj) → List (D × D × Obj)) (hsrt : IsStdSort srt)
    (rnd : Nat → Nat) (Strategy_ : ListClustersStrategy)
    (UseBucketSize_ : Bool) (BucketSize_ : Nat) (Radius_ : D)
    (P : List (D × Obj) → List (Cluster D Obj) → Nat → Prop)
    (hlast : ∀ remaining cl it center, P remaining cl it → remaining.length = 1 →
      center ∈ remaining.map Prod.snd → P [] (cl ++ [Cluster.init center]) (it + 1))
    (hstep : ∀ remaining cl it center, P remaining cl it →
      (remaining.map Prod.snd).Nodup → center ∈ remaining.map Prod.snd →
      SelectNextCenter remaining Strategy_ (rnd it) = some center →
      2 ≤ remaining.length →
      P ((stepOutside space srt UseBucketSize_ BucketSize_ Radius_ remaining center).map
            outsideEntry)
        (cl ++ [(stepInside space srt UseBucketSize_ BucketSize_ Radius_ remaining
            center).foldl addTuple (Cluster.init center)])
        (it + 1)) :
    ∀ (fuel : Nat) (remaining : List (D × Obj)) (cl : List (Cluster D Obj)) (it : Nat),
      (remaining.map Prod.snd).Nodup → remaining.length ≤ fuel → P remaining cl it →
      ∃ res n, buildLoop space srt rnd Strategy_ UseBucketSize_ BucketSize_ Radius_
          fuel remaining cl it = .ok (res, n) ∧ P [] res n := by
  intro fuel
  induction fuel with
  | zero =>
    intro remaining cl it _ hlen hP
    have : remaining = [] := List.length_eq_zero.mp (Nat.le_zero.mp hlen)
    subst this
    exact ⟨cl, it, buildLoop_nil _ _ _ _ _ _ _ _ _ _, hP⟩
  | succ fuel ih =>
    intro remaining cl it hnd hlen hP
    by_cases hne : remaining = []
    · subst hne
      exact ⟨cl, it, buildLoop_nil _ _ _ _ _ _ _ _ _ _, hP⟩
    · obtain ⟨center, hsel, hmem⟩ := SelectNextCenter_some remaining Strategy_ (rnd it) hne
      rw [buildLoop_succ space srt rnd Strategy_ UseBucketSize_ BucketSize_ Radius_ fuel
        remaining cl it center hne hsel]
      by_cases h1 : remaining.length = 1
      · rw [if_pos h1]
        exact ⟨_, _, rfl, hlast remaining cl it center hP h1 hmem⟩
      · rw [if_neg h1, buildStep_eq space srt UseBucketSize_ BucketSize_ Radius_ remaining
          center (List.nodup_iff_count_le_one.mp hnd center)]
        have h2 : 2 ≤ remaining.length := by
          have := List.length_pos.mpr hne
          omega
        obtain ⟨hnd2, hlen2⟩ := stepOutside_nodup_length space srt hsrt UseBucketSize_
          BucketSize_ Radius_ remaining center hnd hmem
        exact ih _ _ _ hnd2 (by omega) (hstep remaining cl it center hP hnd hmem hsel h2)

theorem stepCluster (space : Space D Obj) (center : Obj) (inside : List (D × D × Obj)) :
    (inside.foldl addTuple (Cluster.init center)).center_ = center ∧
    (inside.foldl addTuple (Cluster.init center)).bucket_ = inside.map (fun t => t.2.2) ∧
    (inside.foldl addTuple (Cluster.init center)).covering_radius_
      = (inside.map (fun t => t.1)).foldl max 0 := by
  obtain ⟨h1, h2, h3⟩ := foldl_addTuple inside (Cluster.init center : Cluster D Obj)
  exact ⟨h1, by rw [h2]; rfl, h3⟩

theorem allMembers_append (cl : List (Cluster D Obj)) (c : Cluster D Obj) :
    allMembers (cl ++ [c]) = allMembers cl ++ c.members := by
  induction cl with
  | nil => simp [allMembers]
  | cons a rest ih => simp [allMembers, ih]

theorem initialPool_snd (data : List Obj) :
    (data.map (fun object => ((0 : D), object))).map Prod.snd = data := by
  rw [List.map_map]
  exact List.map_id _

theorem map_OptimizeBucket (cl : List (Cluster D Obj)) :
    cl.map Cluster.OptimizeBucket = cl := by
  induction cl with
  | nil => rfl
  | cons a rest ih => rw [List.map_cons, ih]; rfl

/-- With a known strategy and a build loop that returns, the constructor returns the index
holding the clusters of the loop and the configured members. -/
theorem create_eq [One D] (FAKE_MAX_LEAVES_TO_VISIT : Int) (space : Space D Obj)
    (srt : List (D × D × Obj) → List (D × D × Obj)) (rnd : Nat → Nat)
    (data : List Obj) (MethParams : AnyParams D) (strat : ListClustersStrategy)
    (cl : List (Cluster D Obj)) (n : Nat)
    (hs : parseStrategy (MethParams.strategy.getD "random") = .ok strat)
    (hb : buildClusters space srt rnd strat (MethParams.useBucketSize.getD true)
      (MethParams.bucketSize.getD 50) (MethParams.radius.getD 1) data = .ok (cl, n)) :
    ListClusters.create FAKE_MAX_LEAVES_TO_VISIT space srt rnd data MethParams
      = .ok { Strategy_ := strat
              UseBucketSize_ := MethParams.useBucketSize.getD true
              BucketSize_ := MethParams.bucketSize.getD 50
              Radius_ := MethParams.radius.getD 1
              MaxLeavesToVisit_ := MethParams.maxLeavesToVisit.getD FAKE_MAX_LEAVES_TO_VISIT
              ChunkBucket_ := MethParams.chunkBucket.getD true
              cluster_list_ := cl } := by
  unfold ListClusters.create
  rw [hs]
  simp only [hb, map_OptimizeBucket, ite_self]

/-- The build loop on a dataset of distinct objects returns a cluster list whose centres and
bucket members are a rearrangement of the dataset. -/
theorem buildClusters_partition (space : Space D Obj)
    (srt : List (D × D × Obj) → List (D × D × Obj)) (hsrt : IsStdSort srt)
    (rnd : Nat → Nat) (Strategy_ : ListClustersStrategy)
    (UseBucketSize_ : Bool) (BucketSize_ : Nat) (Radius_ : D)
    (data : List Obj) (hnd : data.Nodup) :
    ∃ cl n, buildClusters space srt rnd Strategy_ UseBucketSize_ BucketSize_ Radius_ data
        = .ok (cl, n) ∧ (allMembers cl).Perm data := by
  have hrule := buildLoop_rule space srt hsrt rnd Strategy_ UseBucketSize_ BucketSize_ Radius_
    (fun remaining cl _ => (allMembers cl ++ remaining.map Prod.snd).Perm data)
    (by
      intro remaining cl it center hP hlen hc
      match remaining, hlen, hc, hP with
      | [p], _, hc, hP =>
        simp only [List.map_cons, List.map_nil, List.mem_singleton] at hc
        subst hc
        simpa [allMembers_append, Cluster.members, Cluster.init] using hP)
    (by
      intro remaining cl it center hP hnd2 hc _ _
      have hperm := stepObjects_perm space srt hsrt UseBucketSize_ BucketSize_ Radius_
        remaining center hnd2 hc
      obtain ⟨h1, h2, _⟩ := stepCluster space center
        (stepInside space srt UseBucketSize_ BucketSize_ Radius_ remaining center)
      rw [allMembers_append, Cluster.members, h1, h2, outsideEntry_snd, List.append_assoc]
      exact (List.Perm.append_left _ hperm).trans hP)
    data.length (data.map (fun object => ((0 : D), object))) [] 0
    (by rw [initialPool_snd]; exact hnd) (by simp)
    (by
      show (allMembers ([] : List (Cluster D Obj)) ++ _).Perm data
      rw [initialPool_snd]
      exact List.Perm.refl _)
  obtain ⟨res, n, hres, hP⟩ := hrule
  refine ⟨res, n, hres, ?_⟩
  simpa using hP

/-- Insertion sort on the first component meets the contract of `std::sort`. -/
theorem insertionSortDp_isStdSort : IsStdSort (insertionSortDp : List (D × D × Obj) → _) := by
  intro l
  haveI : IsTotal (D × D × Obj) (fun x y => x.1 ≤ y.1) := ⟨fun a b => le_total a.1 b.1⟩
  haveI : IsTrans (D × D × Obj) (fun x y => x.1 ≤ y.1) :=
    ⟨fun a b c hab hbc => le_trans hab hbc⟩
  constructor
  · exact List.perm_insertionSort _ l
  · have h := List.sorted_insertionSort (fun x y : D × D × Obj => x.1 ≤ y.1) l
    exact List.Pairwise.imp (fun hxy => not_lt.mpr hxy) h

theorem parseStrategy_of_mem (s : String) (strat : ListClustersStrategy)
    (h : (s, strat) ∈ specStrategyNames) : parseStrategy s = .ok strat := by
  simp only [specStrategyNames, List.mem_cons, Prod.mk.injEq, List.mem_singleton,
    List.mem_nil_iff, or_false] at h
  rcases h with ⟨rfl, rfl⟩ | ⟨rfl, rfl⟩ | ⟨rfl, rfl⟩ | ⟨rfl, rfl⟩ | ⟨rfl, rfl⟩ <;> rfl

theorem parseStrategy_of_not_mem (s : String)
    (h : s ∉ specStrategyNames.map Prod.fst) : parseStrategy s = .error .incorrectStrategy := by
  simp only [specStrategyNames, List.map_cons, List.map_nil, List.mem_cons,
    List.mem_singleton, List.mem_nil_iff, or_false, not_or] at h
  obtain ⟨h1, h2, h3, h4, h5⟩ := h
  simp only [parseStrategy, h1, h2, h3, h4, h5, if_false]

theorem parseStrategy_cases (s : String) :
    (∃ strat, (s, strat) ∈ specStrategyNames) ∨ s ∉ specStrategyNames.map Prod.fst := by
  by_cases h : s ∈ specStrategyNames.map Prod.fst
  · left
    rw [List.mem_map] at h
    obtain ⟨⟨s2, strat⟩, hmem, rfl⟩ := h
    exact ⟨strat, hmem⟩
  · exact Or.inr h

theorem others_length (center : Obj) (l : List (D × Obj)) :
    (others center l).length + (l.map Prod.snd).count center = l.length := by
  induction l with
  | nil => rfl
  | cons p rest ih =>
    by_cases hp : p.2 = center
    · have h1 : others center (p :: rest) = others center rest := by simp [others, hp]
      rw [h1, List.map_cons, List.count_cons]
      simp only [hp, beq_self_eq_true, if_true, List.length_cons]
      omega
    · have h1 : others center (p :: rest) = p :: others center rest := by simp [others, hp]
      have h2 : (p.2 == center) = false := by simpa using hp
      rw [h1, List.map_cons, List.count_cons]
      simp only [h2, Bool.false_eq_true, if_false, List.length_cons]
      omega

theorem stepInside_subset (space : Space D Obj)
    (srt : List (D × D × Obj) → List (D × D × Obj)) (hsrt : IsStdSort srt)
    (UseBucketSize_ : Bool) (BucketSize_ : Nat) (Radius_ : D)
    (remaining : List (D × Obj)) (center : Obj) (t : D × D × Obj)
    (ht : t ∈ stepInside space srt UseBucketSize_ BucketSize_ Radius_ remaining center) :
    t ∈ stepTuples space center remaining :=
  (stepInside_append_perm space srt hsrt UseBucketSize_ BucketSize_ Radius_ remaining
    center).mem_iff.mp (List.mem_append_left _ ht)

theorem stepOutside_subset (space : Space D Obj)
    (srt : List (D × D × Obj) → List (D × D × Obj)) (hsrt : IsStdSort srt)
    (UseBucketSize_ : Bool) (BucketSize_ : Nat) (Radius_ : D)
    (remaining : List (D × Obj)) (center : Obj) (t : D × D × Obj)
    (ht : t ∈ stepOutside space srt UseBucketSize_ BucketSize_ Radius_ remaining center) :
    t ∈ stepTuples space center remaining :=
  (stepInside_append_perm space srt hsrt UseBucketSize_ BucketSize_ Radius_ remaining
    center).mem_iff.mp (List.mem_append_right _ ht)

/-- The bucket distances of the cluster of an iteration are the first components of the tuples
that joined it. -/
theorem stepCluster_bucketDists (space : Space D Obj)
    (srt : List (D × D × Obj) → List (D × D × Obj)) (hsrt : IsStdSort srt)
    (UseBucketSize_ : Bool) (BucketSize_ : Nat) (Radius_ : D)
    (remaining : List (D × Obj)) (center : Obj) :
    bucketDists space ((stepInside space srt UseBucketSize_ BucketSize_ Radius_ remaining
        center).foldl addTuple (Cluster.init center))
      = (stepInside space srt UseBucketSize_ BucketSize_ Radius_ remaining center).map
          (fun t => t.1) := by
  obtain ⟨h1, h2, _⟩ := stepCluster space center
    (stepInside space srt UseBucketSize_ BucketSize_ Radius_ remaining center)
  unfold bucketDists
  rw [h1, h2, List.map_map]
  apply List.map_congr_left
  intro t ht
  exact ((stepTuples_mem space center remaining t
    (stepInside_subset space srt hsrt _ _ _ _ _ t ht)).1).symm

theorem foldl_max_ge (l : List D) : ∀ a : D, a ≤ l.foldl max a ∧ ∀ d ∈ l, d ≤ l.foldl max a := by
  induction l with
  | nil => intro a; simp
  | cons b rest ih =>
    intro a
    obtain ⟨h1, h2⟩ := ih (max a b)
    rw [List.foldl_cons]
    refine ⟨le_trans (le_max_left a b) h1, ?_⟩
    intro d hd
    rcases List.mem_cons.mp hd with e | e
    · rw [e]; exact le_trans (le_max_right a b) h1
    · exact h2 d e

theorem foldl_max_mem (l : List D) : ∀ a : D, l.foldl max a = a ∨ l.foldl max a ∈ l := by
  induction l with
  | nil => intro a; simp
  | cons b rest ih =>
    intro a
    rw [List.foldl_cons]
    rcases ih (max a b) with h | h
    · rw [h]
      rcases max_choice a b with e | e
      · exact Or.inl e
      · right; rw [e]; exact List.mem_cons_self _ _
    · exact Or.inr (List.mem_cons_of_mem _ h)

/-- A covering radius that is the running maximum from 0 of non-negative bucket distances is
their maximum. -/
theorem coveringRadiusIsMax_of_foldl (space : Space D Obj) (c : Cluster D Obj)
    (h : c.covering_radius_ = (bucketDists space c).foldl max 0)
    (hnn : ∀ o ∈ c.bucket_, 0 ≤ space.IndexTimeDistance o c.center_) :
    CoveringRadiusIsMax space c := by
  constructor
  · intro he
    rw [h, bucketDists, he]
    rfl
  · intro hne
    obtain ⟨h0, hge⟩ := foldl_max_ge (bucketDists space c) 0
    refine ⟨?_, ?_⟩
    · rcases foldl_max_mem (bucketDists space c) 0 with e | e
      · obtain ⟨o, rest, ho⟩ := List.exists_cons_of_ne_nil hne
        have hmem : space.IndexTimeDistance o c.center_ ∈ bucketDists space c := by
          unfold bucketDists; rw [ho]; simp
        have h1 := hge _ hmem
        have h2 := hnn o (by rw [ho]; exact List.mem_cons_self _ _)
        rw [e] at h1
        have h3 : space.IndexTimeDistance o c.center_ = 0 := le_antisymm h1 h2
        rw [h, e, ← h3]
        exact hmem
      · rw [h]; exact e
    · intro d hd
      rw [h]
      exact hge d hd

end BuildLemmas

/-! ## Claims on the build -/

section BuildClaims

variable {D Obj : Type} [LinearOrderedAddCommGroup D] [DistArith D] [DecidableEq Obj]

/-- C1 (partition).  For a dataset of pairwise-distinct objects, every parameter bag whose
strategy is one of the five names (or absent), every outcome of the random choices and every
behaviour of `std::sort` within its contract, the constructor returns an index in which the
centres and bucket members of `cluster_list_` are a rearrangement of the dataset: a dataset
object occurs exactly once among them and any other object does not occur. -/
theorem C1_partition [One D] (FAKE_MAX_LEAVES_TO_VISIT : Int) (space : Space D Obj)
    (srt : List (D × D × Obj) → List (D × D × Obj)) (hsrt : IsStdSort srt)
    (rnd : Nat → Nat) (data : List Obj) (hnd : data.Nodup) (MethParams : AnyParams D)
    (strat : ListClustersStrategy)
    (hs : parseStrategy (MethParams.strategy.getD "random") = .ok strat) :
    ∃ index, ListClusters.create FAKE_MAX_LEAVES_TO_VISIT space srt rnd data MethParams
        = .ok index ∧
      (allMembers index.cluster_list_).Perm data ∧
      ∀ o, (allMembers index.cluster_list_).count o = if o ∈ data then 1 else 0 := by
  obtain ⟨cl, n, hb, hperm⟩ := buildClusters_partition space srt hsrt rnd strat
    (MethParams.useBucketSize.getD true) (MethParams.bucketSize.getD 50)
    (MethParams.radius.getD 1) data hnd
  refine ⟨_, create_eq FAKE_MAX_LEAVES_TO_VISIT space srt rnd data MethParams strat cl n hs hb,
    hperm, ?_⟩
  intro o
  show (allMembers cl).count o = _
  rw [hperm.count_eq, List.count_eq_of_nodup hnd]

/-- C1 at a concrete input: three points of the integer line with the default parameters. -/
theorem C1_partition_witness :
    ∃ index, ListClusters.create sentinel lineSpace insertionSortDp (fun _ => 0) [0, 5, 10]
        (noParams Int) = .ok index ∧
      (allMembers index.cluster_list_).Perm [0, 5, 10] ∧
      ∀ o, (allMembers index.cluster_list_).count o = if o ∈ [0, 5, 10] then 1 else 0 :=
  C1_partition sentinel lineSpace insertionSortDp insertionSortDp_isStdSort (fun _ => 0)
    [0, 5, 10] (by decide) (noParams Int) ListClustersStrategy.kRandom rfl

/-- C9 (build termination).  For a dataset of pairwise-distinct objects, each strategy and both
build modes, the build loop returns within the fuel of the embedding and without the fatal
branch; the number of clusters is the number of iterations, 0 for an empty dataset and between
1 and the dataset size otherwise; and every iteration hands a strictly shorter pool to the
next one. -/
theorem C9_build_terminates (space : Space D Obj)
    (srt : List (D × D × Obj) → List (D × D × Obj)) (hsrt : IsStdSort srt)
    (rnd : Nat → Nat) (Strategy_ : ListClustersStrategy)
    (UseBucketSize_ : Bool) (BucketSize_ : Nat) (Radius_ : D)
    (data : List Obj) (hnd : data.Nodup) :
    (∃ cl n, buildClusters space srt rnd Strategy_ UseBucketSize_ BucketSize_ Radius_ data
        = .ok (cl, n) ∧ cl.length = n ∧ (data = [] → n = 0) ∧
        (data ≠ [] → 1 ≤ n ∧ n ≤ data.length)) ∧
    (∀ (remaining : List (D × Obj)) (center : Obj), (remaining.map Prod.snd).Nodup →
      center ∈ remaining.map Prod.snd →
      ∃ c outside, buildStep space srt UseBucketSize_ BucketSize_ Radius_ remaining center
          = .ok (c, outside) ∧ outside.length < remaining.length) := by
  constructor
  · have hrule := buildLoop_rule space srt hsrt rnd Strategy_ UseBucketSize_ BucketSize_
      Radius_
      (fun remaining cl it => cl.length = it ∧ it + remaining.length ≤ data.length ∧
        (it = 0 → remaining.length = data.length))
      (by
        intro remaining cl it center hP hlen _
        obtain ⟨h1, h2, _⟩ := hP
        refine ⟨by simp [h1], ?_, ?_⟩
        · simp only [List.length_nil]; omega
        · intro h; omega)
      (by
        intro remaining cl it center hP hnd2 hc _ _
        obtain ⟨h1, h2, _⟩ := hP
        obtain ⟨_, hlen⟩ := stepOutside_nodup_length space srt hsrt UseBucketSize_
          BucketSize_ Radius_ remaining center hnd2 hc
        refine ⟨by simp [h1], ?_, ?_⟩
        · omega
        · intro h; omega)
      data.length (data.map (fun object => ((0 : D), object))) [] 0
      (by rw [initialPool_snd]; exact hnd) (by simp)
      ⟨rfl, by simp, by simp⟩
    obtain ⟨res, n, hres, h1, h2, h3⟩ := hrule
    refine ⟨res, n, hres, h1, ?_, ?_⟩
    · intro hd
      subst hd
      simpa using h2
    · intro hd
      have hpos : 0 < data.length := List.length_pos.mpr hd
      simp only [List.length_nil, add_zero] at h2 h3
      refine ⟨?_, h2⟩
      by_contra hcon
      have : n = 0 := by omega
      have := h3 this
      omega
  · intro remaining center hnd2 hc
    obtain ⟨_, hlen⟩ := stepOutside_nodup_length space srt hsrt UseBucketSize_
      BucketSize_ Radius_ remaining center hnd2 hc
    exact ⟨_, _, buildStep_eq space srt UseBucketSize_ BucketSize_ Radius_ remaining center
      (List.nodup_iff_count_le_one.mp hnd2 center), by omega⟩

/-- C9 at a concrete input: five points with `closestPrevCenter` and buckets of one object. -/
theorem C9_build_terminates_witness :
    (∃ cl n, buildClusters lineSpace insertionSortDp (fun _ => 0)
        ListClustersStrategy.kClosestPrevCenter true 1 1 [0, 1, 2, 3, 4]
        = .ok (cl, n) ∧ cl.length = n ∧ (([0, 1, 2, 3, 4] : List Int) = [] → n = 0) ∧
        (([0, 1, 2, 3, 4] : List Int) ≠ [] → 1 ≤ n ∧ n ≤ ([0, 1, 2, 3, 4] : List Int).length)) ∧
    (∀ (remaining : List (Int × Int)) (center : Int), (remaining.map Prod.snd).Nodup →
      center ∈ remaining.map Prod.snd →
      ∃ c outside, buildStep lineSpace insertionSortDp true 1 1 remaining center
          = .ok (c, outside) ∧ outside.length < remaining.length) :=
  C9_build_terminates lineSpace insertionSortDp insertionSortDp_isStdSort (fun _ => 0)
    ListClustersStrategy.kClosestPrevCenter true 1 1 [0, 1, 2, 3, 4] (by decide)

/-- C10 as stated fails: with the parameter `strategy` absent, and with the valid string
`random`, the constructor is fatal on the dataset 5, 5, which holds the same object twice: the
first centre is met a second time in the scan of lines 119-124 ("found skipped center
again"). -/
theorem C10_counterexample :
    (noParams Int).strategy = none ∧
    ListClusters.create sentinel lineSpace insertionSortDp (fun _ => 0) [5, 5] (noParams Int)
      = .error .skippedCenterAgain ∧
    ("random", ListClustersStrategy.kRandom) ∈ specStrategyNames ∧
    (strategyParams "random").strategy = some "random" ∧
    ListClusters.create sentinel lineSpace insertionSortDp (fun _ => 0) [5, 5]
      (strategyParams "random") = .error .skippedCenterAgain := by
  decide

/-- C10 (strategy configuration), amended.  On a dataset of pairwise-distinct objects the
constructor returns an index with the strategy that the specification names for the string,
with `kRandom` when the parameter is absent, and it fails (with the strategy error) exactly when
the parameter is present with a string that is none of the five names. -/
theorem C10_strategy_configuration [One D] (FAKE_MAX_LEAVES_TO_VISIT : Int)
    (space : Space D Obj) (srt : List (D × D × Obj) → List (D × D × Obj))
    (hsrt : IsStdSort srt) (rnd : Nat → Nat) (data : List Obj) (hnd : data.Nodup)
    (MethParams : AnyParams D) :
    (∀ s strat, (s, strat) ∈ specStrategyNames → MethParams.strategy = some s →
      ∃ index, ListClusters.create FAKE_MAX_LEAVES_TO_VISIT space srt rnd data MethParams
        = .ok index ∧ index.Strategy_ = strat) ∧
    (MethParams.strategy = none →
      ∃ index, ListClusters.create FAKE_MAX_LEAVES_TO_VISIT space srt rnd data MethParams
        = .ok index ∧ index.Strategy_ = .kRandom) ∧
    ((∃ e, ListClusters.create FAKE_MAX_LEAVES_TO_VISIT space srt rnd data MethParams
        = .error e) ↔
      ∃ s, MethParams.strategy = some s ∧ s ∉ specStrategyNames.map Prod.fst) ∧
    (∀ e, ListClusters.create FAKE_MAX_LEAVES_TO_VISIT space srt rnd data MethParams
        = .error e → e = .incorrectStrategy) := by
  have hok : ∀ strat, parseStrategy (MethParams.strategy.getD "random") = .ok strat →
      ∃ index, ListClusters.create FAKE_MAX_LEAVES_TO_VISIT space srt rnd data MethParams
        = .ok index ∧ index.Strategy_ = strat := by
    intro strat hs
    obtain ⟨cl, n, hb, _⟩ := buildClusters_partition space srt hsrt rnd strat
      (MethParams.useBucketSize.getD true) (MethParams.bucketSize.getD 50)
      (MethParams.radius.getD 1) data hnd
    exact ⟨_, create_eq FAKE_MAX_LEAVES_TO_VISIT space srt rnd data MethParams strat cl n hs hb,
      rfl⟩
  have herr : ∀ s, MethParams.strategy = some s → s ∉ specStrategyNames.map Prod.fst →
      ListClusters.create FAKE_MAX_LEAVES_TO_VISIT space srt rnd data MethParams
        = .error .incorrectStrategy := by
    intro s hs hmem
    unfold ListClusters.create
    rw [hs, Option.getD_some, parseStrategy_of_not_mem s hmem]
  have hA : ∀ s strat, (s, strat) ∈ specStrategyNames → MethParams.strategy = some s →
      ∃ index, ListClusters.create FAKE_MAX_LEAVES_TO_VISIT space srt rnd data MethParams
        = .ok index ∧ index.Strategy_ = strat := by
    intro s strat hmem hs
    apply hok
    rw [hs, Option.getD_some]
    exact parseStrategy_of_mem s strat hmem
  have hB : MethParams.strategy = none →
      ∃ index, ListClusters.create FAKE_MAX_LEAVES_TO_VISIT space srt rnd data MethParams
        = .ok index ∧ index.Strategy_ = .kRandom := by
    intro hs
    apply hok
    rw [hs]
    rfl
  have hcases : (∃ index, ListClusters.create FAKE_MAX_LEAVES_TO_VISIT space srt rnd data
        MethParams = .ok index) ∨
      ∃ s, MethParams.strategy = some s ∧ s ∉ specStrategyNames.map Prod.fst := by
    cases hs : MethParams.strategy with
    | none =>
      obtain ⟨index, h, _⟩ := hB hs
      exact Or.inl ⟨index, h⟩
    | some s =>
      rcases parseStrategy_cases s with ⟨strat, hmem⟩ | hmem
      · obtain ⟨index, h, _⟩ := hA s strat hmem hs
        exact Or.inl ⟨index, h⟩
      · exact Or.inr ⟨s, rfl, hmem⟩
  refine ⟨hA, hB, ⟨?_, ?_⟩, ?_⟩
  · rintro ⟨e, he⟩
    rcases hcases with ⟨index, h⟩ | h
    · rw [h] at he
      cases he
    · exact h
  · rintro ⟨s, hs, hmem⟩
    exact ⟨_, herr s hs hmem⟩
  · intro e he
    rcases hcases with ⟨index, h⟩ | ⟨s, hs, hmem⟩
    · rw [h] at he
      cases he
    · rw [herr s hs hmem] at he
      cases he
      rfl

/-- C10 at a concrete input: three points of the integer line with the strategy name
`farthestPrevCenter`, for which the constructor returns an index with `kFarthestPrevCenter`;
with the unknown name `nearest` it fails on the same dataset. -/
theorem C10_strategy_configuration_witness :
    (ListClusters.create sentinel lineSpace insertionSortDp (fun _ => 0) [0, 5, 10]
        (strategyParams "farthestPrevCenter")
      = .ok { Strategy_ := .kFarthestPrevCenter, UseBucketSize_ := true, BucketSize_ := 50,
              Radius_ := 1, MaxLeavesToVisit_ := 2147483647, ChunkBucket_ := true,
              cluster_list_ := [⟨10, 10, [5, 0]⟩] } ∧
      ListClusters.create sentinel lineSpace insertionSortDp (fun _ => 0) [0, 5, 10]
        (strategyParams "nearest") = .error .incorrectStrategy) ∧
    ((∀ s strat, (s, strat) ∈ specStrategyNames →
      (strategyParams "farthestPrevCenter").strategy = some s →
      ∃ index, ListClusters.create sentinel lineSpace insertionSortDp (fun _ => 0) [0, 5, 10]
        (strategyParams "farthestPrevCenter") = .ok index ∧ index.Strategy_ = strat) ∧
    ((strategyParams "farthestPrevCenter").strategy = none →
      ∃ index, ListClusters.create sentinel lineSpace insertionSortDp (fun _ => 0) [0, 5, 10]
        (strategyParams "farthestPrevCenter") = .ok index ∧ index.Strategy_ = .kRandom) ∧
    ((∃ e, ListClusters.create sentinel lineSpace insertionSortDp (fun _ => 0) [0, 5, 10]
        (strategyParams "farthestPrevCenter") = .error e) ↔
      ∃ s, (strategyParams "farthestPrevCenter").strategy = some s ∧
        s ∉ specStrategyNames.map Prod.fst) ∧
    (∀ e, ListClusters.create sentinel lineSpace insertionSortDp (fun _ => 0) [0, 5, 10]
        (strategyParams "farthestPrevCenter") = .error e → e = .incorrectStrategy)) :=
  ⟨by decide,
    C10_strategy_configuration sentinel lineSpace insertionSortDp insertionSortDp_isStdSort
      (fun _ => 0) [0, 5, 10] (by decide) (strategyParams "farthestPrevCenter")⟩

/-- C7 (bucket-size build step).  With `useBucketSize = true`, an iteration on a pool that
holds the centre once returns a cluster whose bucket has `min(bucketSize, n - 1)` objects; the
bucket and the next pool together are a rearrangement of the pool objects other than the
centre; and no bucket member is farther from the centre than an object of the next pool. -/
theorem C7_bucket_step (space : Space D Obj)
    (srt : List (D × D × Obj) → List (D × D × Obj)) (hsrt : IsStdSort srt)
    (BucketSize_ : Nat) (Radius_ : D) (remaining : List (D × Obj)) (center : Obj)
    (hc : (remaining.map Prod.snd).count center = 1) :
    ∃ c outside, buildStep space srt true BucketSize_ Radius_ remaining center
        = .ok (c, outside) ∧
      c.center_ = center ∧
      c.bucket_.length = min BucketSize_ (remaining.length - 1) ∧
      (c.bucket_ ++ outside.map Prod.snd).Perm
        ((remaining.map Prod.snd).filter (fun o => decide (o ≠ center))) ∧
      ∀ o ∈ c.bucket_, ∀ p ∈ outside,
        space.IndexTimeDistance o center ≤ space.IndexTimeDistance p.2 center := by
  obtain ⟨h1, h2, _⟩ := stepCluster space center
    (stepInside space srt true BucketSize_ Radius_ remaining center)
  refine ⟨_, _, buildStep_eq space srt true BucketSize_ Radius_ remaining center (by omega),
    h1, ?_, ?_, ?_⟩
  · rw [h2, List.length_map]
    simp only [stepInside, if_true, List.length_take]
    rw [((hsrt _).1).length_eq]
    have := others_length center remaining
    simp only [stepTuples, List.length_map]
    omega
  · rw [h2, outsideEntry_snd, ← List.map_append, ← stepTuples_objs space center remaining]
    exact (stepInside_append_perm space srt hsrt true BucketSize_ Radius_ remaining
      center).map _
  · intro o ho p hp
    rw [h2, List.mem_map] at ho
    obtain ⟨a, ha, rfl⟩ := ho
    rw [List.mem_map] at hp
    obtain ⟨b, hb, rfl⟩ := hp
    have ha1 := (stepTuples_mem space center remaining a
      (stepInside_subset space srt hsrt _ _ _ _ _ a ha)).1
    have hb1 := (stepTuples_mem space center remaining b
      (stepOutside_subset space srt hsrt _ _ _ _ _ b hb)).1
    have := stepInside_le_stepOutside space srt hsrt true BucketSize_ Radius_ remaining
      center a ha b hb
    show space.IndexTimeDistance a.2.2 center ≤ space.IndexTimeDistance b.2.2 center
    rw [← ha1, ← hb1]
    exact this

/-- C7 at a concrete input: the pool 0, 7, 3, 9 with centre 3 and buckets of two objects. -/
theorem C7_bucket_step_witness :
    ∃ c outside, buildStep lineSpace insertionSortDp true 2 1
        [(0, 0), (0, 7), (0, 3), (0, 9)] 3 = .ok (c, outside) ∧
      c.center_ = 3 ∧
      c.bucket_.length = min 2 (([(0, 0), (0, 7), (0, 3), (0, 9)] : List (Int × Int)).length - 1) ∧
      (c.bucket_ ++ outside.map Prod.snd).Perm
        ((([(0, 0), (0, 7), (0, 3), (0, 9)] : List (Int × Int)).map Prod.snd).filter
          (fun o => decide (o ≠ 3))) ∧
      ∀ o ∈ c.bucket_, ∀ p ∈ outside,
        lineSpace.IndexTimeDistance o 3 ≤ lineSpace.IndexTimeDistance p.2 3 :=
  C7_bucket_step lineSpace insertionSortDp insertionSortDp_isStdSort 2 1
    [(0, 0), (0, 7), (0, 3), (0, 9)] 3 (by decide)

theorem filter_stepTuples (space : Space D Obj) (center : Obj) (q : D → Bool) :
    ∀ remaining : List (D × Obj),
      (stepTuples space center remaining).filter (fun t => q t.1)
        = (remaining.filter (fun p => decide (p.2 ≠ center) &&
            q (space.IndexTimeDistance p.2 center))).map (dpEntry space center) := by
  intro remaining
  induction remaining with
  | nil => rfl
  | cons p rest ih =>
    unfold stepTuples others at ih ⊢
    by_cases hp : p.2 = center
    · simp only [List.filter_cons, hp, ne_eq, not_true_eq_false, decide_False,
        Bool.false_eq_true, if_false, Bool.false_and]
      exact ih
    · by_cases hq : q (space.IndexTimeDistance p.2 center) = true
      · simp only [List.filter_cons, hp, ne_eq, not_false_eq_true, decide_True, if_true,
          List.map_cons, dpEntry, hq, Bool.and_self]
        rw [List.cons.injEq]
        exact ⟨rfl, ih⟩
      · simp only [List.filter_cons, hp, ne_eq, not_false_eq_true, decide_True, if_true,
          List.map_cons, dpEntry, hq, Bool.and_false, Bool.false_eq_true, if_false]
        exact ih

/-- C8 (radius build step).  With `useBucketSize = false`, an iteration on a pool that holds
the centre at most once returns the cluster whose bucket is, in pool order, the objects other
than the centre with `IndexTimeDistance(obj, center) < radius`; the next pool is, in pool order,
the objects other than the centre with `IndexTimeDistance(obj, center) ≥ radius`, each with its
running sum increased by that distance, the sum being the one computed in `dist_t`. -/
theorem C8_radius_step (space : Space D Obj)
    (srt : List (D × D × Obj) → List (D × D × Obj))
    (BucketSize_ : Nat) (Radius_ : D) (remaining : List (D × Obj)) (center : Obj)
    (hc : (remaining.map Prod.snd).count center ≤ 1) :
    ∃ c outside, buildStep space srt false BucketSize_ Radius_ remaining center
        = .ok (c, outside) ∧
      c.center_ = center ∧
      c.bucket_ = (remaining.filter (fun p => decide (p.2 ≠ center) &&
          decide (space.IndexTimeDistance p.2 center < Radius_))).map Prod.snd ∧
      outside = (remaining.filter (fun p => decide (p.2 ≠ center) &&
          decide (Radius_ ≤ space.IndexTimeDistance p.2 center))).map
            (fun p => (DistArith.add p.1 (space.IndexTimeDistance p.2 center), p.2)) := by
  obtain ⟨h1, h2, _⟩ := stepCluster space center
    (stepInside space srt false BucketSize_ Radius_ remaining center)
  refine ⟨_, _, buildStep_eq space srt false BucketSize_ Radius_ remaining center hc,
    h1, ?_, ?_⟩
  · rw [h2]
    simp only [stepInside, Bool.false_eq_true, if_false]
    rw [filter_stepTuples space center (fun d => decide (d < Radius_)) remaining,
      List.map_map]
    rfl
  · simp only [stepOutside, Bool.false_eq_true, if_false]
    rw [filter_stepTuples space center (fun d => ! decide (d < Radius_)) remaining,
      List.map_map]
    have hfun : (fun p : D × Obj => decide (p.2 ≠ center) &&
          ! decide (space.IndexTimeDistance p.2 center < Radius_))
        = (fun p : D × Obj => decide (p.2 ≠ center) &&
          decide (Radius_ ≤ space.IndexTimeDistance p.2 center)) := by
      funext p
      congr 1
      by_cases h : space.IndexTimeDistance p.2 center < Radius_
      · simp [h, not_le.mpr h]
      · simp [h, not_lt.mp h]
    rw [hfun]
    apply List.map_congr_left
    intro p _
    simp only [outsideEntry, dpEntry, Function.comp]
    rw [DistArith.add_comm]

/-- C8 at a concrete input: the pool 0, 7, 3, 9 with centre 3 and radius 4. -/
theorem C8_radius_step_witness :
    ∃ c outside, buildStep lineSpace insertionSortDp false 50 4
        [(0, 0), (0, 7), (0, 3), (0, 9)] 3 = .ok (c, outside) ∧
      c.center_ = 3 ∧
      c.bucket_ = (([(0, 0), (0, 7), (0, 3), (0, 9)] : List (Int × Int)).filter
          (fun p => decide (p.2 ≠ 3) &&
            decide (lineSpace.IndexTimeDistance p.2 3 < 4))).map Prod.snd ∧
      outside = (([(0, 0), (0, 7), (0, 3), (0, 9)] : List (Int × Int)).filter
          (fun p => decide (p.2 ≠ 3) &&
            decide ((4 : Int) ≤ lineSpace.IndexTimeDistance p.2 3))).map
            (fun p => (DistArith.add p.1 (lineSpace.IndexTimeDistance p.2 3), p.2)) :=
  C8_radius_step lineSpace insertionSortDp 50 4 [(0, 0), (0, 7), (0, 3), (0, 9)] 3 (by decide)

/-- C3 as stated fails: under the distance `a - b - 10` the build of the dataset 5, 3 returns
the cluster with centre 5, bucket 3 and covering radius 0, while the only bucket distance is
`-12`. -/
theorem C3_counterexample :
    buildClusters negativeSpace insertionSortDp (fun _ => 0)
        ListClustersStrategy.kClosestPrevCenter true 50 1 [5, 3]
      = .ok ([{ center_ := 5, covering_radius_ := 0, bucket_ := [3] }], 1) ∧
    ¬ CoveringRadiusIsMax negativeSpace
        ({ center_ := 5, covering_radius_ := 0, bucket_ := [3] } : Cluster Int Int) := by
  constructor
  · decide
  · intro h
    have h2 := (h.2 (by decide)).1
    revert h2
    decide

/-- C3 (covering radius), amended.  For a dataset of pairwise-distinct objects the build returns
clusters whose covering radius is the running maximum, started at 0, of the distances of the
bucket members to the centre; when those distances are non-negative it is their maximum, and 0
for an empty bucket. -/
theorem C3_covering_radius (space : Space D Obj)
    (srt : List (D × D × Obj) → List (D × D × Obj)) (hsrt : IsStdSort srt)
    (rnd : Nat → Nat) (Strategy_ : ListClustersStrategy)
    (UseBucketSize_ : Bool) (BucketSize_ : Nat) (Radius_ : D)
    (data : List Obj) (hnd : data.Nodup) :
    ∃ cl n, buildClusters space srt rnd Strategy_ UseBucketSize_ BucketSize_ Radius_ data
        = .ok (cl, n) ∧
      ∀ c ∈ cl, c.covering_radius_ = (bucketDists space c).foldl max 0 ∧
        ((∀ o ∈ c.bucket_, 0 ≤ space.IndexTimeDistance o c.center_) →
          CoveringRadiusIsMax space c) := by
  have hrule := buildLoop_rule space srt hsrt rnd Strategy_ UseBucketSize_ BucketSize_ Radius_
    (fun _ cl _ => ∀ c ∈ cl, c.covering_radius_ = (bucketDists space c).foldl max 0)
    (by
      intro remaining cl it center hP _ _ c hcmem
      rcases List.mem_append.mp hcmem with h | h
      · exact hP c h
      · rw [List.mem_singleton.mp h]
        rfl)
    (by
      intro remaining cl it center hP _ _ _ _ c hcmem
      rcases List.mem_append.mp hcmem with h | h
      · exact hP c h
      · rw [List.mem_singleton.mp h,
          stepCluster_bucketDists space srt hsrt UseBucketSize_ BucketSize_ Radius_
            remaining center]
        exact (stepCluster space center _).2.2)
    data.length (data.map (fun object => ((0 : D), object))) [] 0
    (by rw [initialPool_snd]; exact hnd) (by simp)
    (by intro c hcmem; simp at hcmem)
  obtain ⟨res, n, hres, hP⟩ := hrule
  refine ⟨res, n, hres, ?_⟩
  intro c hcmem
  exact ⟨hP c hcmem, coveringRadiusIsMax_of_foldl space c (hP c hcmem)⟩

/-- C3 at a concrete input: the dataset 0, 5, 10 on the integer line with radius 100. -/
theorem C3_covering_radius_witness :
    ∃ cl n, buildClusters lineSpace insertionSortDp (fun _ => 0)
        ListClustersStrategy.kRandom false 50 100 [0, 5, 10] = .ok (cl, n) ∧
      ∀ c ∈ cl, c.covering_radius_ = (bucketDists lineSpace c).foldl max 0 ∧
        ((∀ o ∈ c.bucket_, 0 ≤ lineSpace.IndexTimeDistance o c.center_) →
          CoveringRadiusIsMax lineSpace c) :=
  C3_covering_radius lineSpace insertionSortDp insertionSortDp_isStdSort (fun _ => 0)
    ListClustersStrategy.kRandom false 50 100 [0, 5, 10] (by decide)

end BuildClaims

/-! ## The search: what is submitted to the accumulator -/

section SearchLemmas

variable {D Obj Q : Type} [LinearOrderedAddCommGroup D] [DistArith D] [DecidableEq Obj]

theorem Cluster_Search_preserves (ops : QueryType D Obj Q) (P : Q → Prop)
    (h : ∀ q o, P q → P (ops.CheckAndAddObj q o)) (c : Cluster D Obj) :
    ∀ q, P q → P (c.Search ops q) := by
  unfold Cluster.Search
  induction c.bucket_ with
  | nil => intro q hq; exact hq
  | cons o rest ih => intro q hq; exact ih _ (h q o hq)

theorem exactSearch_cons (ops : QueryType D Obj Q) (c : Cluster D Obj)
    (rest : List (Cluster D Obj)) (q : Q) :
    exactSearch ops (c :: rest) q =
      if ballIntersects (ops.DistanceObjLeft q c.center_).1
          (ops.Radius (ops.CheckAndAddObj q c.center_)) c.covering_radius_ then
        if ballContained (ops.DistanceObjLeft q c.center_).1
            (ops.Radius (c.Search ops (ops.CheckAndAddObj q c.center_)))
            c.covering_radius_ then
          c.Search ops (ops.CheckAndAddObj q c.center_)
        else exactSearch ops rest (c.Search ops (ops.CheckAndAddObj q c.center_))
      else exactSearch ops rest (ops.CheckAndAddObj q c.center_) := rfl

theorem collectCandidates_cons (ops : QueryType D Obj Q) (c : Cluster D Obj)
    (rest : List (Cluster D Obj)) (q : Q) (pushed : List (Elem D Obj)) :
    collectCandidates ops (c :: rest) q pushed =
      if ballIntersects (ops.DistanceObjLeft q c.center_).1
          (ops.Radius (ops.CheckAndAddObj q c.center_)) c.covering_radius_ then
        collectCandidates ops rest (ops.CheckAndAddObj q c.center_)
          (pushed ++ [Elem.mk c (ops.DistanceObjLeft q c.center_).1])
      else collectCandidates ops rest (ops.CheckAndAddObj q c.center_) pushed := rfl

theorem fold_submit_preserves_mem (ops : QueryType D Obj Q) (P : Q → Prop) (A : Obj → Prop)
    (h : ∀ q o, A o → P q → P (ops.CheckAndAddObj q o)) :
    ∀ (objs : List Obj) (q : Q), (∀ o ∈ objs, A o) → P q →
      P (objs.foldl ops.CheckAndAddObj q) := by
  intro objs
  induction objs with
  | nil => intro q _ hq; exact hq
  | cons a rest ih =>
    intro q hA hq
    exact ih _ (fun o ho => hA o (List.mem_cons_of_mem _ ho))
      (h q a (hA a (List.mem_cons_self _ _)) hq)

/-- A property of the accumulator that the submission of every indexed object preserves holds
after the exact branch. -/
theorem exactSearch_preserves_mem (ops : QueryType D Obj Q) (P : Q → Prop) (A : Obj → Prop)
    (h : ∀ q o, A o → P q → P (ops.CheckAndAddObj q o)) :
    ∀ (cl : List (Cluster D Obj)) (q : Q), (∀ o ∈ allMembers cl, A o) → P q →
      P (exactSearch ops cl q) := by
  intro cl
  induction cl with
  | nil => intro q _ hq; exact hq
  | cons c rest ih =>
    intro q hA hq
    have hAc : A c.center_ := hA _ (by simp [allMembers, Cluster.members])
    have hAb : ∀ o ∈ c.bucket_, A o := fun o ho =>
      hA o (by simp [allMembers, Cluster.members, ho])
    have hAr : ∀ o ∈ allMembers rest, A o := fun o ho =>
      hA o (by simp [allMembers, Cluster.members, ho])
    rw [exactSearch_cons]
    have h1 := h q c.center_ hAc hq
    have h2 : P (c.Search ops (ops.CheckAndAddObj q c.center_)) :=
      fold_submit_preserves_mem ops P A h c.bucket_ _ hAb h1
    split
    · split
      · exact h2
      · exact ih _ hAr h2
    · exact ih _ hAr h1

/-- A property of the accumulator that every submission preserves holds after the exact
branch. -/
theorem exactSearch_preserves (ops : QueryType D Obj Q) (P : Q → Prop)
    (h : ∀ q o, P q → P (ops.CheckAndAddObj q o)) :
    ∀ (cl : List (Cluster D Obj)) (q : Q), P q → P (exactSearch ops cl q) := by
  intro cl q hq
  exact exactSearch_preserves_mem ops P (fun _ => True) (fun q o _ hP => h q o hP) cl q
    (fun _ _ => trivial) hq

theorem collectCandidates_preserves (ops : QueryType D Obj Q) (P : Q → Prop)
    (h : ∀ q o, P q → P (ops.CheckAndAddObj q o)) :
    ∀ (cl : List (Cluster D Obj)) (q : Q) (pushed : List (Elem D Obj)),
      P q → P (collectCandidates ops cl q pushed).1 := by
  intro cl
  induction cl with
  | nil => intro q pushed hq; exact hq
  | cons c rest ih =>
    intro q pushed hq
    rw [collectCandidates_cons]
    have h1 := h q c.center_ hq
    split
    · exact ih _ _ h1
    · exact ih _ _ h1

theorem visitLeaves_preserves (ops : QueryType D Obj Q) (P : Q → Prop)
    (h : ∀ q o, P q → P (ops.CheckAndAddObj q o)) (MaxLeavesToVisit_ : Int) :
    ∀ (l : List (Elem D Obj)) (PrevDist : D) (lproc : Int) (q res : Q),
      P q → visitLeaves ops MaxLeavesToVisit_ l PrevDist lproc q = some res → P res := by
  intro l
  induction l with
  | nil =>
    intro PrevDist lproc q res hq hres
    simp only [visitLeaves, Option.some.injEq] at hres
    exact hres ▸ hq
  | cons top rest ih =>
    intro PrevDist lproc q res hq hres
    have h2 := Cluster_Search_preserves ops P h top.cluster q hq
    rw [visitLeaves] at hres
    split at hres
    · split at hres
      · dsimp only at hres
        split at hres
        · simp only [Option.some.injEq] at hres
          exact hres ▸ h2
        · exact ih _ _ _ _ h2 hres
      · cases hres
    · simp only [Option.some.injEq] at hres
      exact hres ▸ hq

/-- A property of the accumulator that every submission preserves holds after `GenSearch`, in
the exact and in the approximate branch. -/
theorem GenSearch_preserves (FAKE_MAX_LEAVES_TO_VISIT : Int) (ops : QueryType D Obj Q)
    (P : Q → Prop) (h : ∀ q o, P q → P (ops.CheckAndAddObj q o))
    (pq : List (Elem D Obj) → List (Elem D Obj)) (index : ListClusters D Obj) (q res : Q)
    (hq : P q) (hres : GenSearch FAKE_MAX_LEAVES_TO_VISIT ops pq index q = some res) :
    P res := by
  unfold GenSearch at hres
  split at hres
  · simp only [Option.some.injEq] at hres
    exact hres ▸ exactSearch_preserves ops P h _ _ hq
  · exact visitLeaves_preserves ops P h _ _ _ _ _ _
      (collectCandidates_preserves ops P h _ _ _ hq) hres

theorem ballIntersects_false (dist_qc : D) (radius : Option D) (cr : D)
    (h : ballIntersects dist_qc radius cr = false) :
    ∃ r, radius = some r ∧ cr ≤ DistArith.sub dist_qc r := by
  cases radius with
  | none => simp [ballIntersects] at h
  | some r =>
    refine ⟨r, rfl, ?_⟩
    simpa [ballIntersects] using h

theorem ballContained_true (dist_qc : D) (radius : Option D) (cr : D)
    (h : ballContained dist_qc radius cr = true) :
    ∃ r, radius = some r ∧ DistArith.add dist_qc r < cr := by
  cases radius with
  | none => simp [ballContained] at h
  | some r =>
    refine ⟨r, rfl, ?_⟩
    simpa [ballContained] using h

/-- The exact branch is a run of submissions of indexed objects, each at most once and in
index order. -/
theorem exactSearch_eq_fold (ops : QueryType D Obj Q) :
    ∀ (cl : List (Cluster D Obj)) (q : Q),
      ∃ V : List Obj, V.Sublist (allMembers cl) ∧
        exactSearch ops cl q = V.foldl ops.CheckAndAddObj q := by
  intro cl
  induction cl with
  | nil => intro q; exact ⟨[], List.Sublist.refl _, rfl⟩
  | cons c rest ih =>
    intro q
    rw [exactSearch_cons]
    split
    · split
      · refine ⟨c.center_ :: c.bucket_, ?_, rfl⟩
        exact List.sublist_append_left _ _
      · obtain ⟨V, hV, hfold⟩ := ih (c.Search ops (ops.CheckAndAddObj q c.center_))
        refine ⟨(c.center_ :: c.bucket_) ++ V, ?_, ?_⟩
        · exact List.Sublist.append (List.Sublist.refl _) hV
        · rw [hfold, List.foldl_append]
          rfl
    · obtain ⟨V, hV, hfold⟩ := ih (ops.CheckAndAddObj q c.center_)
      refine ⟨c.center_ :: V, ?_, ?_⟩
      · show (c.center_ :: V).Sublist (c.center_ :: (c.bucket_ ++ allMembers rest))
        exact List.Sublist.cons₂ _ (List.sublist_append_of_sublist_right hV)
      · rw [hfold]
        rfl

/-! ## The shape of the built index -/

theorem IndexOrdered_append (space : Space D Obj) (c : Cluster D Obj) :
    ∀ cl : List (Cluster D Obj), IndexOrdered space cl →
      (∀ c1 ∈ cl, ∀ o ∈ c.members,
        c1.covering_radius_ ≤ space.IndexTimeDistance o c1.center_) →
      (∀ o ∈ c.bucket_, space.IndexTimeDistance o c.center_ ≤ c.covering_radius_) →
      IndexOrdered space (cl ++ [c]) := by
  intro cl
  induction cl with
  | nil =>
    intro _ _ hb
    exact ⟨hb, by intro o ho; simp [allMembers] at ho, trivial⟩
  | cons a rest ih =>
    intro hord hlater hb
    obtain ⟨h1, h2, h3⟩ := hord
    refine ⟨h1, ?_, ih h3 (fun c1 hc1 => hlater c1 (List.mem_cons_of_mem _ hc1)) hb⟩
    intro o ho
    have ho2 : o ∈ allMembers (rest ++ [c]) := ho
    rw [allMembers_append] at ho2
    rcases List.mem_append.mp ho2 with ho3 | ho3
    · exact h2 o ho3
    · exact hlater a (List.mem_cons_self _ _) o ho3

/-- Under a non-negative build-time distance the build loop returns a cluster list of the shape
`IndexOrdered`. -/
theorem buildClusters_ordered (space : Space D Obj)
    (srt : List (D × D × Obj) → List (D × D × Obj)) (hsrt : IsStdSort srt)
    (rnd : Nat → Nat) (Strategy_ : ListClustersStrategy)
    (UseBucketSize_ : Bool) (BucketSize_ : Nat) (Radius_ : D)
    (data : List Obj) (hnd : data.Nodup)
    (hnn : ∀ a b, 0 ≤ space.IndexTimeDistance a b) :
    ∃ cl n, buildClusters space srt rnd Strategy_ UseBucketSize_ BucketSize_ Radius_ data
        = .ok (cl, n) ∧ IndexOrdered space cl := by
  have hrule := buildLoop_rule space srt hsrt rnd Strategy_ UseBucketSize_ BucketSize_ Radius_
    (fun remaining cl _ => IndexOrdered space cl ∧
      ∀ c ∈ cl, ∀ o ∈ remaining.map Prod.snd,
        c.covering_radius_ ≤ space.IndexTimeDistance o c.center_)
    (by
      intro remaining cl it center hP _ hc
      obtain ⟨h1, h2⟩ := hP
      refine ⟨IndexOrdered_append space _ cl h1 ?_ ?_, ?_⟩
      · intro c1 hc1 o ho
        simp only [Cluster.members, Cluster.init, List.mem_singleton] at ho
        subst ho
        exact h2 c1 hc1 _ hc
      · intro o ho
        simp [Cluster.init] at ho
      · intro c _ o ho
        simp at ho)
    (by
      intro remaining cl it center hP hnd2 hc _ _
      obtain ⟨h1, h2⟩ := hP
      obtain ⟨e1, e2, e3⟩ := stepCluster space center
        (stepInside space srt UseBucketSize_ BucketSize_ Radius_ remaining center)
      have hin : ∀ t ∈ stepInside space srt UseBucketSize_ BucketSize_ Radius_ remaining
          center, t.1 = space.IndexTimeDistance t.2.2 center ∧
            t.2.2 ∈ remaining.map Prod.snd := by
        intro t ht
        have h := stepTuples_mem space center remaining t
          (stepInside_subset space srt hsrt _ _ _ _ _ t ht)
        exact ⟨h.1, List.mem_map_of_mem Prod.snd h.2.2⟩
      have hout : ∀ t ∈ stepOutside space srt UseBucketSize_ BucketSize_ Radius_ remaining
          center, t.1 = space.IndexTimeDistance t.2.2 center ∧
            t.2.2 ∈ remaining.map Prod.snd := by
        intro t ht
        have h := stepTuples_mem space center remaining t
          (stepOutside_subset space srt hsrt _ _ _ _ _ t ht)
        exact ⟨h.1, List.mem_map_of_mem Prod.snd h.2.2⟩
      refine ⟨IndexOrdered_append space _ cl h1 ?_ ?_, ?_⟩
      · intro c1 hc1 o ho
        rw [Cluster.members, e1, e2] at ho
        rcases List.mem_cons.mp ho with ho | ho
        · rw [ho]; exact h2 c1 hc1 _ hc
        · rw [List.mem_map] at ho
          obtain ⟨t, ht, rfl⟩ := ho
          exact h2 c1 hc1 _ (hin t ht).2
      · intro o ho
        rw [e2, List.mem_map] at ho
        obtain ⟨t, ht, rfl⟩ := ho
        rw [e1, e3, ← (hin t ht).1]
        exact (foldl_max_ge _ 0).2 _ (List.mem_map_of_mem (fun t => t.1) ht)
      · intro c hcmem o ho
        rw [outsideEntry_snd, List.mem_map] at ho
        obtain ⟨b, hb, rfl⟩ := ho
        rcases List.mem_append.mp hcmem with hcl | hcl
        · exact h2 c hcl _ (hout b hb).2
        · rw [List.mem_singleton.mp hcl, e1, e3]
          rcases foldl_max_mem ((stepInside space srt UseBucketSize_ BucketSize_ Radius_
            remaining center).map (fun t => t.1)) 0 with e | e
          · rw [e]; exact hnn _ _
          · rw [List.mem_map] at e
            obtain ⟨a, ha, hae⟩ := e
            rw [← hae, ← (hout b hb).1]
            exact stepInside_le_stepOutside space srt hsrt UseBucketSize_ BucketSize_
              Radius_ remaining center a ha b hb)
    data.length (data.map (fun object => ((0 : D), object))) [] 0
    (by rw [initialPool_snd]; exact hnd) (by simp)
    ⟨trivial, by intro c hc; simp at hc⟩
  obtain ⟨res, n, hres, hP⟩ := hrule
  exact ⟨res, n, hres, hP.1⟩

/-! ## The exact branch loses no object inside the radius -/

theorem fold_submit_settled (ops : QueryType D Obj Q) (Has : Q → Obj → Prop) (dq : Obj → D)
    (I : Q → Prop) (A : Obj → Prop)
    (hI : ∀ q o, A o → I q → I (ops.CheckAndAddObj q o))
    (hkeep : ∀ q o o1, A o → I q → Settled ops Has dq q o1 →
      Settled ops Has dq (ops.CheckAndAddObj q o) o1)
    (hnew : ∀ q o, A o → I q → Settled ops Has dq (ops.CheckAndAddObj q o) o) :
    ∀ (objs : List Obj) (q : Q) (S : Obj → Prop), (∀ o ∈ objs, A o) → I q →
      (∀ o, S o → Settled ops Has dq q o) →
      I (objs.foldl ops.CheckAndAddObj q) ∧
      ∀ o, (S o ∨ o ∈ objs) → Settled ops Has dq (objs.foldl ops.CheckAndAddObj q) o := by
  intro objs
  induction objs with
  | nil =>
    intro q S _ hq hS
    refine ⟨hq, ?_⟩
    intro o ho
    rcases ho with ho | ho
    · exact hS o ho
    · simp at ho
  | cons a rest ih =>
    intro q S hA hq hS
    have ha : A a := hA a (List.mem_cons_self _ _)
    obtain ⟨h1, h2⟩ := ih (ops.CheckAndAddObj q a) (fun o => S o ∨ o = a)
      (fun o ho => hA o (List.mem_cons_of_mem _ ho)) (hI q a ha hq)
      (by
        intro o ho
        rcases ho with ho | ho
        · exact hkeep q a o ha hq (hS o ho)
        · rw [ho]; exact hnew q a ha hq)
    refine ⟨h1, ?_⟩
    intro o ho
    apply h2
    rcases ho with ho | ho
    · exact Or.inl (Or.inl ho)
    · rcases List.mem_cons.mp ho with e | e
      · exact Or.inl (Or.inr e)
      · exact Or.inr e

/-- The exact branch on an index of the shape `IndexOrdered`, under a symmetric distance with
the triangle inequality, when the machine computes `dist_qc - Radius()` and
`dist_qc + Radius()` without overflow or rounding at the centres of the index: afterwards every
indexed object is in the result or its distance from the query is not inside the radius of the
accumulator. -/
theorem exactSearch_settled (space : Space D Obj) (ops : QueryType D Obj Q)
    (Has : Q → Obj → Prop) (x : Obj) (I : Q → Prop) (A : Obj → Prop)
    (hdist : ∀ q o, I q → (ops.DistanceObjLeft q o).1 = space.distance x o)
    (hIT : ∀ a b, space.IndexTimeDistance a b = space.distance a b)
    (hsymm : ∀ a b, space.distance a b = space.distance b a)
    (htri : ∀ a b c, space.distance a c ≤ space.distance a b + space.distance b c)
    (hexact : ∀ q o r, A o → I q → ops.Radius q = some r →
      DistArith.sub (space.distance x o) r = space.distance x o - r ∧
      DistArith.add (space.distance x o) r = space.distance x o + r)
    (hI : ∀ q o, A o → I q → I (ops.CheckAndAddObj q o))
    (hkeep : ∀ q o o1, A o → I q → Settled ops Has (space.distance x) q o1 →
      Settled ops Has (space.distance x) (ops.CheckAndAddObj q o) o1)
    (hnew : ∀ q o, A o → I q →
      Settled ops Has (space.distance x) (ops.CheckAndAddObj q o) o) :
    ∀ (cl : List (Cluster D Obj)) (q : Q) (S : Obj → Prop),
      (∀ o ∈ allMembers cl, A o) → IndexOrdered space cl → I q →
      (∀ o, S o → Settled ops Has (space.distance x) q o) →
      I (exactSearch ops cl q) ∧
      ∀ o, (S o ∨ o ∈ allMembers cl) →
        Settled ops Has (space.distance x) (exactSearch ops cl q) o := by
  intro cl
  induction cl with
  | nil =>
    intro q S _ _ hq hS
    refine ⟨hq, ?_⟩
    intro o ho
    rcases ho with ho | ho
    · exact hS o ho
    · simp [allMembers] at ho
  | cons c rest ih =>
    intro q S hA hord hq hS
    obtain ⟨hbucket, hlater, hrest⟩ := hord
    have hAc : A c.center_ := hA _ (by simp [allMembers, Cluster.members])
    have hAb : ∀ o ∈ c.bucket_, A o := by
      intro o ho
      apply hA
      simp only [allMembers, Cluster.members, List.cons_append, List.mem_cons,
        List.mem_append]
      exact Or.inr (Or.inl ho)
    have hAr : ∀ o ∈ allMembers rest, A o := by
      intro o ho
      apply hA
      simp only [allMembers, Cluster.members, List.cons_append, List.mem_cons,
        List.mem_append]
      exact Or.inr (Or.inr ho)
    have hq1 : I (ops.CheckAndAddObj q c.center_) := hI q _ hAc hq
    have hS1 : ∀ o, (S o ∨ o = c.center_) →
        Settled ops Has (space.distance x) (ops.CheckAndAddObj q c.center_) o := by
      intro o ho
      rcases ho with ho | ho
      · exact hkeep q _ o hAc hq (hS o ho)
      · rw [ho]; exact hnew q _ hAc hq
    obtain ⟨hq2, hS2⟩ := fold_submit_settled ops Has (space.distance x) I A hI hkeep hnew
      c.bucket_ (ops.CheckAndAddObj q c.center_) (fun o => S o ∨ o = c.center_) hAb hq1 hS1
    rw [exactSearch_cons, hdist q _ hq]
    split
    · split
      · rename_i _ hcont
        obtain ⟨r, hr, hlt⟩ := ballContained_true _ _ _ hcont
        rw [(hexact _ c.center_ r hAc hq2 hr).2] at hlt
        refine ⟨hq2, ?_⟩
        intro o ho
        rcases ho with ho | ho
        · exact hS2 o (Or.inl (Or.inl ho))
        · simp only [allMembers, Cluster.members, List.cons_append, List.mem_cons,
            List.mem_append] at ho
          rcases ho with ho | ho | ho
          · exact hS2 o (Or.inl (Or.inr ho))
          · exact hS2 o (Or.inr ho)
          · right
            intro hadm
            unfold Admits at hadm
            rw [hr] at hadm
            have h1 := hlater o ho
            rw [hIT] at h1
            have h2 := htri o x c.center_
            rw [hsymm o x] at h2
            have h3 : space.distance o c.center_ < c.covering_radius_ :=
              lt_of_le_of_lt h2 (lt_trans (by
                rw [add_comm]
                exact add_lt_add_left hadm _) hlt)
            exact absurd h1 (not_le.mpr h3)
      · obtain ⟨h1, h2⟩ := ih (c.Search ops (ops.CheckAndAddObj q c.center_))
          (fun o => (S o ∨ o = c.center_) ∨ o ∈ c.bucket_) hAr hrest hq2 hS2
        refine ⟨h1, ?_⟩
        intro o ho
        apply h2
        rcases ho with ho | ho
        · exact Or.inl (Or.inl (Or.inl ho))
        · simp only [allMembers, Cluster.members, List.cons_append, List.mem_cons,
            List.mem_append] at ho
          rcases ho with ho | ho | ho
          · exact Or.inl (Or.inl (Or.inr ho))
          · exact Or.inl (Or.inr ho)
          · exact Or.inr ho
    · rename_i hint
      obtain ⟨r, hr, hle⟩ := ballIntersects_false _ _ _ (by simpa using hint)
      rw [(hexact _ c.center_ r hAc hq1 hr).1] at hle
      obtain ⟨h1, h2⟩ := ih (ops.CheckAndAddObj q c.center_)
        (fun o => (S o ∨ o = c.center_) ∨ o ∈ c.bucket_) hAr hrest hq1 (by
          intro o ho
          rcases ho with ho | ho
          · exact hS1 o ho
          · right
            intro hadm
            unfold Admits at hadm
            rw [hr] at hadm
            have h1 := hbucket o ho
            rw [hIT] at h1
            have h2 := htri x o c.center_
            have h3 : space.distance x o + space.distance o c.center_
                < r + c.covering_radius_ := add_lt_add_of_lt_of_le hadm h1
            have h4 : r + c.covering_radius_ ≤ space.distance x c.center_ := by
              have := add_le_add_left hle r
              rwa [add_sub_cancel] at this
            exact absurd (lt_of_lt_of_le h3 h4) (not_lt.mpr h2))
      refine ⟨h1, ?_⟩
      intro o ho
      apply h2
      rcases ho with ho | ho
      · exact Or.inl (Or.inl (Or.inl ho))
      · simp only [allMembers, Cluster.members, List.cons_append, List.mem_cons,
          List.mem_append] at ho
        rcases ho with ho | ho | ho
        · exact Or.inl (Or.inl (Or.inr ho))
        · exact Or.inl (Or.inr ho)
        · exact Or.inr ho

end SearchLemmas

/-! ## Range queries -/

section RangeClaims

variable {D Obj : Type} [LinearOrderedAddCommGroup D] [DistArith D] [DecidableEq Obj]

theorem rangeOps_CheckAndAddObj (space : Space D Obj) (q : RangeQuery D Obj) (o : Obj) :
    (rangeOps space).CheckAndAddObj q o =
      if space.distance q.query_object o ≤ q.radius then
        { q with result := q.result ++ [(space.distance q.query_object o, o)]
                 distance_evals := q.distance_evals + 1 }
      else { q with distance_evals := q.distance_evals + 1 } := by
  unfold QueryType.CheckAndAddObj rangeOps
  dsimp only

/-- A submission to the range accumulator keeps the query object and the radius, and keeps
every result pair within the radius and at the distance of its object. -/
theorem rangeOps_sound_step (space : Space D Obj) (x : Obj) (r : D)
    (q : RangeQuery D Obj) (o : Obj)
    (h : q.query_object = x ∧ q.radius = r ∧
      ∀ p ∈ q.result, p.1 ≤ r ∧ p.1 = space.distance x p.2) :
    ((rangeOps space).CheckAndAddObj q o).query_object = x ∧
    ((rangeOps space).CheckAndAddObj q o).radius = r ∧
      ∀ p ∈ ((rangeOps space).CheckAndAddObj q o).result,
        p.1 ≤ r ∧ p.1 = space.distance x p.2 := by
  obtain ⟨h1, h2, h3⟩ := h
  rw [rangeOps_CheckAndAddObj]
  split
  · rename_i hle
    refine ⟨h1, h2, ?_⟩
    intro p hp
    rcases List.mem_append.mp hp with hp | hp
    · exact h3 p hp
    · rw [List.mem_singleton.mp hp]
      rw [h2] at hle
      exact ⟨hle, by rw [h1]⟩
  · exact ⟨h1, h2, h3⟩

/-- C4 (range soundness).  For every index, in the exact and in the approximate branch, and
every range query that starts with an empty result, each pair `(d, obj)` of the result after
`Search` has `d ≤ radius` and `d = distance(query, obj)`. -/
theorem C4_range_soundness (FAKE_MAX_LEAVES_TO_VISIT : Int) (space : Space D Obj)
    (pq : List (Elem D Obj) → List (Elem D Obj)) (index : ListClusters D Obj)
    (query_object : Obj) (radius : D) (res : RangeQuery D Obj)
    (hres : ListClusters.SearchRange FAKE_MAX_LEAVES_TO_VISIT space pq index
      (RangeQuery.init query_object radius) = some res) :
    ∀ p ∈ res.result, p.1 ≤ radius ∧ p.1 = space.distance query_object p.2 := by
  have h := GenSearch_preserves FAKE_MAX_LEAVES_TO_VISIT (rangeOps space)
    (fun q => q.query_object = query_object ∧ q.radius = radius ∧
      ∀ p ∈ q.result, p.1 ≤ radius ∧ p.1 = space.distance query_object p.2)
    (fun q o hq => rangeOps_sound_step space query_object radius q o hq)
    pq index (RangeQuery.init query_object radius) res
    ⟨rfl, rfl, by intro p hp; simp [RangeQuery.init] at hp⟩ hres
  exact h.2.2

/-- C4 at a concrete input: the approximate branch with a budget of one leaf, query 2 and
radius 3 on the integer line. -/
theorem C4_range_soundness_witness :
    ListClusters.SearchRange sentinel lineSpace insertionSortPq oneLeafIndex
        (RangeQuery.init 2 3)
      = some { query_object := 2, radius := 3, result := [(2, 0), (1, 3), (2, 4), (3, 5)],
               distance_evals := 5 } ∧
    ∀ p ∈ ([(2, 0), (1, 3), (2, 4), (3, 5)] : List (Int × Int)),
      p.1 ≤ 3 ∧ p.1 = lineSpace.distance 2 p.2 :=
  ⟨by decide,
    C4_range_soundness sentinel lineSpace insertionSortPq oneLeafIndex 2 3
      { query_object := 2, radius := 3, result := [(2, 0), (1, 3), (2, 4), (3, 5)],
        distance_evals := 5 } (by decide)⟩

/-- A submission to the range accumulator settles the submitted object and keeps the others
settled. -/
theorem rangeOps_settled_step (space : Space D Obj) (x : Obj) (r : D)
    (q : RangeQuery D Obj) (o : Obj) (hq : q.query_object = x ∧ q.radius = r) :
    (((rangeOps space).CheckAndAddObj q o).query_object = x ∧
      ((rangeOps space).CheckAndAddObj q o).radius = r) ∧
    Settled (rangeOps space) (fun q o => o ∈ q.result.map Prod.snd) (space.distance x)
      ((rangeOps space).CheckAndAddObj q o) o ∧
    ∀ o1, Settled (rangeOps space) (fun q o => o ∈ q.result.map Prod.snd) (space.distance x)
        q o1 →
      Settled (rangeOps space) (fun q o => o ∈ q.result.map Prod.snd) (space.distance x)
        ((rangeOps space).CheckAndAddObj q o) o1 := by
  obtain ⟨h1, h2⟩ := hq
  have hrad : ∀ q1 : RangeQuery D Obj, ∀ d : D,
      Admits (rangeOps space) q1 d ↔ d < q1.radius := by
    intro q1 d
    rfl
  rw [rangeOps_CheckAndAddObj]
  by_cases hle : space.distance q.query_object o ≤ q.radius
  · rw [if_pos hle]
    refine ⟨⟨h1, h2⟩, ?_, ?_⟩
    · left
      simp
    · intro o1 ho1
      rcases ho1 with ho1 | ho1
      · left
        simp only [List.map_append, List.mem_append]
        exact Or.inl ho1
      · right
        rw [hrad] at ho1 ⊢
        exact ho1
  · rw [if_neg hle]
    refine ⟨⟨h1, h2⟩, ?_, ?_⟩
    · right
      rw [hrad]
      intro hlt
      apply hle
      rw [h1]
      exact le_of_lt hlt
    · intro o1 ho1
      rcases ho1 with ho1 | ho1
      · exact Or.inl ho1
      · right
        rw [hrad] at ho1 ⊢
        exact ho1

/-- C2 as stated fails.  First part: under the metric `|a - b|`, in exact mode, the object 2 of
the dataset 0, 2, 10 is at distance 1 from the query 3, the radius is 1, and the result is
empty.  Second part: under a symmetric non-negative distance without the triangle inequality
the object 1 of the dataset 0, 1 is at distance 1 from the query 2, the radius is 2, and the
result is empty.  Third part: for the `int` instantiation under the metric `|a - b|`, the
objects 10 and 18 of the dataset 0, 4, 10, 18 are inside the radius 2147483647 of the query 8
and the result holds 0 and 4 only, because `dist_qc + Radius()` wraps around at line 202. -/
theorem C2_counterexample :
    ((∀ a b, lineSpace.distance a b = lineSpace.distance b a) ∧
      (∀ a b, 0 ≤ lineSpace.distance a b) ∧
      (∀ a b, lineSpace.IndexTimeDistance a b = lineSpace.distance a b) ∧
      ListClusters.create sentinel lineSpace insertionSortDp (fun _ => 0) [0, 2, 10]
        oneObjectBucketParams = .ok boundaryIndex ∧
      boundaryIndex.MaxLeavesToVisit_ = sentinel ∧
      (ListClusters.SearchRange sentinel lineSpace insertionSortPq boundaryIndex
        (RangeQuery.init 3 1)).map (fun q => q.result) = some [] ∧
      (2 : Int) ∈ ([0, 2, 10] : List Int) ∧ lineSpace.distance 3 2 ≤ 1) ∧
    ((∀ a b, jumpSpace.distance a b = jumpSpace.distance b a) ∧
      (∀ a b, 0 ≤ jumpSpace.distance a b) ∧
      (∀ a b, jumpSpace.IndexTimeDistance a b = jumpSpace.distance a b) ∧
      ListClusters.create sentinel jumpSpace insertionSortDp (fun _ => 0) [0, 1]
        (noParams Int) = .ok jumpIndex ∧
      jumpIndex.MaxLeavesToVisit_ = sentinel ∧
      (ListClusters.SearchRange sentinel jumpSpace insertionSortPq jumpIndex
        (RangeQuery.init 2 2)).map (fun q => q.result) = some [] ∧
      (1 : Int) ∈ ([0, 1] : List Int) ∧ jumpSpace.distance 2 1 < 2) ∧
    (ListClusters.create sentinel lineSpace insertionSortDp (fun _ => 0) [0, 4, 10, 18]
        oneObjectBucketParams = .ok overlapIndex ∧
      overlapIndex.MaxLeavesToVisit_ = sentinel ∧
      (ListClusters.SearchRange sentinel lineSpace insertionSortPq overlapIndex
        (RangeQuery.init 8 2147483647)).map (fun q => q.result) = some [(8, 0), (4, 4)] ∧
      (10 : Int) ∈ ([0, 4, 10, 18] : List Int) ∧ lineSpace.distance 8 10 ≤ 2147483647 ∧
      DistArith.add (lineSpace.distance 8 0) (2147483647 : Int) = -2147483641) := by
  refine ⟨⟨?_, ?_, ?_, by decide, by decide, by decide, by decide, by decide⟩,
    ⟨?_, ?_, ?_, by decide, by decide, by decide, by decide, by decide⟩, by decide⟩
  · intro a b
    exact abs_sub_comm a b
  · intro a b
    exact abs_nonneg _
  · intro a b
    rfl
  · intro a b
    simp only [jumpSpace]
    by_cases h : a = b
    · subst h; rfl
    · rw [if_neg h, if_neg (Ne.symm h), add_comm b a, mul_comm b a]
  · intro a b
    simp only [jumpSpace]
    split
    · exact le_refl _
    · split <;> decide
  · intro a b
    rfl

/-- C2 (range query in exact mode), amended.  For an index built from pairwise-distinct
objects, in exact mode, under a distance that is symmetric, non-negative and satisfies the
triangle inequality (with `IndexTimeDistance` equal to `distance`), and a query for which
`distance(query, obj) - radius` and `distance(query, obj) + radius` are computed in `dist_t`
without overflow or rounding at the dataset objects, the search returns, the result holds every
dataset object with `distance(query, obj) < radius` and only dataset objects with
`distance(query, obj) ≤ radius`. -/
theorem C2_range_exact_mode [One D] (FAKE_MAX_LEAVES_TO_VISIT : Int) (space : Space D Obj)
    (srt : List (D × D × Obj) → List (D × D × Obj)) (hsrt : IsStdSort srt)
    (rnd : Nat → Nat) (data : List Obj) (hnd : data.Nodup) (MethParams : AnyParams D)
    (strat : ListClustersStrategy)
    (hs : parseStrategy (MethParams.strategy.getD "random") = .ok strat)
    (hexact : MethParams.maxLeavesToVisit.getD FAKE_MAX_LEAVES_TO_VISIT
      = FAKE_MAX_LEAVES_TO_VISIT)
    (hIT : ∀ a b, space.IndexTimeDistance a b = space.distance a b)
    (hsymm : ∀ a b, space.distance a b = space.distance b a)
    (hnn : ∀ a b, 0 ≤ space.distance a b)
    (htri : ∀ a b c, space.distance a c ≤ space.distance a b + space.distance b c)
    (pq : List (Elem D Obj) → List (Elem D Obj)) (query_object : Obj) (radius : D)
    (harith : ∀ o ∈ data,
      DistArith.sub (space.distance query_object o) radius
        = space.distance query_object o - radius ∧
      DistArith.add (space.distance query_object o) radius
        = space.distance query_object o + radius) :
    ∃ index res, ListClusters.create FAKE_MAX_LEAVES_TO_VISIT space srt rnd data MethParams
        = .ok index ∧
      ListClusters.SearchRange FAKE_MAX_LEAVES_TO_VISIT space pq index
        (RangeQuery.init query_object radius) = some res ∧
      (∀ o ∈ data, space.distance query_object o < radius → o ∈ res.result.map Prod.snd) ∧
      (∀ o ∈ res.result.map Prod.snd, o ∈ data ∧ space.distance query_object o ≤ radius) := by
  obtain ⟨cl, n, hb, hperm⟩ := buildClusters_partition space srt hsrt rnd strat
    (MethParams.useBucketSize.getD true) (MethParams.bucketSize.getD 50)
    (MethParams.radius.getD 1) data hnd
  obtain ⟨cl2, n2, hb2, hord⟩ := buildClusters_ordered space srt hsrt rnd strat
    (MethParams.useBucketSize.getD true) (MethParams.bucketSize.getD 50)
    (MethParams.radius.getD 1) data hnd (fun a b => by rw [hIT]; exact hnn a b)
  rw [hb] at hb2
  cases hb2
  refine ⟨_, exactSearch (rangeOps space) cl (RangeQuery.init query_object radius),
    create_eq FAKE_MAX_LEAVES_TO_VISIT space srt rnd data MethParams strat cl n hs hb,
    ?_, ?_, ?_⟩
  · unfold ListClusters.SearchRange GenSearch
    dsimp only
    rw [if_pos hexact]
  · have h := exactSearch_settled space (rangeOps space)
      (fun q o => o ∈ q.result.map Prod.snd) query_object
      (fun q => q.query_object = query_object ∧ q.radius = radius)
      (fun o => o ∈ data)
      (fun q o hq => by
        show space.distance q.query_object o = _
        rw [hq.1])
      hIT hsymm htri
      (fun q o r ho hq hr => by
        have hr2 : q.radius = r := Option.some.inj hr
        rw [← hr2, hq.2]
        exact harith o ho)
      (fun q o _ hq => (rangeOps_settled_step space query_object radius q o hq).1)
      (fun q o o1 _ hq h1 =>
        (rangeOps_settled_step space query_object radius q o hq).2.2 o1 h1)
      (fun q o _ hq => (rangeOps_settled_step space query_object radius q o hq).2.1)
      cl (RangeQuery.init query_object radius) (fun _ => False)
      (fun o ho => hperm.mem_iff.mp ho) hord ⟨rfl, rfl⟩
      (fun o ho => absurd ho id)
    obtain ⟨hI, hset⟩ := h
    intro o ho hlt
    rcases hset o (Or.inr (hperm.mem_iff.mpr ho)) with h1 | h1
    · exact h1
    · exfalso
      apply h1
      show space.distance query_object o < _
      rw [hI.2]
      exact hlt
  · have h := exactSearch_preserves_mem (rangeOps space)
      (fun q => (q.query_object = query_object ∧ q.radius = radius) ∧
        ∀ p ∈ q.result, p.2 ∈ data ∧ space.distance query_object p.2 ≤ radius)
      (fun o => o ∈ data)
      (fun q o ho hq => by
        obtain ⟨hq1, hq2⟩ := hq
        rw [rangeOps_CheckAndAddObj]
        split
        · rename_i hle
          refine ⟨hq1, ?_⟩
          intro p hp
          rcases List.mem_append.mp hp with hp | hp
          · exact hq2 p hp
          · rw [List.mem_singleton.mp hp]
            rw [hq1.1, hq1.2] at hle
            exact ⟨ho, hle⟩
        · exact ⟨hq1, hq2⟩)
      cl (RangeQuery.init query_object radius)
      (fun o ho => hperm.mem_iff.mp ho)
      ⟨⟨rfl, rfl⟩, by intro p hp; simp [RangeQuery.init] at hp⟩
    intro o ho
    rw [List.mem_map] at ho
    obtain ⟨p, hp, rfl⟩ := ho
    exact h.2 p hp

/-- C2 at a concrete input: three points of the integer line indexed with radius 100, query 4
and radius 2. -/
theorem C2_range_exact_mode_witness :
    ∃ index res, ListClusters.create sentinel lineSpace insertionSortDp (fun _ => 0)
        [0, 5, 10] (noParams Int) = .ok index ∧
      ListClusters.SearchRange sentinel lineSpace insertionSortPq index
        (RangeQuery.init 4 2) = some res ∧
      (∀ o ∈ ([0, 5, 10] : List Int), lineSpace.distance 4 o < 2 →
        o ∈ res.result.map Prod.snd) ∧
      (∀ o ∈ res.result.map Prod.snd,
        o ∈ ([0, 5, 10] : List Int) ∧ lineSpace.distance 4 o ≤ 2) :=
  C2_range_exact_mode sentinel lineSpace insertionSortDp insertionSortDp_isStdSort
    (fun _ => 0) [0, 5, 10] (by decide) (noParams Int) ListClustersStrategy.kRandom rfl rfl
    (fun _ _ => rfl) (fun a b => abs_sub_comm a b) (fun _ _ => abs_nonneg _)
    (fun a b c => abs_sub_le a b c) insertionSortPq 4 2 (by decide)

end RangeClaims

/-! ## kNN queries: the bounded queue -/

section KNNLemmas

variable {D Obj : Type} [LinearOrderedAddCommGroup D] [DistArith D] [DecidableEq Obj]

theorem knnPush_perm (d : D) (o : Obj) :
    ∀ queue : List (D × Obj), (knnPush queue d o).Perm ((d, o) :: queue) := by
  intro queue
  induction queue with
  | nil => exact List.Perm.refl _
  | cons x rest ih =>
    rw [knnPush]
    split
    · exact List.Perm.refl _
    · exact (ih.cons x).trans (List.Perm.swap _ _ _)

theorem knnPush_length (d : D) (o : Obj) (queue : List (D × Obj)) :
    (knnPush queue d o).length = queue.length + 1 := by
  rw [(knnPush_perm d o queue).length_eq, List.length_cons]

/-- What a submission does to the kNN accumulator: only the queue and the counter change. -/
theorem knnOps_CheckAndAddObj (space : Space D Obj) (q : KNNQuery D Obj) (o : Obj) :
    ((knnOps space).CheckAndAddObj q o).query_object = q.query_object ∧
    ((knnOps space).CheckAndAddObj q o).k = q.k ∧
    ((knnOps space).CheckAndAddObj q o).eps = q.eps ∧
    ((knnOps space).CheckAndAddObj q o).distance_evals = q.distance_evals + 1 ∧
    ((knnOps space).CheckAndAddObj q o).queue =
      if q.queue.length < q.k then knnPush q.queue (space.distance q.query_object o) o
      else
        match q.queue.getLast? with
        | none => q.queue
        | some top =>
          if space.distance q.query_object o < DistArith.shrink top.1 q.eps then
            (knnPush q.queue (space.distance q.query_object o) o).dropLast
          else q.queue := by
  unfold QueryType.CheckAndAddObj knnOps KNNQuery.CheckAndAddToResult KNNQuery.Radius
  dsimp only
  by_cases h1 : q.queue.length < q.k
  · simp only [h1, if_true, and_self]
  · simp only [h1, if_false]
    cases h2 : q.queue.getLast? with
    | none => simp
    | some top =>
      simp only [Option.map_some']
      by_cases h3 : space.distance q.query_object o < DistArith.shrink top.1 q.eps
      · simp [h3]
      · simp [h3]

/-- A submission leaves `min k (length + 1)` entries in a queue that had at most `k`. -/
theorem knnOps_submit_length (space : Space D Obj) (q : KNNQuery D Obj) (o : Obj)
    (h : q.queue.length ≤ q.k) :
    ((knnOps space).CheckAndAddObj q o).k = q.k ∧
    ((knnOps space).CheckAndAddObj q o).queue.length = min q.k (q.queue.length + 1) := by
  obtain ⟨_, hk, _, _, hq⟩ := knnOps_CheckAndAddObj space q o
  refine ⟨hk, ?_⟩
  rw [hq]
  by_cases h1 : q.queue.length < q.k
  · rw [if_pos h1, knnPush_length]
    omega
  · rw [if_neg h1]
    have hfull : q.queue.length = q.k := by omega
    cases h2 : q.queue.getLast? with
    | none => dsimp only; omega
    | some top =>
      dsimp only
      split
      · rw [List.length_dropLast, knnPush_length]
        omega
      · omega

theorem knnOps_Radius_some (space : Space D Obj) (q : KNNQuery D Obj) (r : D)
    (h : (knnOps space).Radius q = some r) : q.k ≤ q.queue.length := by
  unfold knnOps KNNQuery.Radius at h
  dsimp only at h
  by_contra hcon
  rw [if_pos (by omega)] at h
  cases h

theorem knn_Search_length (space : Space D Obj) (bucket : List Obj) :
    ∀ q : KNNQuery D Obj, q.queue.length ≤ q.k →
      (bucket.foldl (knnOps space).CheckAndAddObj q).k = q.k ∧
      (bucket.foldl (knnOps space).CheckAndAddObj q).queue.length
        = min q.k (q.queue.length + bucket.length) := by
  induction bucket with
  | nil =>
    intro q h
    refine ⟨rfl, ?_⟩
    simp only [List.foldl_nil, List.length_nil]
    omega
  | cons o rest ih =>
    intro q h
    obtain ⟨hk, hl⟩ := knnOps_submit_length space q o h
    obtain ⟨hk2, hl2⟩ := ih ((knnOps space).CheckAndAddObj q o)
      (by rw [hk, hl]; exact Nat.min_le_left _ _)
    rw [List.foldl_cons, hk2, hl2, hk, hl, List.length_cons]
    refine ⟨rfl, ?_⟩
    omega

/-- In the exact branch the kNN queue ends with `min k (length + number of indexed objects)`
entries: pruning only happens once the queue is full. -/
theorem knn_exactSearch_length (space : Space D Obj) :
    ∀ (cl : List (Cluster D Obj)) (q : KNNQuery D Obj), q.queue.length ≤ q.k →
      (exactSearch (knnOps space) cl q).k = q.k ∧
      (exactSearch (knnOps space) cl q).queue.length
        = min q.k (q.queue.length + (allMembers cl).length) := by
  intro cl
  induction cl with
  | nil =>
    intro q h
    refine ⟨rfl, ?_⟩
    simp only [exactSearch, allMembers, List.length_nil]
    omega
  | cons c rest ih =>
    intro q h
    obtain ⟨hk1, hl1⟩ := knnOps_submit_length space q c.center_ h
    have hb1 : ((knnOps space).CheckAndAddObj q c.center_).queue.length
        ≤ ((knnOps space).CheckAndAddObj q c.center_).k := by
      rw [hk1, hl1]; exact Nat.min_le_left _ _
    obtain ⟨hk2, hl2⟩ := knn_Search_length space c.bucket_ _ hb1
    have hb2 : (c.Search (knnOps space) ((knnOps space).CheckAndAddObj q c.center_)).queue.length
        ≤ (c.Search (knnOps space) ((knnOps space).CheckAndAddObj q c.center_)).k := by
      unfold Cluster.Search
      rw [hk2, hl2]; omega
    have hmem : (allMembers (c :: rest)).length
        = 1 + c.bucket_.length + (allMembers rest).length := by
      simp only [allMembers, Cluster.members, List.length_append, List.length_cons]
      omega
    rw [exactSearch_cons]
    split
    · split
      · rename_i _ hcont
        obtain ⟨r, hr, _⟩ := ballContained_true _ _ _ hcont
        have hfull := knnOps_Radius_some space _ r hr
        unfold Cluster.Search at hfull ⊢
        rw [hk2, hk1] at hfull ⊢
        rw [hl2, hl1] at hfull ⊢
        refine ⟨rfl, ?_⟩
        omega
      · obtain ⟨hk3, hl3⟩ := ih _ hb2
        unfold Cluster.Search at hk3 hl3 ⊢
        rw [hk3, hl3, hk2, hl2, hk1, hl1]
        refine ⟨rfl, ?_⟩
        omega
    · rename_i hint
      obtain ⟨r, hr, _⟩ := ballIntersects_false _ _ _ (by simpa using hint)
      have hfull := knnOps_Radius_some space _ r hr
      obtain ⟨hk3, hl3⟩ := ih _ hb1
      rw [hk1, hl1] at hfull
      rw [hk3, hl3, hk1, hl1]
      refine ⟨rfl, ?_⟩
      omega

theorem knnPush_mem (d : D) (o : Obj) (queue : List (D × Obj)) (p : D × Obj) :
    p ∈ knnPush queue d o ↔ p = (d, o) ∨ p ∈ queue := by
  rw [(knnPush_perm d o queue).mem_iff, List.mem_cons]

theorem knnPush_sorted (d : D) (o : Obj) :
    ∀ queue : List (D × Obj), queue.Pairwise (fun a b => a.1 ≤ b.1) →
      (knnPush queue d o).Pairwise (fun a b => a.1 ≤ b.1) := by
  intro queue
  induction queue with
  | nil => intro _; simp [knnPush]
  | cons x rest ih =>
    intro h
    rw [List.pairwise_cons] at h
    rw [knnPush]
    split
    · rename_i hlt
      rw [List.pairwise_cons]
      refine ⟨?_, List.pairwise_cons.mpr h⟩
      intro p hp
      rcases List.mem_cons.mp hp with e | e
      · rw [e]; exact le_of_lt hlt
      · exact le_trans (le_of_lt hlt) (h.1 p e)
    · rename_i hnlt
      rw [List.pairwise_cons]
      refine ⟨?_, ih h.2⟩
      intro p hp
      rcases (knnPush_mem d o rest p).mp hp with e | e
      · rw [e]; exact not_lt.mp hnlt
      · exact h.1 p e

theorem knnPush_append_last (d : D) (o : Obj) (top : D × Obj) (hlt : d < top.1) :
    ∀ ys : List (D × Obj), knnPush (ys ++ [top]) d o = knnPush ys d o ++ [top] := by
  intro ys
  induction ys with
  | nil => simp [knnPush, hlt]
  | cons y rest ih =>
    rw [List.cons_append, knnPush, knnPush]
    split
    · rfl
    · rw [ih]; rfl

theorem sorted_le_last (ys : List (D × Obj)) (top : D × Obj)
    (h : (ys ++ [top]).Pairwise (fun a b => a.1 ≤ b.1)) :
    ∀ p ∈ ys ++ [top], p.1 ≤ top.1 := by
  intro p hp
  rw [List.pairwise_append] at h
  rcases List.mem_append.mp hp with e | e
  · exact h.2.2 p e top (List.mem_singleton.mpr rfl)
  · rw [List.mem_singleton.mp e]

/-- The three ways a submission acts on a queue with `eps = 0` and `k > 0`. -/
theorem knn_step_cases (space : Space D Obj) (hshrink : ∀ a : D, DistArith.shrink a 0 = a)
    (q : KNNQuery D Obj) (o : Obj)
    (heps : q.eps = 0) (hlen : q.queue.length ≤ q.k) (hk : 0 < q.k) :
    (q.queue.length < q.k ∧
      ((knnOps space).CheckAndAddObj q o).queue
        = knnPush q.queue (space.distance q.query_object o) o) ∨
    (∃ ys top, q.queue = ys ++ [top] ∧ q.queue.length = q.k ∧
      space.distance q.query_object o < top.1 ∧
      ((knnOps space).CheckAndAddObj q o).queue
        = knnPush ys (space.distance q.query_object o) o) ∨
    (∃ ys top, q.queue = ys ++ [top] ∧ q.queue.length = q.k ∧
      ¬ space.distance q.query_object o < top.1 ∧
      ((knnOps space).CheckAndAddObj q o).queue = q.queue) := by
  obtain ⟨_, _, _, _, hq⟩ := knnOps_CheckAndAddObj space q o
  by_cases h1 : q.queue.length < q.k
  · left
    rw [hq, if_pos h1]
    exact ⟨h1, rfl⟩
  · right
    have hfull : q.queue.length = q.k := by omega
    have hne : q.queue ≠ [] := by
      intro e
      rw [e] at hfull
      simp at hfull
      omega
    obtain ⟨ys, hys⟩ := List.getLast?_eq_some_iff.mp (List.getLast?_eq_getLast q.queue hne)
    rw [hq, if_neg h1, List.getLast?_eq_getLast q.queue hne]
    dsimp only
    rw [heps, hshrink]
    by_cases h2 : space.distance q.query_object o < (q.queue.getLast hne).1
    · left
      refine ⟨ys, _, hys, hfull, h2, ?_⟩
      rw [if_pos h2]
      conv_lhs => rw [hys]
      rw [knnPush_append_last _ _ _ h2, List.dropLast_concat]
    · right
      refine ⟨ys, _, hys, hfull, h2, ?_⟩
      rw [if_neg h2]

theorem knn_Admits_of_short (space : Space D Obj) (q : KNNQuery D Obj) (d : D)
    (h : q.queue.length < q.k) : Admits (knnOps space) q d := by
  unfold Admits knnOps KNNQuery.Radius
  dsimp only
  rw [if_pos h]
  trivial

theorem knn_Admits_full (space : Space D Obj) (hshrink : ∀ a : D, DistArith.shrink a 0 = a)
    (q : KNNQuery D Obj) (d : D) (ys : List (D × Obj)) (top : D × Obj)
    (heps : q.eps = 0) (hfull : q.k ≤ q.queue.length) (hq : q.queue = ys ++ [top]) :
    Admits (knnOps space) q d ↔ d < top.1 := by
  unfold Admits knnOps KNNQuery.Radius
  dsimp only
  rw [if_neg (by omega), hq]
  simp [heps, hshrink]

/-- With `eps = 0`, a distance that is not inside the radius of a sorted queue is at least
every distance in the queue, and the queue is full. -/
theorem knn_not_Admits (space : Space D Obj) (hshrink : ∀ a : D, DistArith.shrink a 0 = a)
    (q : KNNQuery D Obj) (d : D)
    (heps : q.eps = 0) (hsorted : q.queue.Pairwise (fun a b => a.1 ≤ b.1))
    (h : ¬ Admits (knnOps space) q d) :
    q.k ≤ q.queue.length ∧ ∀ p ∈ q.queue, p.1 ≤ d := by
  have hfull : q.k ≤ q.queue.length := by
    by_contra hcon
    exact h (knn_Admits_of_short space q d (by omega))
  refine ⟨hfull, ?_⟩
  by_cases hne : q.queue = []
  · intro p hp
    rw [hne] at hp
    simp at hp
  · obtain ⟨ys, hys⟩ := List.getLast?_eq_some_iff.mp (List.getLast?_eq_getLast q.queue hne)
    rw [knn_Admits_full space hshrink q d ys _ heps hfull hys] at h
    intro p hp
    rw [hys] at hsorted hp
    exact le_trans (sorted_le_last ys _ hsorted p hp) (not_lt.mp h)

theorem knn_not_Admits_of_le (space : Space D Obj)
    (hshrink : ∀ a : D, DistArith.shrink a 0 = a) (q : KNNQuery D Obj) (d : D)
    (heps : q.eps = 0) (hfull : q.k ≤ q.queue.length) (hne : q.queue ≠ [])
    (h : ∀ p ∈ q.queue, p.1 ≤ d) : ¬ Admits (knnOps space) q d := by
  obtain ⟨ys, hys⟩ := List.getLast?_eq_some_iff.mp (List.getLast?_eq_getLast q.queue hne)
  rw [knn_Admits_full space hshrink q d ys _ heps hfull hys]
  exact not_lt.mpr (h _ (List.getLast_mem hne))

/-- A submission to the kNN accumulator (with `eps = 0` and `k > 0`) keeps the state
invariant, settles the submitted object and keeps the others settled. -/
theorem knn_settled_step (space : Space D Obj) (hshrink : ∀ a : D, DistArith.shrink a 0 = a)
    (x : Obj) (k : Nat) (hk : 0 < k) (q : KNNQuery D Obj) (o : Obj) (hq : KnnInv space x k q) :
    KnnInv space x k ((knnOps space).CheckAndAddObj q o) ∧
    Settled (knnOps space) KnnHas (space.distance x) ((knnOps space).CheckAndAddObj q o) o ∧
    ∀ o1, Settled (knnOps space) KnnHas (space.distance x) q o1 →
      Settled (knnOps space) KnnHas (space.distance x) ((knnOps space).CheckAndAddObj q o)
        o1 := by
  obtain ⟨hx, hqk, heps, hlen, hsorted, hdist⟩ := hq
  obtain ⟨fx, fk, feps, _, _⟩ := knnOps_CheckAndAddObj space q o
  have hk2 : 0 < q.k := by rw [hqk]; exact hk
  have hlen2 : q.queue.length ≤ q.k := by rw [hqk]; exact hlen
  rcases knn_step_cases space hshrink q o heps hlen2 hk2 with
    ⟨hshort, hq2⟩ | ⟨ys, top, hys, hfull, hlt, hq2⟩ | ⟨ys, top, hys, hfull, hnlt, hq2⟩
  · -- the queue was not full
    rw [hx] at hq2
    refine ⟨⟨by rw [fx, hx], by rw [fk, hqk], by rw [feps, heps], ?_, ?_, ?_⟩, ?_, ?_⟩
    · rw [hq2, knnPush_length]; omega
    · rw [hq2]; exact knnPush_sorted _ _ _ hsorted
    · intro p hp
      rw [hq2, knnPush_mem] at hp
      rcases hp with e | e
      · rw [e]
      · exact hdist p e
    · left
      unfold KnnHas
      rw [hq2]
      exact List.mem_map_of_mem Prod.snd ((knnPush_mem _ _ _ _).mpr (Or.inl rfl))
    · intro o1 ho1
      rcases ho1 with ho1 | ho1
      · left
        unfold KnnHas at ho1 ⊢
        rw [hq2]
        obtain ⟨p, hp, hpo⟩ := List.mem_map.mp ho1
        exact List.mem_map.mpr ⟨p, (knnPush_mem _ _ _ _).mpr (Or.inr hp), hpo⟩
      · exact absurd (knn_Admits_of_short space q _ hshort) ho1
  · -- the queue was full and the candidate takes the place of the top
    rw [hx] at hq2 hlt
    have hysperm : ∀ p, p ∈ ys → p ∈ q.queue := by
      intro p hp
      rw [hys]
      exact List.mem_append_left _ hp
    have htopmem : top ∈ q.queue := by
      rw [hys]
      exact List.mem_append_right _ (List.mem_singleton.mpr rfl)
    have hletop : ∀ p ∈ q.queue, p.1 ≤ top.1 := by
      intro p hp
      rw [hys] at hsorted hp
      exact sorted_le_last ys top hsorted p hp
    have hlen3 : ((knnOps space).CheckAndAddObj q o).queue.length = q.k := by
      rw [hq2, knnPush_length, ← hfull, hys]
      simp
    have hne3 : ((knnOps space).CheckAndAddObj q o).queue ≠ [] := by
      intro e
      rw [e] at hlen3
      simp at hlen3
      omega
    have hle3 : ∀ p ∈ ((knnOps space).CheckAndAddObj q o).queue, p.1 ≤ top.1 := by
      intro p hp
      rw [hq2, knnPush_mem] at hp
      rcases hp with e | e
      · rw [e]; exact le_of_lt hlt
      · exact hletop p (hysperm p e)
    have hyssorted : ys.Pairwise (fun a b => a.1 ≤ b.1) := by
      rw [hys, List.pairwise_append] at hsorted
      exact hsorted.1
    refine ⟨⟨by rw [fx, hx], by rw [fk, hqk], by rw [feps, heps], ?_, ?_, ?_⟩, ?_, ?_⟩
    · rw [hlen3, hqk]
    · rw [hq2]; exact knnPush_sorted _ _ _ hyssorted
    · intro p hp
      rw [hq2, knnPush_mem] at hp
      rcases hp with e | e
      · rw [e]
      · exact hdist p (hysperm p e)
    · left
      unfold KnnHas
      rw [hq2]
      exact List.mem_map_of_mem Prod.snd ((knnPush_mem _ _ _ _).mpr (Or.inl rfl))
    · intro o1 ho1
      rcases ho1 with ho1 | ho1
      · unfold KnnHas at ho1
        obtain ⟨p, hp, hpo⟩ := List.mem_map.mp ho1
        rw [hys] at hp
        rcases List.mem_append.mp hp with e | e
        · left
          unfold KnnHas
          rw [hq2]
          exact List.mem_map.mpr ⟨p, (knnPush_mem _ _ _ _).mpr (Or.inr e), hpo⟩
        · right
          have hptop : p = top := List.mem_singleton.mp e
          apply knn_not_Admits_of_le space hshrink _ _ (by rw [feps, heps])
            (by rw [fk, hlen3]) hne3
          intro p2 hp2
          have := hdist top htopmem
          rw [← hpo, hptop, ← this]
          exact hle3 p2 hp2
      · right
        obtain ⟨_, hall⟩ := knn_not_Admits space hshrink q _ heps hsorted ho1
        apply knn_not_Admits_of_le space hshrink _ _ (by rw [feps, heps])
          (by rw [fk, hlen3]) hne3
        intro p2 hp2
        exact le_trans (hle3 p2 hp2) (hall top htopmem)
  · -- the queue was full and the candidate is rejected
    rw [hx] at hnlt
    have htopmem : top ∈ q.queue := by
      rw [hys]
      exact List.mem_append_right _ (List.mem_singleton.mpr rfl)
    have hletop : ∀ p ∈ q.queue, p.1 ≤ top.1 := by
      intro p hp
      rw [hys] at hsorted hp
      exact sorted_le_last ys top hsorted p hp
    have hne : q.queue ≠ [] := by
      rw [hys]; simp
    refine ⟨⟨by rw [fx, hx], by rw [fk, hqk], by rw [feps, heps], ?_, ?_, ?_⟩, ?_, ?_⟩
    · rw [hq2]; exact hlen
    · rw [hq2]; exact hsorted
    · rw [hq2]; exact hdist
    · right
      apply knn_not_Admits_of_le space hshrink _ _ (by rw [feps, heps])
        (by rw [fk, hq2, hfull]) (by rw [hq2]; exact hne)
      intro p hp
      rw [hq2] at hp
      exact le_trans (hletop p hp) (not_lt.mp hnlt)
    · intro o1 ho1
      rcases ho1 with ho1 | ho1
      · left
        unfold KnnHas at ho1 ⊢
        rw [hq2]
        exact ho1
      · right
        obtain ⟨_, hall⟩ := knn_not_Admits space hshrink q _ heps hsorted ho1
        apply knn_not_Admits_of_le space hshrink _ _ (by rw [feps, heps])
          (by rw [fk, hq2, hfull]) (by rw [hq2]; exact hne)
        intro p hp
        rw [hq2] at hp
        exact hall p hp

/-- After a submission the objects of the queue are among the submitted object and the
objects that were in the queue, without repetition if those had none. -/
theorem knn_submit_objs (space : Space D Obj) (q : KNNQuery D Obj) (o : Obj) :
    (∀ o1 ∈ ((knnOps space).CheckAndAddObj q o).queue.map Prod.snd,
      o1 = o ∨ o1 ∈ q.queue.map Prod.snd) ∧
    ((o :: q.queue.map Prod.snd).Nodup →
      (((knnOps space).CheckAndAddObj q o).queue.map Prod.snd).Nodup) := by
  have hsub : ∃ l : List (D × Obj),
      l.Perm ((space.distance q.query_object o, o) :: q.queue) ∧
      ((knnOps space).CheckAndAddObj q o).queue.Sublist l := by
    obtain ⟨_, _, _, _, hq⟩ := knnOps_CheckAndAddObj space q o
    rw [hq]
    split
    · exact ⟨_, knnPush_perm _ _ _, List.Sublist.refl _⟩
    · split
      · exact ⟨_, List.Perm.refl _, List.sublist_cons_self _ _⟩
      · split
        · exact ⟨_, knnPush_perm _ _ _, List.dropLast_sublist _⟩
        · exact ⟨_, List.Perm.refl _, List.sublist_cons_self _ _⟩
  obtain ⟨l, hperm, hsubl⟩ := hsub
  have hperm2 : (l.map Prod.snd).Perm (o :: q.queue.map Prod.snd) := by
    have := hperm.map Prod.snd
    simpa using this
  have hsubl2 : (((knnOps space).CheckAndAddObj q o).queue.map Prod.snd).Sublist
      (l.map Prod.snd) := hsubl.map Prod.snd
  constructor
  · intro o1 ho1
    have := hperm2.mem_iff.mp (hsubl2.subset ho1)
    exact List.mem_cons.mp this
  · intro hnd
    exact (hperm2.nodup_iff.mpr hnd).sublist hsubl2

theorem knn_fold_objs (space : Space D Obj) :
    ∀ (V : List Obj) (q : KNNQuery D Obj),
      (∀ o1 ∈ (V.foldl (knnOps space).CheckAndAddObj q).queue.map Prod.snd,
        o1 ∈ q.queue.map Prod.snd ∨ o1 ∈ V) ∧
      ((q.queue.map Prod.snd ++ V).Nodup →
        ((V.foldl (knnOps space).CheckAndAddObj q).queue.map Prod.snd).Nodup) := by
  intro V
  induction V with
  | nil =>
    intro q
    refine ⟨fun o1 ho1 => Or.inl ho1, ?_⟩
    intro h
    simpa using h
  | cons a rest ih =>
    intro q
    obtain ⟨hmem, hnd⟩ := knn_submit_objs space q a
    obtain ⟨ihmem, ihnd⟩ := ih ((knnOps space).CheckAndAddObj q a)
    rw [List.foldl_cons]
    constructor
    · intro o1 ho1
      rcases ihmem o1 ho1 with h | h
      · rcases hmem o1 h with e | e
        · right; rw [e]; exact List.mem_cons_self _ _
        · exact Or.inl e
      · exact Or.inr (List.mem_cons_of_mem _ h)
    · intro h
      rw [List.nodup_append] at h
      obtain ⟨h1, h2, h3⟩ := h
      rw [List.nodup_cons] at h2
      apply ihnd
      rw [List.nodup_append]
      refine ⟨hnd ?_, h2.2, ?_⟩
      · rw [List.nodup_cons]
        refine ⟨?_, h1⟩
        intro hmem2
        exact h3 hmem2 (List.mem_cons_self _ _)
      · intro o1 ho1 ho2
        rcases hmem o1 ho1 with e | e
        · rw [e] at ho2
          exact h2.1 ho2
        · exact h3 e (List.mem_cons_of_mem _ ho2)

/-- After a submission the entries of the queue are among the submitted pair and the entries
that were in the queue. -/
theorem knn_submit_mem (space : Space D Obj) (q : KNNQuery D Obj) (o : Obj) :
    ∀ p ∈ ((knnOps space).CheckAndAddObj q o).queue,
      p = (space.distance q.query_object o, o) ∨ p ∈ q.queue := by
  obtain ⟨_, _, _, _, hq⟩ := knnOps_CheckAndAddObj space q o
  rw [hq]
  intro p hp
  split at hp
  · exact (knnPush_mem _ _ _ _).mp hp
  · split at hp
    · exact Or.inr hp
    · split at hp
      · exact (knnPush_mem _ _ _ _).mp (List.mem_of_mem_dropLast hp)
      · exact Or.inr hp

/-- With `eps = 0` and a division that leaves `top / (1 + 0)` at `top`, the radius of a kNN
accumulator is the distance of an entry of the queue. -/
theorem knn_Radius_mem (space : Space D Obj) (hshrink : ∀ a : D, DistArith.shrink a 0 = a)
    (q : KNNQuery D Obj) (r : D) (heps : q.eps = 0)
    (h : (knnOps space).Radius q = some r) : ∃ top ∈ q.queue, r = top.1 := by
  unfold knnOps KNNQuery.Radius at h
  dsimp only at h
  split at h
  · cases h
  · cases hl : q.queue.getLast? with
    | none =>
      rw [hl] at h
      cases h
    | some top =>
      rw [hl, Option.map_some', heps, hshrink] at h
      exact ⟨top, List.mem_of_mem_getLast? hl, (Option.some.inj h).symm⟩

end KNNLemmas

/-! ## kNN queries: size of the result -/

section KNNSizeClaims

variable {D Obj : Type} [LinearOrderedAddCommGroup D] [DistArith D] [DecidableEq Obj]

unseal Rat.add Rat.mul Rat.inv Rat.sub in
/-- C6 as stated fails in the approximate branch: on the dataset 0, 1, 2, 3, 4, 5 with buckets
of two objects and a budget of one leaf, a kNN query with `k = 6` ends with 4 entries, although
the dataset has 6 objects. -/
theorem C6_counterexample :
    ListClusters.create sentinel ratLineSpace insertionSortDp (fun _ => 0)
        [0, 1, 2, 3, 4, 5] oneLeafParams = .ok sixPointIndex ∧
    (ListClusters.SearchKNN sentinel ratLineSpace insertionSortPq sixPointIndex
        (KNNQuery.init 0 6 0)).map (fun q => q.queue)
      = some [(0, 0), (1, 1), (2, 2), (3, 3)] ∧
    6 ≤ ([0, 1, 2, 3, 4, 5] : List ℚ).length := by
  refine ⟨by decide, by decide, by decide⟩

/-- C6 (kNN bounded size), amended.  For an index built from pairwise-distinct objects and a
kNN query that starts with an empty queue, the result after `Search` has at most `k` entries in
the exact and in the approximate branch; in the exact branch the search returns and, when the
dataset has at least `k` objects, the result has exactly `k` entries. -/
theorem C6_knn_bounded_size [One D] (FAKE_MAX_LEAVES_TO_VISIT : Int) (space : Space D Obj)
    (srt : List (D × D × Obj) → List (D × D × Obj)) (hsrt : IsStdSort srt)
    (rnd : Nat → Nat) (data : List Obj) (hnd : data.Nodup) (MethParams : AnyParams D)
    (strat : ListClustersStrategy)
    (hs : parseStrategy (MethParams.strategy.getD "random") = .ok strat)
    (pq : List (Elem D Obj) → List (Elem D Obj)) (query_object : Obj) (k : Nat) (eps : D) :
    ∃ index, ListClusters.create FAKE_MAX_LEAVES_TO_VISIT space srt rnd data MethParams
        = .ok index ∧
      (∀ res, ListClusters.SearchKNN FAKE_MAX_LEAVES_TO_VISIT space pq index
          (KNNQuery.init query_object k eps) = some res → res.queue.length ≤ k) ∧
      (MethParams.maxLeavesToVisit.getD FAKE_MAX_LEAVES_TO_VISIT = FAKE_MAX_LEAVES_TO_VISIT →
        ∃ res, ListClusters.SearchKNN FAKE_MAX_LEAVES_TO_VISIT space pq index
            (KNNQuery.init query_object k eps) = some res ∧
          (k ≤ data.length → res.queue.length = k)) := by
  obtain ⟨cl, n, hb, hperm⟩ := buildClusters_partition space srt hsrt rnd strat
    (MethParams.useBucketSize.getD true) (MethParams.bucketSize.getD 50)
    (MethParams.radius.getD 1) data hnd
  refine ⟨_, create_eq FAKE_MAX_LEAVES_TO_VISIT space srt rnd data MethParams strat cl n hs hb,
    ?_, ?_⟩
  · intro res hres
    have h := GenSearch_preserves FAKE_MAX_LEAVES_TO_VISIT (knnOps space)
      (fun q => q.k = k ∧ q.queue.length ≤ k)
      (fun q o hq => by
        obtain ⟨hk, hl⟩ := knnOps_submit_length space q o (by rw [hq.1]; exact hq.2)
        rw [hk, hl, hq.1]
        exact ⟨rfl, Nat.min_le_left _ _⟩)
      pq _ (KNNQuery.init query_object k eps) res ⟨rfl, by simp [KNNQuery.init]⟩ hres
    exact h.2
  · intro hexact
    obtain ⟨_, hl⟩ := knn_exactSearch_length space cl (KNNQuery.init query_object k eps)
      (by simp [KNNQuery.init])
    refine ⟨exactSearch (knnOps space) cl (KNNQuery.init query_object k eps), ?_, ?_⟩
    · unfold ListClusters.SearchKNN GenSearch
      dsimp only
      rw [if_pos hexact]
    · intro hk
      rw [hl, hperm.length_eq]
      simp only [KNNQuery.init, List.length_nil, Nat.zero_add]
      exact Nat.min_eq_left hk

/-- C6 at a concrete input: the exact branch on three rationals with `k = 2`. -/
theorem C6_knn_bounded_size_witness :
    ∃ index, ListClusters.create sentinel ratLineSpace insertionSortDp (fun _ => 0)
        [0, 5, 10] (noParams ℚ) = .ok index ∧
      (∀ res, ListClusters.SearchKNN sentinel ratLineSpace insertionSortPq index
          (KNNQuery.init 4 2 0) = some res → res.queue.length ≤ 2) ∧
      ((noParams ℚ).maxLeavesToVisit.getD sentinel = sentinel →
        ∃ res, ListClusters.SearchKNN sentinel ratLineSpace insertionSortPq index
            (KNNQuery.init 4 2 0) = some res ∧
          (2 ≤ ([0, 5, 10] : List ℚ).length → res.queue.length = 2)) :=
  C6_knn_bounded_size sentinel ratLineSpace insertionSortDp insertionSortDp_isStdSort
    (fun _ => 0) [0, 5, 10] (by decide) (noParams ℚ) ListClustersStrategy.kRandom rfl
    insertionSortPq 4 2 0

end KNNSizeClaims

/-! ## kNN queries: the exact branch returns the nearest neighbours -/

section KNNExactClaims

variable {D Obj : Type} [LinearOrderedAddCommGroup D] [DistArith D] [DecidableEq Obj]

/-- C5 as stated fails for the `int` instantiation: on the integer line with the metric
`|a - b|`, for the index that the constructor returns for the dataset 0, 5, 1100000001 with
`closestPrevCenter` and buckets of one object, the exact kNN search with `k = 1` and `eps = 0`
for the query 1100000000 returns the object 5 at distance 1099999995, while the object
1100000001 is at distance 1.  At the first cluster `dist_qc + Radius()` is
`1100000000 + 1099999995`, which wraps around to -2094967301, the containment test of line 202
holds and the loop breaks before the second cluster. -/
theorem C5_counterexample :
    ((∀ a b, lineSpace.distance a b = lineSpace.distance b a) ∧
      (∀ a b, 0 ≤ lineSpace.distance a b) ∧
      (∀ a b c, lineSpace.distance a c ≤ lineSpace.distance a b + lineSpace.distance b c) ∧
      (∀ a b, lineSpace.IndexTimeDistance a b = lineSpace.distance a b)) ∧
    ListClusters.create sentinel lineSpace insertionSortDp (fun _ => 0) [0, 5, 1100000001]
      oneObjectBucketParams = .ok farIndex ∧
    farIndex.MaxLeavesToVisit_ = sentinel ∧
    ListClusters.SearchKNN sentinel lineSpace insertionSortPq farIndex
        (KNNQuery.init 1100000000 1 0)
      = some { query_object := 1100000000, k := 1, eps := 0, queue := [(1099999995, 5)],
               distance_evals := 2 } ∧
    (1100000001 : Int) ∈ ([0, 5, 1100000001] : List Int) ∧
    lineSpace.distance 1100000000 1100000001 = 1 ∧
    DistArith.add (lineSpace.distance 1100000000 0) (1099999995 : Int) = -2094967301 := by
  refine ⟨⟨?_, ?_, ?_, ?_⟩, by decide, by decide, by decide, by decide, by decide, by decide⟩
  · intro a b
    exact abs_sub_comm a b
  · intro a b
    exact abs_nonneg _
  · intro a b c
    exact abs_sub_le a b c
  · intro a b
    rfl

/-- C5 (exact kNN), amended.  For an index built from pairwise-distinct objects, in exact mode
with `eps = 0`, under a distance that is symmetric, non-negative and satisfies the triangle
inequality (with `IndexTimeDistance` equal to `distance`), a dataset with at least `k` objects,
and a query for which the differences and sums of the distances from the query to two dataset
objects are computed in `dist_t` without overflow or rounding (and `top / (1 + 0)` is `top`):
the search returns a queue of `k` entries, in ascending order of distance, holding distinct
dataset objects each with its distance from the query, and every dataset object that is not in
the queue is at least as far from the query as every entry: the distances of the result are the
`k` smallest over the dataset. -/
theorem C5_exact_knn [One D] (FAKE_MAX_LEAVES_TO_VISIT : Int) (space : Space D Obj)
    (srt : List (D × D × Obj) → List (D × D × Obj)) (hsrt : IsStdSort srt)
    (rnd : Nat → Nat) (data : List Obj) (hnd : data.Nodup) (MethParams : AnyParams D)
    (strat : ListClustersStrategy)
    (hs : parseStrategy (MethParams.strategy.getD "random") = .ok strat)
    (hexact : MethParams.maxLeavesToVisit.getD FAKE_MAX_LEAVES_TO_VISIT
      = FAKE_MAX_LEAVES_TO_VISIT)
    (hIT : ∀ a b, space.IndexTimeDistance a b = space.distance a b)
    (hsymm : ∀ a b, space.distance a b = space.distance b a)
    (hnn : ∀ a b, 0 ≤ space.distance a b)
    (htri : ∀ a b c, space.distance a c ≤ space.distance a b + space.distance b c)
    (pq : List (Elem D Obj) → List (Elem D Obj)) (query_object : Obj) (k : Nat)
    (hk : k ≤ data.length)
    (hshrink : ∀ a : D, DistArith.shrink a 0 = a)
    (harith : ∀ o1 ∈ data, ∀ o2 ∈ data,
      DistArith.sub (space.distance query_object o1) (space.distance query_object o2)
        = space.distance query_object o1 - space.distance query_object o2 ∧
      DistArith.add (space.distance query_object o1) (space.distance query_object o2)
        = space.distance query_object o1 + space.distance query_object o2) :
    ∃ index res, ListClusters.create FAKE_MAX_LEAVES_TO_VISIT space srt rnd data MethParams
        = .ok index ∧
      ListClusters.SearchKNN FAKE_MAX_LEAVES_TO_VISIT space pq index
        (KNNQuery.init query_object k 0) = some res ∧
      res.queue.length = k ∧
      (res.queue.map Prod.snd).Nodup ∧
      res.queue.Pairwise (fun a b => a.1 ≤ b.1) ∧
      (∀ p ∈ res.queue, p.2 ∈ data ∧ p.1 = space.distance query_object p.2) ∧
      (∀ o ∈ data, o ∉ res.queue.map Prod.snd →
        ∀ p ∈ res.queue, p.1 ≤ space.distance query_object o) := by
  obtain ⟨cl, n, hb, hperm⟩ := buildClusters_partition space srt hsrt rnd strat
    (MethParams.useBucketSize.getD true) (MethParams.bucketSize.getD 50)
    (MethParams.radius.getD 1) data hnd
  obtain ⟨cl2, n2, hb2, hord⟩ := buildClusters_ordered space srt hsrt rnd strat
    (MethParams.useBucketSize.getD true) (MethParams.bucketSize.getD 50)
    (MethParams.radius.getD 1) data hnd (fun a b => by rw [hIT]; exact hnn a b)
  rw [hb] at hb2
  cases hb2
  obtain ⟨_, hlen⟩ := knn_exactSearch_length space cl (KNNQuery.init query_object k 0)
    (by simp [KNNQuery.init])
  have hlen2 : (exactSearch (knnOps space) cl (KNNQuery.init query_object k 0)).queue.length
      = k := by
    rw [hlen, hperm.length_eq]
    simp only [KNNQuery.init, List.length_nil, Nat.zero_add]
    exact Nat.min_eq_left hk
  refine ⟨_, exactSearch (knnOps space) cl (KNNQuery.init query_object k 0),
    create_eq FAKE_MAX_LEAVES_TO_VISIT space srt rnd data MethParams strat cl n hs hb,
    ?_, hlen2, ?_⟩
  · unfold ListClusters.SearchKNN GenSearch
    dsimp only
    rw [if_pos hexact]
  by_cases hk0 : k = 0
  · have hnil : (exactSearch (knnOps space) cl (KNNQuery.init query_object k 0)).queue = [] :=
      List.length_eq_zero.mp (by rw [hlen2, hk0])
    rw [hnil]
    simp
  · have hkpos : 0 < k := Nat.pos_of_ne_zero hk0
    obtain ⟨hI2, hset⟩ := exactSearch_settled space (knnOps space) KnnHas query_object
      (fun q => KnnInv space query_object k q ∧ ∀ p ∈ q.queue, p.2 ∈ data)
      (fun o => o ∈ data)
      (fun q o hq => by
        show space.distance q.query_object o = _
        rw [hq.1.1])
      hIT hsymm htri
      (fun q o r ho hq hr => by
        obtain ⟨top, htop, hr2⟩ := knn_Radius_mem space hshrink q r hq.1.2.2.1 hr
        rw [hr2, hq.1.2.2.2.2.2 top htop]
        exact harith o ho top.2 (hq.2 top htop))
      (fun q o ho hq => ⟨(knn_settled_step space hshrink query_object k hkpos q o hq.1).1, by
        intro p hp
        rcases knn_submit_mem space q o p hp with e | e
        · rw [e]
          exact ho
        · exact hq.2 p e⟩)
      (fun q o o1 _ hq h1 =>
        (knn_settled_step space hshrink query_object k hkpos q o hq.1).2.2 o1 h1)
      (fun q o _ hq => (knn_settled_step space hshrink query_object k hkpos q o hq.1).2.1)
      cl (KNNQuery.init query_object k 0) (fun _ => False)
      (fun o ho => hperm.mem_iff.mp ho) hord
      ⟨⟨rfl, rfl, rfl, by simp [KNNQuery.init], by simp [KNNQuery.init],
        by intro p hp; simp [KNNQuery.init] at hp⟩,
        by intro p hp; simp [KNNQuery.init] at hp⟩
      (fun o ho => absurd ho id)
    have hI := hI2.1
    obtain ⟨V, hV, hfold⟩ := exactSearch_eq_fold (knnOps space) cl
      (KNNQuery.init query_object k 0)
    obtain ⟨hmemV, hndV⟩ := knn_fold_objs space V (KNNQuery.init query_object k 0)
    rw [← hfold] at hmemV hndV
    obtain ⟨_, _, heps, _, hsorted, hdist⟩ := hI
    refine ⟨?_, hsorted, ?_, ?_⟩
    · apply hndV
      simp only [KNNQuery.init, List.map_nil, List.nil_append]
      exact ((hperm.nodup_iff).mpr hnd).sublist hV
    · intro p hp
      refine ⟨?_, hdist p hp⟩
      rcases hmemV p.2 (List.mem_map_of_mem Prod.snd hp) with h | h
      · simp [KNNQuery.init] at h
      · exact hperm.mem_iff.mp (hV.subset h)
    · intro o ho hnot p hp
      rcases hset o (Or.inr (hperm.mem_iff.mpr ho)) with h | h
      · exact absurd h hnot
      · exact (knn_not_Admits space hshrink _ _ heps hsorted h).2 p hp

unseal Rat.add Rat.mul Rat.inv Rat.sub in
/-- C5 at the input of scenario S2: the dataset 0, 5, 10 under `|a - b|`, query 4 and `k = 2`;
the constructor returns `s1Index` and the search returns the objects 5 and 0 with the
distances 1 and 4. -/
theorem C5_exact_knn_witness :
    (ListClusters.create sentinel ratLineSpace insertionSortDp (fun _ => 0) [0, 5, 10]
        s1Params = .ok s1Index ∧
      (ListClusters.SearchKNN sentinel ratLineSpace insertionSortPq s1Index
        (KNNQuery.init 4 2 0)).map (fun q => q.queue) = some [(1, 5), (4, 0)]) ∧
    ∃ index res, ListClusters.create sentinel ratLineSpace insertionSortDp (fun _ => 0)
        [0, 5, 10] s1Params = .ok index ∧
      ListClusters.SearchKNN sentinel ratLineSpace insertionSortPq index
        (KNNQuery.init 4 2 0) = some res ∧
      res.queue.length = 2 ∧
      (res.queue.map Prod.snd).Nodup ∧
      res.queue.Pairwise (fun a b => a.1 ≤ b.1) ∧
      (∀ p ∈ res.queue, p.2 ∈ ([0, 5, 10] : List ℚ) ∧ p.1 = ratLineSpace.distance 4 p.2) ∧
      (∀ o ∈ ([0, 5, 10] : List ℚ), o ∉ res.queue.map Prod.snd →
        ∀ p ∈ res.queue, p.1 ≤ ratLineSpace.distance 4 o) :=
  ⟨⟨by decide, by decide⟩,
    C5_exact_knn sentinel ratLineSpace insertionSortDp insertionSortDp_isStdSort
      (fun _ => 0) [0, 5, 10] (by decide) s1Params ListClustersStrategy.kRandom rfl rfl
      (fun _ _ => rfl) (fun a b => abs_sub_comm a b) (fun _ _ => abs_nonneg _)
      (fun a b c => abs_sub_le a b c) insertionSortPq 4 2 (by decide)
      (fun a => by
        show a / (1 + 0) = a
        rw [add_zero, div_one])
      (fun _ _ _ _ => ⟨rfl, rfl⟩)⟩

end KNNExactClaims

/-! ## Centre selection by running sum -/

section SelectionClaims

variable {D Obj : Type} [LinearOrderedAddCommGroup D] [DistArith D] [DecidableEq Obj]

/-- After scanning the indices below `m` the index holds a smallest key among them and the
start; it is the start, or the first index whose key is that smallest key. -/
theorem argScan_spec {E : Type} [LinearOrder E] (v : Nat → E) (idx0 : Nat) :
    ∀ m : Nat,
      (∀ j < m, v (argScan v idx0 m) ≤ v j) ∧
      v (argScan v idx0 m) ≤ v idx0 ∧
      (argScan v idx0 m = idx0 ∨
        (argScan v idx0 m < m ∧ v (argScan v idx0 m) < v idx0 ∧
          ∀ j < argScan v idx0 m, v (argScan v idx0 m) < v j)) := by
  intro m
  induction m with
  | zero =>
    refine ⟨fun j hj => absurd hj (Nat.not_lt_zero j), le_refl _, Or.inl rfl⟩
  | succ m ih =>
    obtain ⟨h1, h2, h3⟩ := ih
    have hstep : argScan v idx0 (m + 1)
        = if v m < v (argScan v idx0 m) then m else argScan v idx0 m := by
      unfold argScan
      rw [List.range_succ, List.foldl_append]
      rfl
    by_cases hlt : v m < v (argScan v idx0 m)
    · rw [hstep, if_pos hlt]
      refine ⟨?_, le_of_lt (lt_of_lt_of_le hlt h2), Or.inr ⟨Nat.lt_succ_self m,
        lt_of_lt_of_le hlt h2, fun j hj => lt_of_lt_of_le hlt (h1 j hj)⟩⟩
      intro j hj
      rcases Nat.lt_succ_iff_lt_or_eq.mp hj with hj2 | hj2
      · exact le_of_lt (lt_of_lt_of_le hlt (h1 j hj2))
      · rw [hj2]
    · rw [hstep, if_neg hlt]
      refine ⟨?_, h2, ?_⟩
      · intro j hj
        rcases Nat.lt_succ_iff_lt_or_eq.mp hj with hj2 | hj2
        · exact h1 j hj2
        · rw [hj2]; exact not_lt.mp hlt
      · rcases h3 with h3 | ⟨h3, h4, h5⟩
        · exact Or.inl h3
        · exact Or.inr ⟨Nat.lt_succ_of_lt h3, h4, h5⟩

theorem foldl_agree (n : Nat) (f g : Nat → Nat → Nat)
    (hf : ∀ idx i, f idx i = i ∨ f idx i = idx)
    (hfg : ∀ idx i, idx < n → i < n → f idx i = g idx i) :
    ∀ (l : List Nat) (idx0 : Nat), idx0 < n → (∀ i ∈ l, i < n) →
      l.foldl f idx0 = l.foldl g idx0 := by
  intro l
  induction l with
  | nil => intro idx0 _ _; rfl
  | cons i rest ih =>
    intro idx0 h hl
    have hi : i < n := hl i (List.mem_cons_self _ _)
    rw [List.foldl_cons, List.foldl_cons, ← hfg idx0 i h hi]
    apply ih
    · rcases hf idx0 i with e | e
      · rw [e]; exact hi
      · rw [e]; exact h
    · intro j hj
      exact hl j (List.mem_cons_of_mem _ hj)

theorem sumAt_eq (remaining : List (D × Obj)) (i : Nat) (p : D × Obj)
    (h : remaining[i]? = some p) : sumAt remaining i = p.1 := by
  unfold sumAt
  rw [h]

/-- The loop of the `kMinSumDistPrevCenters` case is the index scan on the running sums. -/
theorem minSumScan_eq_argScan (remaining : List (D × Obj)) (idx0 : Nat)
    (h : idx0 < remaining.length) :
    minSumScan remaining idx0 = argScan (sumAt remaining) idx0 remaining.length := by
  unfold minSumScan argScan
  apply foldl_agree remaining.length
  · intro idx i
    dsimp only
    split
    · split
      · exact Or.inl rfl
      · exact Or.inr rfl
    · exact Or.inr rfl
  · intro idx i hidx hi
    simp only [sumAt, List.getElem?_eq_getElem hidx, List.getElem?_eq_getElem hi]
  · exact h
  · intro i hi
    exact List.mem_range.mp hi

/-- The loop of the `kMaxSumDistPrevCenters` case is the index scan on the running sums in the
reversed order. -/
theorem maxSumScan_eq_argScan (remaining : List (D × Obj)) (idx0 : Nat)
    (h : idx0 < remaining.length) :
    maxSumScan remaining idx0
      = argScan (fun i => OrderDual.toDual (sumAt remaining i)) idx0 remaining.length := by
  unfold maxSumScan argScan
  apply foldl_agree remaining.length
  · intro idx i
    dsimp only
    split
    · split
      · exact Or.inl rfl
      · exact Or.inr rfl
    · exact Or.inr rfl
  · intro idx i hidx hi
    simp only [sumAt, List.getElem?_eq_getElem hidx, List.getElem?_eq_getElem hi,
      OrderDual.toDual_lt_toDual, gt_iff_lt]
  · exact h
  · intro i hi
    exact List.mem_range.mp hi

theorem argScan_select {E : Type} [LinearOrder E] (v : Nat → E) (idx0 n : Nat)
    (h : idx0 < n) :
    argScan v idx0 n < n ∧ (∀ j < n, v (argScan v idx0 n) ≤ v j) ∧
    (v idx0 = v (argScan v idx0 n) → argScan v idx0 n = idx0) ∧
    (v idx0 ≠ v (argScan v idx0 n) → ∀ j < argScan v idx0 n, v (argScan v idx0 n) < v j) := by
  obtain ⟨h1, h2, h3⟩ := argScan_spec v idx0 n
  refine ⟨?_, h1, ?_, ?_⟩
  · rcases h3 with e | ⟨e, _, _⟩
    · rw [e]; exact h
    · exact e
  · intro heq
    rcases h3 with e | ⟨_, e, _⟩
    · exact e
    · rw [heq] at e
      exact absurd e (lt_irrefl _)
  · intro hne
    rcases h3 with e | ⟨_, _, e⟩
    · rw [e] at hne
      exact absurd rfl hne
    · exact e

theorem SelectNextCenter_min_eq (remaining : List (D × Obj)) (r : Nat)
    (hne : remaining ≠ []) :
    SelectNextCenter remaining .kMinSumDistPrevCenters r
      = (remaining[argScan (sumAt remaining) (r % remaining.length)
          remaining.length]?).map Prod.snd := by
  have hempty : remaining.isEmpty = false := by
    cases remaining with
    | nil => exact absurd rfl hne
    | cons a l => rfl
  unfold SelectNextCenter
  rw [hempty, minSumScan_eq_argScan remaining _
    (Nat.mod_lt _ (List.length_pos.mpr hne))]
  rfl

theorem SelectNextCenter_max_eq (remaining : List (D × Obj)) (r : Nat)
    (hne : remaining ≠ []) :
    SelectNextCenter remaining .kMaxSumDistPrevCenters r
      = (remaining[argScan (fun i => OrderDual.toDual (sumAt remaining i))
          (r % remaining.length) remaining.length]?).map Prod.snd := by
  have hempty : remaining.isEmpty = false := by
    cases remaining with
    | nil => exact absurd rfl hne
    | cons a l => rfl
  unfold SelectNextCenter
  rw [hempty, maxSumScan_eq_argScan remaining _
    (Nat.mod_lt _ (List.length_pos.mpr hne))]
  rfl

theorem sumAt_of_mem (remaining : List (D × Obj)) (p : D × Obj) (hp : p ∈ remaining) :
    ∃ j, j < remaining.length ∧ sumAt remaining j = p.1 := by
  obtain ⟨j, hj, hjp⟩ := List.getElem_of_mem hp
  refine ⟨j, hj, ?_⟩
  rw [sumAt_eq remaining j p]
  rw [List.getElem?_eq_getElem hj, hjp]

/-- C11 (sum-distance centre selection).  On a non-empty pool, with `r` the value of
`RandomInt()`, `SelectNextCenter` with `kMinSumDistPrevCenters` returns the object at an index
whose running sum is at most that of every pool entry; this index is `r % size` when the entry
there attains the minimum, and otherwise it is the first index that attains the minimum.
`kMaxSumDistPrevCenters` does the same for the maximum. -/
theorem C11_sum_dist_selection (remaining : List (D × Obj)) (hne : remaining ≠ [])
    (r : Nat) :
    (∃ idx p, remaining[idx]? = some p ∧
      SelectNextCenter remaining .kMinSumDistPrevCenters r = some p.2 ∧
      (∀ p1 ∈ remaining, p.1 ≤ p1.1) ∧
      (∀ p0, remaining[r % remaining.length]? = some p0 →
        (p0.1 = p.1 → idx = r % remaining.length) ∧
        (p0.1 ≠ p.1 → ∀ j < idx, ∀ pj, remaining[j]? = some pj → p.1 < pj.1))) ∧
    (∃ idx p, remaining[idx]? = some p ∧
      SelectNextCenter remaining .kMaxSumDistPrevCenters r = some p.2 ∧
      (∀ p1 ∈ remaining, p1.1 ≤ p.1) ∧
      (∀ p0, remaining[r % remaining.length]? = some p0 →
        (p0.1 = p.1 → idx = r % remaining.length) ∧
        (p0.1 ≠ p.1 → ∀ j < idx, ∀ pj, remaining[j]? = some pj → pj.1 < p.1))) := by
  have hmod : r % remaining.length < remaining.length :=
    Nat.mod_lt _ (List.length_pos.mpr hne)
  constructor
  · obtain ⟨h1, h2, h3, h4⟩ := argScan_select (sumAt remaining) (r % remaining.length)
      remaining.length hmod
    have hget := List.getElem?_eq_getElem h1
    have hkey := sumAt_eq remaining _ _ hget
    refine ⟨_, _, hget, ?_, ?_, ?_⟩
    · rw [SelectNextCenter_min_eq remaining r hne, hget]
      rfl
    · intro p1 hp1
      obtain ⟨j, hj, hjp⟩ := sumAt_of_mem remaining p1 hp1
      rw [← hjp, ← hkey]
      exact h2 j hj
    · intro p0 hp0
      have hkey0 := sumAt_eq remaining _ _ hp0
      constructor
      · intro heq
        apply h3
        rw [hkey0, hkey]
        exact heq
      · intro hneq j hj pj hpj
        have := h4 (by rw [hkey0, hkey]; exact hneq) j hj
        rw [hkey, sumAt_eq remaining j pj hpj] at this
        exact this
  · obtain ⟨h1, h2, h3, h4⟩ := argScan_select
      (fun i => OrderDual.toDual (sumAt remaining i)) (r % remaining.length)
      remaining.length hmod
    have hget := List.getElem?_eq_getElem h1
    have hkey := sumAt_eq remaining _ _ hget
    refine ⟨_, _, hget, ?_, ?_, ?_⟩
    · rw [SelectNextCenter_max_eq remaining r hne, hget]
      rfl
    · intro p1 hp1
      obtain ⟨j, hj, hjp⟩ := sumAt_of_mem remaining p1 hp1
      have := h2 j hj
      rw [OrderDual.toDual_le_toDual, hkey, hjp] at this
      exact this
    · intro p0 hp0
      have hkey0 := sumAt_eq remaining _ _ hp0
      constructor
      · intro heq
        apply h3
        show OrderDual.toDual (sumAt remaining (r % remaining.length)) = OrderDual.toDual _
        rw [hkey0, hkey, heq]
      · intro hneq j hj pj hpj
        have hne2 : OrderDual.toDual (sumAt remaining (r % remaining.length))
            ≠ OrderDual.toDual (sumAt remaining
              (argScan (fun i => OrderDual.toDual (sumAt remaining i))
                (r % remaining.length) remaining.length)) := by
          intro e
          apply hneq
          have e2 := OrderDual.toDual.injective e
          rw [hkey0, hkey] at e2
          exact e2
        have := h4 hne2 j hj
        rw [OrderDual.toDual_lt_toDual, hkey, sumAt_eq remaining j pj hpj] at this
        exact this

/-- C11 at a concrete input: a pool with ties and `RandomInt() = 13`, so that the scan starts
at index 3. -/
theorem C11_sum_dist_selection_witness :
    (SelectNextCenter tiePool .kMinSumDistPrevCenters 13 = some 103 ∧
      SelectNextCenter tiePool .kMaxSumDistPrevCenters 13 = some 100) ∧
    ((∃ idx p, tiePool[idx]? = some p ∧
      SelectNextCenter tiePool .kMinSumDistPrevCenters 13 = some p.2 ∧
      (∀ p1 ∈ tiePool, p.1 ≤ p1.1) ∧
      (∀ p0, tiePool[13 % tiePool.length]? = some p0 →
        (p0.1 = p.1 → idx = 13 % tiePool.length) ∧
        (p0.1 ≠ p.1 → ∀ j < idx, ∀ pj, tiePool[j]? = some pj → p.1 < pj.1))) ∧
    (∃ idx p, tiePool[idx]? = some p ∧
      SelectNextCenter tiePool .kMaxSumDistPrevCenters 13 = some p.2 ∧
      (∀ p1 ∈ tiePool, p1.1 ≤ p.1) ∧
      (∀ p0, tiePool[13 % tiePool.length]? = some p0 →
        (p0.1 = p.1 → idx = 13 % tiePool.length) ∧
        (p0.1 ≠ p.1 → ∀ j < idx, ∀ pj, tiePool[j]? = some pj → pj.1 < p.1)))) :=
  ⟨⟨by decide, by decide⟩, C11_sum_dist_selection tiePool (by decide) 13⟩

end SelectionClaims

/-! ## The exact branch: the containment break -/

section ContainmentClaims

variable {D Obj Q : Type} [LinearOrderedAddCommGroup D] [DistArith D] [DecidableEq Obj]

/-- C12 (containment early termination).  When the loop of the exact branch is at the cluster
`c` with the accumulator `query`, the intersection test holds and, after the bucket of `c` has
been scanned, the containment test holds, then the search returns the accumulator as it is
after that scan, whatever clusters follow: it is the result of the search on `c` alone, so no
later centre or bucket is compared with the query or submitted. -/
theorem C12_containment_stop (ops : QueryType D Obj Q) (c : Cluster D Obj)
    (rest : List (Cluster D Obj)) (query : Q)
    (hint : ballIntersects (ops.DistanceObjLeft query c.center_).1
      (ops.Radius (ops.CheckAndAddObj query c.center_)) c.covering_radius_ = true)
    (hcont : ballContained (ops.DistanceObjLeft query c.center_).1
      (ops.Radius (c.Search ops (ops.CheckAndAddObj query c.center_)))
      c.covering_radius_ = true) :
    exactSearch ops (c :: rest) query = c.Search ops (ops.CheckAndAddObj query c.center_) ∧
    exactSearch ops (c :: rest) query = exactSearch ops [c] query := by
  have h : ∀ l, exactSearch ops (c :: l) query
      = c.Search ops (ops.CheckAndAddObj query c.center_) := by
    intro l
    rw [exactSearch_cons, if_pos hint, if_pos hcont]
  exact ⟨h rest, by rw [h rest, h []]⟩

unseal Rat.add Rat.mul Rat.inv Rat.sub in
/-- C12 at the input of scenario S3: the dataset 0, 1, 2, 3, 4 with buckets of four objects and
`farthestPrevCenter`, query 1 and radius 1/2.  The constructor returns one cluster, the search
returns the object 1 after 5 distance evaluations, and a cluster placed after it is not
visited. -/
theorem C12_containment_stop_witness :
    (ListClusters.create sentinel ratLineSpace insertionSortDp (fun _ => 0)
        [0, 1, 2, 3, 4] s3Params = .ok s3Index ∧
      ListClusters.SearchRange sentinel ratLineSpace insertionSortPq s3Index
          (RangeQuery.init 1 (1 / 2))
        = some { query_object := 1, radius := 1 / 2, result := [(0, 1)],
                 distance_evals := 5 }) ∧
    (ballIntersects ((rangeOps ratLineSpace).DistanceObjLeft
        (RangeQuery.init 1 (1 / 2)) s3Cluster.center_).1
      ((rangeOps ratLineSpace).Radius ((rangeOps ratLineSpace).CheckAndAddObj
        (RangeQuery.init 1 (1 / 2)) s3Cluster.center_)) s3Cluster.covering_radius_ = true ∧
    ballContained ((rangeOps ratLineSpace).DistanceObjLeft
        (RangeQuery.init 1 (1 / 2)) s3Cluster.center_).1
      ((rangeOps ratLineSpace).Radius (s3Cluster.Search (rangeOps ratLineSpace)
        ((rangeOps ratLineSpace).CheckAndAddObj (RangeQuery.init 1 (1 / 2))
          s3Cluster.center_))) s3Cluster.covering_radius_ = true) ∧
    (exactSearch (rangeOps ratLineSpace) (s3Cluster :: [⟨9, 0, []⟩])
        (RangeQuery.init 1 (1 / 2))
      = s3Cluster.Search (rangeOps ratLineSpace)
          ((rangeOps ratLineSpace).CheckAndAddObj (RangeQuery.init 1 (1 / 2))
            s3Cluster.center_) ∧
    exactSearch (rangeOps ratLineSpace) (s3Cluster :: [⟨9, 0, []⟩])
        (RangeQuery.init 1 (1 / 2))
      = exactSearch (rangeOps ratLineSpace) [s3Cluster] (RangeQuery.init 1 (1 / 2))) :=
  ⟨⟨by decide, by decide⟩, ⟨by decide, by decide⟩,
    C12_containment_stop (rangeOps ratLineSpace) s3Cluster [⟨9, 0, []⟩]
      (RangeQuery.init 1 (1 / 2)) (by decide) (by decide)⟩

end ContainmentClaims

/-! ## The approximate branch -/

section ApproximateLemmas

variable {D Obj Q : Type} [LinearOrderedAddCommGroup D] [DistArith D] [DecidableEq Obj]

/-- The first loop of the approximate branch submits the centres of the clusters, one after
the other, and nothing else. -/
theorem collectCandidates_state (ops : QueryType D Obj Q) :
    ∀ (cl : List (Cluster D Obj)) (q : Q) (pushed : List (Elem D Obj)),
      (collectCandidates ops cl q pushed).1
        = (cl.map (fun c => c.center_)).foldl ops.CheckAndAddObj q := by
  intro cl
  induction cl with
  | nil => intro q pushed; rfl
  | cons c rest ih =>
    intro q pushed
    rw [collectCandidates_cons]
    split
    · rw [ih]; rfl
    · rw [ih]; rfl

/-- Every element that the first loop pushes holds a cluster of the index with the distance
from the query to its centre. -/
theorem collectCandidates_elems (ops : QueryType D Obj Q) :
    ∀ (cl : List (Cluster D Obj)) (q : Q) (pushed : List (Elem D Obj)),
      ∀ e ∈ (collectCandidates ops cl q pushed).2,
        e ∈ pushed ∨ (e.cluster ∈ cl ∧
          ∃ q1, e.dist_qc = (ops.DistanceObjLeft q1 e.cluster.center_).1) := by
  intro cl
  induction cl with
  | nil => intro q pushed e he; exact Or.inl he
  | cons c rest ih =>
    intro q pushed e he
    rw [collectCandidates_cons] at he
    split at he
    · rcases ih _ _ e he with h | h
      · rcases List.mem_append.mp h with h2 | h2
        · exact Or.inl h2
        · right
          rw [List.mem_singleton.mp h2]
          exact ⟨List.mem_cons_self _ _, q, rfl⟩
      · exact Or.inr ⟨List.mem_cons_of_mem _ h.1, h.2⟩
    · rcases ih _ _ e he with h | h
      · exact Or.inl h
      · exact Or.inr ⟨List.mem_cons_of_mem _ h.1, h.2⟩

theorem leavesVisited_cons (ops : QueryType D Obj Q) (MaxLeavesToVisit_ : Int)
    (top : Elem D Obj) (rest : List (Elem D Obj)) (PrevDist : D) (lproc : Int) (q : Q) :
    leavesVisited ops MaxLeavesToVisit_ (top :: rest) PrevDist lproc q =
      if lproc < MaxLeavesToVisit_ then
        if top.dist_qc ≥ PrevDist then
          if ballContained top.dist_qc (ops.Radius (top.cluster.Search ops q))
              top.cluster.covering_radius_ then
            [top]
          else
            top :: leavesVisited ops MaxLeavesToVisit_ rest top.dist_qc (lproc + 1)
              (top.cluster.Search ops q)
        else []
      else [] := rfl

theorem visitLeaves_cons (ops : QueryType D Obj Q) (MaxLeavesToVisit_ : Int)
    (top : Elem D Obj) (rest : List (Elem D Obj)) (PrevDist : D) (lproc : Int) (q : Q) :
    visitLeaves ops MaxLeavesToVisit_ (top :: rest) PrevDist lproc q =
      if lproc < MaxLeavesToVisit_ then
        if top.dist_qc ≥ PrevDist then
          if ballContained top.dist_qc (ops.Radius (top.cluster.Search ops q))
              top.cluster.covering_radius_ then
            some (top.cluster.Search ops q)
          else
            visitLeaves ops MaxLeavesToVisit_ rest top.dist_qc (lproc + 1)
              (top.cluster.Search ops q)
        else none
      else some q := rfl

/-- The elements whose bucket is scanned are taken from the front of the queue order. -/
theorem leavesVisited_sublist (ops : QueryType D Obj Q) (MaxLeavesToVisit_ : Int) :
    ∀ (l : List (Elem D Obj)) (PrevDist : D) (lproc : Int) (q : Q),
      (leavesVisited ops MaxLeavesToVisit_ l PrevDist lproc q).Sublist l := by
  intro l
  induction l with
  | nil => intro _ _ _; exact List.Sublist.refl _
  | cons top rest ih =>
    intro PrevDist lproc q
    rw [leavesVisited_cons]
    split
    · split
      · split
        · exact List.Sublist.cons₂ _ (List.nil_sublist _)
        · exact List.Sublist.cons₂ _ (ih _ _ _)
      · exact List.nil_sublist _
    · exact List.nil_sublist _

/-- The number of scanned buckets is bounded by the budget that is left. -/
theorem leavesVisited_length (ops : QueryType D Obj Q) (MaxLeavesToVisit_ : Int) :
    ∀ (l : List (Elem D Obj)) (PrevDist : D) (lproc : Int) (q : Q),
      ((leavesVisited ops MaxLeavesToVisit_ l PrevDist lproc q).length : Int)
        ≤ max (MaxLeavesToVisit_ - lproc) 0 := by
  intro l
  induction l with
  | nil => intro _ _ _; simp [leavesVisited]
  | cons top rest ih =>
    intro PrevDist lproc q
    rw [leavesVisited_cons]
    split
    · rename_i hlt
      split
      · split
        · simp only [List.length_singleton, Nat.cast_one]
          have : (1 : Int) ≤ MaxLeavesToVisit_ - lproc := by omega
          exact le_trans this (le_max_left _ _)
        · have h := ih top.dist_qc (lproc + 1) (top.cluster.Search ops q)
          simp only [List.length_cons, Nat.cast_add, Nat.cast_one]
          have h2 : max (MaxLeavesToVisit_ - (lproc + 1)) 0 + 1
              ≤ max (MaxLeavesToVisit_ - lproc) 0 := by
            rw [max_eq_left (by omega), max_eq_left (by omega)]
            omega
          omega
      · simp
    · simp

/-- When the second loop returns, its result is the accumulator after the bucket scans of the
trace. -/
theorem visitLeaves_eq_fold (ops : QueryType D Obj Q) (MaxLeavesToVisit_ : Int) :
    ∀ (l : List (Elem D Obj)) (PrevDist : D) (lproc : Int) (q res : Q),
      visitLeaves ops MaxLeavesToVisit_ l PrevDist lproc q = some res →
      res = (leavesVisited ops MaxLeavesToVisit_ l PrevDist lproc q).foldl
        (fun q1 e => e.cluster.Search ops q1) q := by
  intro l
  induction l with
  | nil =>
    intro PrevDist lproc q res h
    simp only [visitLeaves, Option.some.injEq] at h
    rw [← h]
    rfl
  | cons top rest ih =>
    intro PrevDist lproc q res h
    rw [visitLeaves_cons] at h
    rw [leavesVisited_cons]
    split at h
    · rename_i h1
      rw [if_pos h1]
      split at h
      · rename_i h2
        rw [if_pos h2]
        split at h
        · rename_i h3
          rw [if_pos h3]
          simp only [Option.some.injEq] at h
          rw [← h]
          rfl
        · rename_i h3
          rw [if_neg h3]
          exact ih _ _ _ _ h
      · cases h
    · rename_i h1
      rw [if_neg h1]
      simp only [Option.some.injEq] at h
      rw [← h]
      rfl

/-- The second loop returns when the queue order is non-decreasing and starts at or above
`PrevDist`: the `CHECK` holds at every element. -/
theorem visitLeaves_isSome (ops : QueryType D Obj Q) (MaxLeavesToVisit_ : Int) :
    ∀ (l : List (Elem D Obj)) (PrevDist : D) (lproc : Int) (q : Q),
      l.Pairwise (fun a b => a.dist_qc ≤ b.dist_qc) → (∀ e ∈ l, PrevDist ≤ e.dist_qc) →
      ∃ res, visitLeaves ops MaxLeavesToVisit_ l PrevDist lproc q = some res := by
  intro l
  induction l with
  | nil => intro _ _ q _ _; exact ⟨q, rfl⟩
  | cons top rest ih =>
    intro PrevDist lproc q hs hp
    rw [List.pairwise_cons] at hs
    rw [visitLeaves_cons]
    split
    · rw [if_pos (hp top (List.mem_cons_self _ _))]
      split
      · exact ⟨_, rfl⟩
      · exact ih _ _ _ hs.2 hs.1
    · exact ⟨_, rfl⟩

/-- With a queue that meets its contract and distances from the query that are not negative,
`GenSearch` returns in both branches. -/
theorem GenSearch_isSome_of_nonneg (FAKE_MAX_LEAVES_TO_VISIT : Int)
    (ops : QueryType D Obj Q) (pq : List (Elem D Obj) → List (Elem D Obj))
    (hpq : IsPqOrder pq) (hnn : ∀ q o, 0 ≤ (ops.DistanceObjLeft q o).1)
    (index : ListClusters D Obj) (query : Q) :
    ∃ res, GenSearch FAKE_MAX_LEAVES_TO_VISIT ops pq index query = some res := by
  unfold GenSearch
  split
  · exact ⟨_, rfl⟩
  · apply visitLeaves_isSome
    · exact (hpq _).2
    · intro e he
      have he2 := (hpq _).1.mem_iff.mp he
      rcases collectCandidates_elems ops _ _ _ e he2 with h | ⟨_, q1, h⟩
      · simp at h
      · rw [h]
        exact hnn _ _

/-- A property of the accumulator that the submission of every indexed object preserves holds
after `GenSearch`, in both branches, when the queue hands out what was pushed on it. -/
theorem GenSearch_preserves_mem (FAKE_MAX_LEAVES_TO_VISIT : Int) (ops : QueryType D Obj Q)
    (P : Q → Prop) (A : Obj → Prop)
    (h : ∀ q o, A o → P q → P (ops.CheckAndAddObj q o))
    (pq : List (Elem D Obj) → List (Elem D Obj)) (hpq : IsPqOrder pq)
    (index : ListClusters D Obj) (q res : Q)
    (hA : ∀ o ∈ allMembers index.cluster_list_, A o) (hq : P q)
    (hres : GenSearch FAKE_MAX_LEAVES_TO_VISIT ops pq index q = some res) : P res := by
  have hmem : ∀ c ∈ index.cluster_list_, ∀ o ∈ c.members, A o := by
    intro c hc o ho
    apply hA
    have : ∀ (cl : List (Cluster D Obj)), c ∈ cl → o ∈ allMembers cl := by
      intro cl
      induction cl with
      | nil => intro h; simp at h
      | cons a rest ih =>
        intro hc2
        rcases List.mem_cons.mp hc2 with e | e
        · rw [← e]
          exact List.mem_append_left _ ho
        · exact List.mem_append_right _ (ih e)
    exact this _ hc
  unfold GenSearch at hres
  split at hres
  · simp only [Option.some.injEq] at hres
    exact hres ▸ exactSearch_preserves_mem ops P A h _ _ hA hq
  · have h1 : P (collectCandidates ops index.cluster_list_ q []).1 := by
      rw [collectCandidates_state]
      apply fold_submit_preserves_mem ops P A h _ _ _ hq
      intro o ho
      rw [List.mem_map] at ho
      obtain ⟨c, hc, rfl⟩ := ho
      exact hmem c hc _ (List.mem_cons_self _ _)
    rw [visitLeaves_eq_fold ops _ _ _ _ _ _ hres]
    have hsub := leavesVisited_sublist ops index.MaxLeavesToVisit_
      (pq (collectCandidates ops index.cluster_list_ q []).2) 0 0
      (collectCandidates ops index.cluster_list_ q []).1
    have hall : ∀ e ∈ leavesVisited ops index.MaxLeavesToVisit_
        (pq (collectCandidates ops index.cluster_list_ q []).2) 0 0
        (collectCandidates ops index.cluster_list_ q []).1,
        ∀ o ∈ e.cluster.bucket_, A o := by
      intro e he o ho
      have he2 := (hpq _).1.mem_iff.mp (hsub.subset he)
      rcases collectCandidates_elems ops _ _ _ e he2 with h2 | ⟨h2, _⟩
      · simp at h2
      · exact hmem _ h2 o (List.mem_cons_of_mem _ ho)
    revert h1 hall
    generalize (collectCandidates ops index.cluster_list_ q []).1 = q0
    generalize leavesVisited ops index.MaxLeavesToVisit_
        (pq (collectCandidates ops index.cluster_list_ q []).2) 0 0 q0 = tr
    intro h1 hall
    induction tr generalizing q0 with
    | nil => exact h1
    | cons e rest ih =>
      rw [List.foldl_cons]
      apply ih
      · exact fold_submit_preserves_mem ops P A h e.cluster.bucket_ _
          (hall e (List.mem_cons_self _ _)) h1
      · intro e2 he2
        exact hall e2 (List.mem_cons_of_mem _ he2)

end ApproximateLemmas

/-! ## Claims on the approximate branch -/

section ApproximateClaims

variable {D Obj Q : Type} [LinearOrderedAddCommGroup D] [DistArith D] [DecidableEq Obj]

/-- Insertion sort on `dist_qc` meets the contract of the priority queue. -/
theorem insertionSortPq_isPqOrder : IsPqOrder (insertionSortPq : List (Elem D Obj) → _) := by
  intro l
  haveI : IsTotal (Elem D Obj) (fun x y => x.dist_qc ≤ y.dist_qc) :=
    ⟨fun a b => le_total a.dist_qc b.dist_qc⟩
  haveI : IsTrans (Elem D Obj) (fun x y => x.dist_qc ≤ y.dist_qc) :=
    ⟨fun a b c hab hbc => le_trans hab hbc⟩
  exact ⟨List.perm_insertionSort _ l,
    List.sorted_insertionSort (fun x y : Elem D Obj => x.dist_qc ≤ y.dist_qc) l⟩

/-- C13 fails on the code: under the distance `a - b - 10` the constructor returns an index
with a budget of one leaf for the dataset 5, 3; the range query with query object 0 and radius
0 takes the only cluster from the queue with `dist_qc = -15`, below the initial `PrevDist = 0`,
and the `CHECK` fails, while the exact branch returns for the same index and query. -/
theorem C13_check_fails :
    ListClusters.create sentinel negativeSpace insertionSortDp (fun _ => 0) [5, 3]
        oneLeafDefaultParams = .ok negativeIndex ∧
    ListClusters.SearchRange sentinel negativeSpace insertionSortPq negativeIndex
        (RangeQuery.init 0 0) = none ∧
    ListClusters.SearchRange sentinel negativeSpace insertionSortPq
        (negativeIndex.SetQueryTimeParams (some sentinel)) (RangeQuery.init 0 0)
      = some { query_object := 0, radius := 0, result := [(-15, 5), (-13, 3)],
               distance_evals := 2 } := by
  refine ⟨by decide, by decide, by decide⟩

theorem Elem_lt_false (a b : Elem D Obj) : Elem.lt a b = false ↔ a.dist_qc ≤ b.dist_qc := by
  unfold Elem.lt
  rw [decide_eq_false_iff_not, gt_iff_lt, not_lt]

theorem queueTop_scan (rest : List (Elem D Obj)) :
    ∀ a : Elem D Obj,
      rest.foldl (fun best e => if Elem.lt best e then e else best) a ∈ a :: rest ∧
      ∀ e ∈ a :: rest,
        (rest.foldl (fun best e => if Elem.lt best e then e else best) a).dist_qc
          ≤ e.dist_qc := by
  induction rest with
  | nil =>
    intro a
    refine ⟨List.mem_singleton.mpr rfl, ?_⟩
    intro e he
    rw [List.mem_singleton.mp he]
    exact le_refl _
  | cons x rest ih =>
    intro a
    rw [List.foldl_cons]
    obtain ⟨hmem, hle⟩ := ih (if Elem.lt a x then x else a)
    have hstep : (if Elem.lt a x then x else a).dist_qc ≤ a.dist_qc ∧
        (if Elem.lt a x then x else a).dist_qc ≤ x.dist_qc := by
      by_cases h : Elem.lt a x = true
      · rw [if_pos h]
        unfold Elem.lt at h
        rw [decide_eq_true_eq] at h
        exact ⟨le_of_lt h, le_refl _⟩
      · rw [if_neg h]
        rw [Bool.not_eq_true] at h
        exact ⟨le_refl _, (Elem_lt_false a x).mp h⟩
    constructor
    · rcases List.mem_cons.mp hmem with e | e
      · rw [e]
        by_cases h : Elem.lt a x = true
        · rw [if_pos h]
          exact List.mem_cons_of_mem _ (List.mem_cons_self _ _)
        · rw [if_neg h]
          exact List.mem_cons_self _ _
      · exact List.mem_cons_of_mem _ (List.mem_cons_of_mem _ e)
    · intro e he
      have h0 := hle _ (List.mem_cons_self _ _)
      rcases List.mem_cons.mp he with e1 | e1
      · rw [e1]
        exact le_trans h0 hstep.1
      · rcases List.mem_cons.mp e1 with e2 | e2
        · rw [e2]
          exact le_trans h0 hstep.2
        · exact hle e (List.mem_cons_of_mem _ e2)

/-- The scan for `top()` yields an element of the queue that is not less, under
`Elem::operator<`, than any element of the queue. -/
theorem queueTop_spec (held : List (Elem D Obj)) (top : Elem D Obj)
    (h : queueTop held = some top) :
    top ∈ held ∧ ∀ e ∈ held, Elem.lt top e = false := by
  cases held with
  | nil => cases h
  | cons a rest =>
    rw [queueTop, Option.some.injEq] at h
    rw [← h]
    obtain ⟨h1, h2⟩ := queueTop_scan rest a
    exact ⟨h1, fun e he => (Elem_lt_false _ _).mpr (h2 e he)⟩

theorem queueDrain_spec :
    ∀ (fuel : Nat) (held : List (Elem D Obj)), held.length ≤ fuel →
      (queueDrain fuel held).Perm held ∧
      (queueDrain fuel held).Pairwise (fun a b => Elem.lt a b = false) := by
  intro fuel
  induction fuel with
  | zero =>
    intro held h
    have hnil : held = [] := List.length_eq_zero.mp (Nat.le_zero.mp h)
    subst hnil
    exact ⟨List.Perm.refl _, List.Pairwise.nil⟩
  | succ fuel ih =>
    intro held h
    rw [queueDrain]
    cases ht : queueTop held with
    | none =>
      cases held with
      | nil => exact ⟨List.Perm.refl _, List.Pairwise.nil⟩
      | cons a rest => cases ht
    | some top =>
      obtain ⟨hmem, hmax⟩ := queueTop_spec held top ht
      have hlen : (held.erase top).length ≤ fuel := by
        rw [List.length_erase_of_mem hmem]
        omega
      obtain ⟨hperm, hsorted⟩ := ih (held.erase top) hlen
      refine ⟨(hperm.cons top).trans (List.perm_cons_erase hmem).symm, ?_⟩
      rw [List.pairwise_cons]
      refine ⟨?_, hsorted⟩
      intro b hb
      exact hmax b (List.mem_of_mem_erase (hperm.mem_iff.mp hb))

/-- The queue of the embedding meets the contract of `std::priority_queue<Elem>`. -/
theorem priorityQueue_isPriorityQueue :
    IsPriorityQueue (priorityQueue : List (Elem D Obj) → List (Elem D Obj)) :=
  fun l => queueDrain_spec l.length l (le_refl _)

/-- With `Elem::operator<` as the order of the queue, the elements come out in non-decreasing
order of `dist_qc`. -/
theorem isPqOrder_of_isPriorityQueue (pq : List (Elem D Obj) → List (Elem D Obj))
    (hpq : IsPriorityQueue pq) : IsPqOrder pq :=
  fun l => ⟨(hpq l).1, (hpq l).2.imp (fun h => (Elem_lt_false _ _).mp h)⟩

/-- The elements whose bucket is scanned are an initial part of the queue order. -/
theorem leavesVisited_initial (ops : QueryType D Obj Q) (MaxLeavesToVisit_ : Int) :
    ∀ (l : List (Elem D Obj)) (PrevDist : D) (lproc : Int) (q : Q),
      ∃ more, l = leavesVisited ops MaxLeavesToVisit_ l PrevDist lproc q ++ more := by
  intro l
  induction l with
  | nil => intro _ _ _; exact ⟨[], rfl⟩
  | cons top rest ih =>
    intro PrevDist lproc q
    rw [leavesVisited_cons]
    split
    · split
      · split
        · exact ⟨rest, rfl⟩
        · obtain ⟨more, hmore⟩ := ih top.dist_qc (lproc + 1) (top.cluster.Search ops q)
          exact ⟨more, by rw [List.cons_append, ← hmore]⟩
      · exact ⟨top :: rest, rfl⟩
    · exact ⟨top :: rest, rfl⟩

/-- C14 (approximate monotonicity).  The queue of the approximate branch is ordered by
`Elem::operator<`, which compares `dist_qc` with `>`, so that `top()` is an element of smallest
`dist_qc`.  For every index, accumulator and query, and every queue within the contract of
`std::priority_queue`: the elements come out of the queue in non-decreasing order of `dist_qc`;
the clusters that the second loop takes from the queue and scans are an initial part of this
sequence, so their `dist_qc` values are non-decreasing in the order in which they are processed;
and when no distance from the query is negative the `CHECK` of line 245 never fails, so that
the search returns. -/
theorem C14_approx_monotone (FAKE_MAX_LEAVES_TO_VISIT : Int) (ops : QueryType D Obj Q)
    (pq : List (Elem D Obj) → List (Elem D Obj)) (hpq : IsPriorityQueue pq)
    (index : ListClusters D Obj) (query : Q) :
    (pq (collectCandidates ops index.cluster_list_ query []).2).Pairwise
      (fun a b => a.dist_qc ≤ b.dist_qc) ∧
    (∃ more, pq (collectCandidates ops index.cluster_list_ query []).2
      = approxLeaves ops pq index query ++ more) ∧
    (approxLeaves ops pq index query).Pairwise (fun a b => a.dist_qc ≤ b.dist_qc) ∧
    ((∀ q o, 0 ≤ (ops.DistanceObjLeft q o).1) →
      ∃ res, GenSearch FAKE_MAX_LEAVES_TO_VISIT ops pq index query = some res) := by
  have hord := isPqOrder_of_isPriorityQueue pq hpq
  refine ⟨(hord _).2, leavesVisited_initial ops _ _ _ _ _,
    List.Pairwise.sublist (leavesVisited_sublist ops _ _ _ _ _) (hord _).2, ?_⟩
  intro hnn
  exact GenSearch_isSome_of_nonneg FAKE_MAX_LEAVES_TO_VISIT ops pq hord hnn index query

/-- C14 at a concrete input: the queue of the embedding, a budget of three leaves on the integer
line, query 2 and radius 3; the clusters with the centres 0 and 3 are pushed at the distances
2 and 1, they come out of the queue in the order 3, 0 and both are scanned. -/
theorem C14_approx_monotone_witness :
    (((collectCandidates (rangeOps lineSpace) threeLeafIndex.cluster_list_
        (RangeQuery.init 2 3) []).2.map (fun e => (e.cluster.center_, e.dist_qc))
      = [(0, 2), (3, 1)] ∧
    (priorityQueue (collectCandidates (rangeOps lineSpace) threeLeafIndex.cluster_list_
        (RangeQuery.init 2 3) []).2).map (fun e => (e.cluster.center_, e.dist_qc))
      = [(3, 1), (0, 2)]) ∧
    (approxLeaves (rangeOps lineSpace) priorityQueue threeLeafIndex
        (RangeQuery.init 2 3)).map (fun e => (e.cluster.center_, e.dist_qc))
      = [(3, 1), (0, 2)]) ∧
    ((priorityQueue (collectCandidates (rangeOps lineSpace) threeLeafIndex.cluster_list_
        (RangeQuery.init 2 3) []).2).Pairwise (fun a b => a.dist_qc ≤ b.dist_qc) ∧
    (∃ more, priorityQueue (collectCandidates (rangeOps lineSpace)
        threeLeafIndex.cluster_list_ (RangeQuery.init 2 3) []).2
      = approxLeaves (rangeOps lineSpace) priorityQueue threeLeafIndex (RangeQuery.init 2 3)
          ++ more) ∧
    (approxLeaves (rangeOps lineSpace) priorityQueue threeLeafIndex
        (RangeQuery.init 2 3)).Pairwise (fun a b => a.dist_qc ≤ b.dist_qc) ∧
    ((∀ q o, 0 ≤ ((rangeOps lineSpace).DistanceObjLeft q o).1) →
      ∃ res, GenSearch sentinel (rangeOps lineSpace) priorityQueue threeLeafIndex
        (RangeQuery.init 2 3) = some res)) :=
  ⟨by decide,
    C14_approx_monotone sentinel (rangeOps lineSpace) priorityQueue
      priorityQueue_isPriorityQueue threeLeafIndex (RangeQuery.init 2 3)⟩

/-- C15 (leaf budget).  In the approximate branch with `maxLeavesToVisit = m`, for every index,
accumulator and query, the buckets of at most `max(m, 0)` clusters are scanned; the first loop
submits the centre of every cluster of `cluster_list_`, once and in order; and when the search
returns, its result is the accumulator after these centre submissions followed by the bucket
scans of the trace. -/
theorem C15_leaf_budget (FAKE_MAX_LEAVES_TO_VISIT : Int) (ops : QueryType D Obj Q)
    (pq : List (Elem D Obj) → List (Elem D Obj)) (index : ListClusters D Obj) (query : Q)
    (hm : index.MaxLeavesToVisit_ ≠ FAKE_MAX_LEAVES_TO_VISIT) :
    ((approxLeaves ops pq index query).length : Int) ≤ max index.MaxLeavesToVisit_ 0 ∧
    (collectCandidates ops index.cluster_list_ query []).1
      = (index.cluster_list_.map (fun c => c.center_)).foldl ops.CheckAndAddObj query ∧
    ∀ res, GenSearch FAKE_MAX_LEAVES_TO_VISIT ops pq index query = some res →
      res = (approxLeaves ops pq index query).foldl (fun q1 e => e.cluster.Search ops q1)
        ((index.cluster_list_.map (fun c => c.center_)).foldl ops.CheckAndAddObj query) := by
  refine ⟨?_, collectCandidates_state ops _ _ _, ?_⟩
  · have h := leavesVisited_length ops index.MaxLeavesToVisit_
      (pq (collectCandidates ops index.cluster_list_ query []).2) 0 0
      (collectCandidates ops index.cluster_list_ query []).1
    rw [sub_zero] at h
    exact h
  · intro res hres
    unfold GenSearch at hres
    rw [if_neg hm] at hres
    have h := visitLeaves_eq_fold ops _ _ _ _ _ _ hres
    rw [h]
    unfold approxLeaves
    rw [collectCandidates_state]

/-- C15 at a concrete input: a budget of one leaf on the integer line, query 2 and radius 3;
one bucket is scanned and the search ends after 5 distance evaluations, 3 of them for the
centres. -/
theorem C15_leaf_budget_witness :
    (oneLeafIndex.MaxLeavesToVisit_ ≠ sentinel ∧
      (approxLeaves (rangeOps lineSpace) insertionSortPq oneLeafIndex
        (RangeQuery.init 2 3)).map (fun e => e.cluster.center_) = [3] ∧
      GenSearch sentinel (rangeOps lineSpace) insertionSortPq oneLeafIndex
          (RangeQuery.init 2 3)
        = some { query_object := 2, radius := 3,
                 result := [(2, 0), (1, 3), (2, 4), (3, 5)], distance_evals := 5 }) ∧
    (((approxLeaves (rangeOps lineSpace) insertionSortPq oneLeafIndex
        (RangeQuery.init 2 3)).length : Int) ≤ max oneLeafIndex.MaxLeavesToVisit_ 0 ∧
    (collectCandidates (rangeOps lineSpace) oneLeafIndex.cluster_list_
        (RangeQuery.init 2 3) []).1
      = (oneLeafIndex.cluster_list_.map (fun c => c.center_)).foldl
          (rangeOps lineSpace).CheckAndAddObj (RangeQuery.init 2 3) ∧
    ∀ res, GenSearch sentinel (rangeOps lineSpace) insertionSortPq oneLeafIndex
        (RangeQuery.init 2 3) = some res →
      res = (approxLeaves (rangeOps lineSpace) insertionSortPq oneLeafIndex
          (RangeQuery.init 2 3)).foldl (fun q1 e => e.cluster.Search (rangeOps lineSpace) q1)
        ((oneLeafIndex.cluster_list_.map (fun c => c.center_)).foldl
          (rangeOps lineSpace).CheckAndAddObj (RangeQuery.init 2 3))) :=
  ⟨⟨by decide, by decide, by decide⟩,
    C15_leaf_budget sentinel (rangeOps lineSpace) insertionSortPq oneLeafIndex
      (RangeQuery.init 2 3) (by decide)⟩

end ApproximateClaims

section ApproximateKNNClaims

variable {D Obj : Type} [LinearOrderedAddCommGroup D] [DistArith D] [DecidableEq Obj]

unseal Rat.add Rat.mul Rat.inv Rat.sub in
/-- C16 as stated fails: on the dataset 0, 8, 10, 18, 16, 20 with buckets of two objects and
`closestPrevCenter`, the kNN query with query object 11 and `k = 2` returns the objects 16 and
18 with a budget of one leaf, and the objects 10 and 8 in exact mode. -/
theorem C16_counterexample :
    ListClusters.create sentinel ratLineSpace insertionSortDp (fun _ => 0)
        [0, 8, 10, 18, 16, 20] twoObjectBucketParams = .ok twoClusterIndex ∧
    (ListClusters.SearchKNN sentinel ratLineSpace insertionSortPq
        (twoClusterIndex.SetQueryTimeParams (some 1)) (KNNQuery.init 11 2 0)).map
        (fun q => q.queue) = some [(5, 16), (7, 18)] ∧
    (ListClusters.SearchKNN sentinel ratLineSpace insertionSortPq twoClusterIndex
        (KNNQuery.init 11 2 0)).map (fun q => q.queue) = some [(1, 10), (3, 8)] ∧
    (16 : ℚ) ∉ ([(1, 10), (3, 8)] : List (ℚ × ℚ)).map Prod.snd := by
  refine ⟨by decide, by decide, by decide, by decide⟩

/-- C16 (approximate truncation), amended.  With a priority queue that meets its contract, for
every index and every kNN query that starts with an empty queue, the result of the search with
`maxLeavesToVisit = 1` has at most `k` entries, and every entry holds an object of the index (a
centre or a bucket member) with its distance from the query. -/
theorem C16_approx_truncation (FAKE_MAX_LEAVES_TO_VISIT : Int) (space : Space D Obj)
    (pq : List (Elem D Obj) → List (Elem D Obj)) (hpq : IsPqOrder pq)
    (index : ListClusters D Obj) (query_object : Obj) (k : Nat) (eps : D)
    (res : KNNQuery D Obj)
    (hres : ListClusters.SearchKNN FAKE_MAX_LEAVES_TO_VISIT space pq
      (index.SetQueryTimeParams (some 1)) (KNNQuery.init query_object k eps) = some res) :
    res.queue.length ≤ k ∧
    ∀ p ∈ res.queue, p.2 ∈ allMembers index.cluster_list_ ∧
      p.1 = space.distance query_object p.2 := by
  have h := GenSearch_preserves_mem FAKE_MAX_LEAVES_TO_VISIT (knnOps space)
    (fun q => q.query_object = query_object ∧ q.k = k ∧ q.queue.length ≤ k ∧
      ∀ p ∈ q.queue, p.2 ∈ allMembers index.cluster_list_ ∧
        p.1 = space.distance query_object p.2)
    (fun o => o ∈ allMembers index.cluster_list_)
    (fun q o ho hq => by
      obtain ⟨h1, h2, h3, h4⟩ := hq
      obtain ⟨fx, _, _, _, _⟩ := knnOps_CheckAndAddObj space q o
      obtain ⟨hk, hl⟩ := knnOps_submit_length space q o (by rw [h2]; exact h3)
      refine ⟨by rw [fx, h1], by rw [hk, h2], ?_, ?_⟩
      · rw [hl, h2]
        exact Nat.min_le_left _ _
      · intro p hp
        rcases knn_submit_mem space q o p hp with e | e
        · rw [e, h1]
          exact ⟨ho, rfl⟩
        · exact h4 p e)
    pq hpq (index.SetQueryTimeParams (some 1)) (KNNQuery.init query_object k eps) res
    (fun o ho => ho)
    ⟨rfl, rfl, by simp [KNNQuery.init], by intro p hp; simp [KNNQuery.init] at hp⟩ hres
  exact ⟨h.2.2.1, h.2.2.2⟩

unseal Rat.add Rat.mul Rat.inv Rat.sub in
/-- C16 at a concrete input: the index and the query of the counterexample with a budget of
one leaf. -/
theorem C16_approx_truncation_witness :
    ListClusters.SearchKNN sentinel ratLineSpace insertionSortPq
        (twoClusterIndex.SetQueryTimeParams (some 1)) (KNNQuery.init 11 2 0)
      = some { query_object := 11, k := 2, eps := 0, queue := [(5, 16), (7, 18)],
               distance_evals := 4 } ∧
    (([(5, 16), (7, 18)] : List (ℚ × ℚ)).length ≤ 2 ∧
    ∀ p ∈ ([(5, 16), (7, 18)] : List (ℚ × ℚ)),
      p.2 ∈ allMembers twoClusterIndex.cluster_list_ ∧
        p.1 = ratLineSpace.distance 11 p.2) :=
  ⟨by decide,
    C16_approx_truncation sentinel ratLineSpace insertionSortPq insertionSortPq_isPqOrder
      twoClusterIndex 11 2 0
      { query_object := 11, k := 2, eps := 0, queue := [(5, 16), (7, 18)],
        distance_evals := 4 } (by decide)⟩

end ApproximateKNNClaims

/-! ## MultiIndex: the duplicate filter -/

section KeepFirstLemmas

variable {D Obj K : Type} [DecidableEq Obj] [DecidableEq K]

theorem keepFirst_mem (key : Obj → K) :
    ∀ (l : List (D × Obj)) (seen : List K) (p : D × Obj),
      p ∈ keepFirst key seen l → p ∈ l ∧ key p.2 ∉ seen := by
  intro l
  induction l with
  | nil => intro seen p hp; simp [keepFirst] at hp
  | cons a rest ih =>
    intro seen p hp
    rw [keepFirst] at hp
    split at hp
    · obtain ⟨h1, h2⟩ := ih seen p hp
      exact ⟨List.mem_cons_of_mem _ h1, h2⟩
    · rename_i hnot
      rcases List.mem_cons.mp hp with e | e
      · rw [e]
        exact ⟨List.mem_cons_self _ _, hnot⟩
      · obtain ⟨h1, h2⟩ := ih _ p e
        exact ⟨List.mem_cons_of_mem _ h1, fun h => h2 (List.mem_cons_of_mem _ h)⟩

/-- Every key that is reported and not yet seen is kept. -/
theorem keepFirst_keys (key : Obj → K) :
    ∀ (l : List (D × Obj)) (seen : List K) (p : D × Obj),
      p ∈ l → key p.2 ∉ seen → key p.2 ∈ (keepFirst key seen l).map (fun p1 => key p1.2) := by
  intro l
  induction l with
  | nil => intro seen p hp; simp at hp
  | cons a rest ih =>
    intro seen p hp hnot
    rw [keepFirst]
    split
    · rename_i hin
      rcases List.mem_cons.mp hp with e | e
      · rw [e] at hnot
        exact absurd hin hnot
      · exact ih seen p e hnot
    · by_cases hk : key p.2 = key a.2
      · rw [hk]
        simp
      · rcases List.mem_cons.mp hp with e | e
        · rw [e] at hk
          exact absurd rfl hk
        · have := ih (key a.2 :: seen) p e (by
            intro h
            rcases List.mem_cons.mp h with h2 | h2
            · exact hk h2
            · exact hnot h2)
          exact List.mem_cons_of_mem _ this

theorem keepFirst_nodup (key : Obj → K) :
    ∀ (l : List (D × Obj)) (seen : List K),
      ((keepFirst key seen l).map (fun p => key p.2)).Nodup := by
  intro l
  induction l with
  | nil => intro seen; simp [keepFirst]
  | cons a rest ih =>
    intro seen
    rw [keepFirst]
    split
    · exact ih seen
    · rw [List.map_cons, List.nodup_cons]
      refine ⟨?_, ih _⟩
      intro h
      rw [List.mem_map] at h
      obtain ⟨p, hp, hpk⟩ := h
      exact (keepFirst_mem key rest _ p hp).2 (by rw [hpk]; exact List.mem_cons_self _ _)

theorem keepFirst_append (key : Obj → K) :
    ∀ (l1 l2 : List (D × Obj)) (seen : List K),
      keepFirst key seen (l1 ++ l2)
        = keepFirst key seen l1 ++
          keepFirst key (((keepFirst key seen l1).map (fun p => key p.2)).reverse ++ seen)
            l2 := by
  intro l1
  induction l1 with
  | nil => intro l2 seen; simp [keepFirst]
  | cons a rest ih =>
    intro l2 seen
    rw [List.cons_append, keepFirst, keepFirst]
    split
    · exact ih l2 seen
    · rw [ih l2 (key a.2 :: seen)]
      simp

/-- A kept report is the first report of its key. -/
theorem keepFirst_find (key : Obj → K) :
    ∀ (l : List (D × Obj)) (seen : List K) (p : D × Obj),
      p ∈ keepFirst key seen l →
      l.find? (fun p1 => decide (key p1.2 = key p.2)) = some p := by
  intro l
  induction l with
  | nil => intro seen p hp; simp [keepFirst] at hp
  | cons a rest ih =>
    intro seen p hp
    rw [keepFirst] at hp
    split at hp
    · rename_i hin
      have hne : key a.2 ≠ key p.2 := by
        intro e
        exact (keepFirst_mem key rest seen p hp).2 (e ▸ hin)
      rw [List.find?_cons]
      simp only [hne, decide_False]
      exact ih seen p hp
    · rcases List.mem_cons.mp hp with e | e
      · rw [e, List.find?_cons]
        simp
      · have hne : key a.2 ≠ key p.2 := by
          intro e2
          exact (keepFirst_mem key rest _ p e).2 (by rw [← e2]; exact List.mem_cons_self _ _)
        rw [List.find?_cons]
        simp only [hne, decide_False]
        exact ih _ p e

theorem keepFirst_eq_nil (key : Obj → K) :
    ∀ (l : List (D × Obj)) (seen : List K), (∀ p ∈ l, key p.2 ∈ seen) →
      keepFirst key seen l = [] := by
  intro l
  induction l with
  | nil => intro _ _; rfl
  | cons a rest ih =>
    intro seen h
    rw [keepFirst, if_pos (h a (List.mem_cons_self _ _))]
    exact ih seen (fun p hp => h p (List.mem_cons_of_mem _ hp))

theorem keepFirst_self (key : Obj → K) :
    ∀ (l : List (D × Obj)) (seen : List K), (l.map (fun p => key p.2)).Nodup →
      (∀ p ∈ l, key p.2 ∉ seen) → keepFirst key seen l = l := by
  intro l
  induction l with
  | nil => intro _ _ _; rfl
  | cons a rest ih =>
    intro seen hnd h
    rw [List.map_cons, List.nodup_cons] at hnd
    rw [keepFirst, if_neg (h a (List.mem_cons_self _ _)), ih _ hnd.2]
    intro p hp hin
    rcases List.mem_cons.mp hin with e | e
    · exact hnd.1 (by rw [← e]; exact List.mem_map_of_mem (fun p => key p.2) hp)
    · exact h p (List.mem_cons_of_mem _ hp) e

end KeepFirstLemmas

/-! ## MultiIndex: range queries -/

section MultiIndexRangeLemmas

variable {D Obj : Type} [LinearOrderedAddCommGroup D] [DistArith D] [DecidableEq Obj]

/-- The inner loop appends to the result the kept reports that are within the radius, and
inserts the objects of the kept reports in `found`. -/
theorem mergeRange_eq (space : Space D Obj) :
    ∀ (l : List (D × Obj)) (query : RangeQuery D Obj) (found : List Obj),
      mergeRange space l query found =
        ({ query with
            result := query.result ++
              (keepFirst (fun o => o) found l).filter (fun p => decide (p.1 ≤ query.radius)) },
          ((keepFirst (fun o => o) found l).map (fun p => p.2)).reverse ++ found) := by
  intro l
  induction l with
  | nil => intro query found; simp [mergeRange, keepFirst]
  | cons a rest ih =>
    intro query found
    rw [mergeRange, keepFirst]
    by_cases hin : a.2 ∈ found
    · rw [if_pos hin, if_pos hin]
      exact ih query found
    · rw [if_neg hin, if_neg hin, ih]
      by_cases hle : a.1 ≤ query.radius
      · simp [rangeOps, hle, List.filter_cons]
      · simp [rangeOps, hle, List.filter_cons]

/-- The outer loop, when every child returns: the parent keeps its query object and radius,
gains the kept reports that are within the radius, and its counter grows by the counters of
the temporary queries. -/
theorem searchRangeLoop_eq (space : Space D Obj) :
    ∀ (indices : List (Index D Obj)) (tmps : List (RangeQuery D Obj))
      (query : RangeQuery D Obj) (found : List Obj),
      indices.map (fun c => c.SearchRange (RangeQuery.init query.query_object query.radius))
        = tmps.map some →
      searchRangeLoop space indices query found =
        some { query with
          result := query.result ++
            (keepFirst (fun o => o) found (rangeReports tmps)).filter
              (fun p => decide (p.1 ≤ query.radius))
          distance_evals := query.distance_evals + (tmps.map (fun t => t.distance_evals)).sum }
      := by
  intro indices
  induction indices with
  | nil =>
    intro tmps query found h
    cases tmps with
    | nil => simp [searchRangeLoop, rangeReports, keepFirst]
    | cons t ts => simp at h
  | cons child rest ih =>
    intro tmps query found h
    cases tmps with
    | nil => simp at h
    | cons t ts =>
      simp only [List.map_cons, List.cons.injEq] at h
      obtain ⟨h1, h2⟩ := h
      rw [searchRangeLoop, h1]
      dsimp only
      rw [mergeRange_eq]
      dsimp only
      refine (ih ts _ _ ?_).trans ?_
      · exact h2
      · simp only [RangeQuery.AddDistanceComputations, rangeReports, keepFirst_append,
          List.filter_append, List.map_cons, List.sum_cons, List.append_assoc, Nat.add_assoc]

theorem rangeReports_mem (tmps : List (RangeQuery D Obj)) (p : D × Obj) :
    p ∈ rangeReports tmps ↔ ∃ t ∈ tmps, p ∈ t.result := by
  induction tmps with
  | nil => simp [rangeReports]
  | cons t rest ih =>
    rw [rangeReports, List.mem_append, ih]
    simp

theorem keepFirst_sublist {K : Type} [DecidableEq K] (key : Obj → K) :
    ∀ (l : List (D × Obj)) (seen : List K), (keepFirst key seen l).Sublist l := by
  intro l
  induction l with
  | nil => intro seen; simp [keepFirst]
  | cons a rest ih =>
    intro seen
    rw [keepFirst]
    split
    · exact (ih seen).trans (List.sublist_cons_self _ _)
    · exact (ih _).cons₂ a

/-- With one distance per key in the reports, the duplicate filter keeps exactly the pairs that
were reported. -/
theorem keepFirst_mem_iff {K : Type} [DecidableEq K] (key : Obj → K) (l : List (D × Obj))
    (hfun : ∀ p1 ∈ l, ∀ p2 ∈ l, key p1.2 = key p2.2 → p1 = p2) (p : D × Obj) :
    p ∈ keepFirst key [] l ↔ p ∈ l := by
  constructor
  · intro hp
    exact (keepFirst_mem key l [] p hp).1
  · intro hp
    have h := keepFirst_keys key l [] p hp (by simp)
    rw [List.mem_map] at h
    obtain ⟨p1, hp1, hkey⟩ := h
    have hp1l := (keepFirst_mem key l [] p1 hp1).1
    rw [← hfun p1 hp1l p hp hkey]
    exact hp1

end MultiIndexRangeLemmas

/-! ## MultiIndex: kNN queries -/

section MultiIndexKNNLemmas

variable {D Obj : Type} [LinearOrderedAddCommGroup D] [DistArith D] [DecidableEq Obj]

theorem knn_CheckAndAddToResult_fields (q : KNNQuery D Obj) (d : D) (o : Obj) :
    (q.CheckAndAddToResult d o).query_object = q.query_object ∧
    (q.CheckAndAddToResult d o).k = q.k ∧
    (q.CheckAndAddToResult d o).eps = q.eps ∧
    (q.CheckAndAddToResult d o).distance_evals = q.distance_evals := by
  unfold KNNQuery.CheckAndAddToResult
  split
  · exact ⟨rfl, rfl, rfl, rfl⟩
  · split
    · exact ⟨rfl, rfl, rfl, rfl⟩
    · split
      · exact ⟨rfl, rfl, rfl, rfl⟩
      · exact ⟨rfl, rfl, rfl, rfl⟩

/-- The external bump of the counter and a submission commute. -/
theorem knn_CheckAndAddToResult_comm (q : KNNQuery D Obj) (n : Nat) (d : D) (o : Obj) :
    (q.AddDistanceComputations n).CheckAndAddToResult d o
      = (q.CheckAndAddToResult d o).AddDistanceComputations n := by
  unfold KNNQuery.CheckAndAddToResult KNNQuery.Radius KNNQuery.AddDistanceComputations
  dsimp only
  by_cases h1 : q.queue.length < q.k
  · simp only [h1, if_true]
  · simp only [h1, if_false]
    cases h2 : q.queue.getLast? with
    | none => simp
    | some top =>
      simp only [Option.map_some']
      by_cases h3 : d < DistArith.shrink top.1 q.eps
      · simp only [h3, if_true]
      · simp only [h3, if_false]

theorem submitReports_fields (l : List (D × Obj)) :
    ∀ q : KNNQuery D Obj,
      (submitReports l q).query_object = q.query_object ∧
      (submitReports l q).k = q.k ∧
      (submitReports l q).eps = q.eps ∧
      (submitReports l q).distance_evals = q.distance_evals := by
  induction l with
  | nil => intro q; exact ⟨rfl, rfl, rfl, rfl⟩
  | cons a rest ih =>
    intro q
    obtain ⟨h1, h2, h3, h4⟩ := ih (q.CheckAndAddToResult a.1 a.2)
    obtain ⟨g1, g2, g3, g4⟩ := knn_CheckAndAddToResult_fields q a.1 a.2
    unfold submitReports at h1 h2 h3 h4 ⊢
    rw [List.foldl_cons, h1, h2, h3, h4, g1, g2, g3, g4]
    exact ⟨rfl, rfl, rfl, rfl⟩

theorem submitReports_comm (l : List (D × Obj)) (n : Nat) :
    ∀ q : KNNQuery D Obj,
      submitReports l (q.AddDistanceComputations n)
        = (submitReports l q).AddDistanceComputations n := by
  induction l with
  | nil => intro q; rfl
  | cons a rest ih =>
    intro q
    unfold submitReports at ih ⊢
    rw [List.foldl_cons, List.foldl_cons, knn_CheckAndAddToResult_comm, ih]

theorem submitReports_append (l1 l2 : List (D × Obj)) (q : KNNQuery D Obj) :
    submitReports (l1 ++ l2) q = submitReports l2 (submitReports l1 q) := by
  unfold submitReports
  rw [List.foldl_append]

/-- The drain loop submits the kept entries, in order, and inserts their ids in `found`. -/
theorem drainKNN_eq (objId : Obj → Int) :
    ∀ (l : List (D × Obj)) (query : KNNQuery D Obj) (found : List Int),
      drainKNN objId l query found =
        (submitReports (keepFirst objId found l) query,
          ((keepFirst objId found l).map (fun p => objId p.2)).reverse ++ found) := by
  intro l
  induction l with
  | nil => intro query found; simp [drainKNN, keepFirst, submitReports]
  | cons a rest ih =>
    intro query found
    rw [drainKNN, keepFirst]
    by_cases hin : objId a.2 ∈ found
    · rw [if_pos hin, if_pos hin]
      exact ih query found
    · rw [if_neg hin, if_neg hin, ih]
      simp [submitReports]

/-- The outer loop, when every child returns: the parent receives the kept entries of the
drained queues, in order, and its counter grows by the counters of the temporary queries. -/
theorem searchKNNLoop_eq (objId : Obj → Int) :
    ∀ (indices : List (Index D Obj)) (tmps : List (KNNQuery D Obj))
      (query : KNNQuery D Obj) (found : List Int),
      indices.map (fun c => c.SearchKNN (KNNQuery.init query.query_object query.k query.eps))
        = tmps.map some →
      searchKNNLoop objId indices query found =
        some ((submitReports (keepFirst objId found (knnReports tmps)) query
          ).AddDistanceComputations (tmps.map (fun t => t.distance_evals)).sum) := by
  intro indices
  induction indices with
  | nil =>
    intro tmps query found h
    cases tmps with
    | nil =>
      simp [searchKNNLoop, knnReports, keepFirst, submitReports,
        KNNQuery.AddDistanceComputations]
    | cons t ts => simp at h
  | cons child rest ih =>
    intro tmps query found h
    cases tmps with
    | nil => simp at h
    | cons t ts =>
      simp only [List.map_cons, List.cons.injEq] at h
      obtain ⟨h1, h2⟩ := h
      rw [searchKNNLoop, h1]
      dsimp only
      rw [drainKNN_eq]
      dsimp only
      obtain ⟨g1, g2, g3, _⟩ := submitReports_fields
        (keepFirst objId found (popOrder t.queue))
        (query.AddDistanceComputations t.distance_evals)
      refine (ih ts _ _ ?_).trans ?_
      · rw [g1, g2, g3]
        exact h2
      · rw [submitReports_comm, submitReports_comm, knnReports, keepFirst_append,
          submitReports_append]
        simp only [KNNQuery.AddDistanceComputations, List.map_cons, List.sum_cons,
          Nat.add_assoc]

end MultiIndexKNNLemmas

/-! ## Claims on MultiIndex -/

section MultiIndexClaims

variable {D Obj : Type} [LinearOrderedAddCommGroup D] [DistArith D] [DecidableEq Obj]

theorem subperm_nodup {α : Type} (l1 l2 : List α) (h : List.Subperm l1 l2)
    (hnd : l2.Nodup) : l1.Nodup := by
  obtain ⟨l, hp, hs⟩ := h
  exact hp.nodup_iff.mp (hnd.sublist hs)

theorem subperm_map {α β : Type} (f : α → β) (l1 l2 : List α) (h : List.Subperm l1 l2) :
    List.Subperm (l1.map f) (l2.map f) := by
  obtain ⟨l, hp, hs⟩ := h
  exact ⟨l.map f, hp.map f, hs.map f⟩

theorem knn_CheckAndAddToResult_short (q : KNNQuery D Obj) (d : D) (o : Obj)
    (h : q.queue.length < q.k) :
    (q.CheckAndAddToResult d o).queue = knnPush q.queue d o := by
  unfold KNNQuery.CheckAndAddToResult
  rw [if_pos h]

/-- After `CheckAndAddToResult` the queue holds, up to order, some of the submitted pair and
the entries it held. -/
theorem knn_CheckAndAddToResult_subperm (q : KNNQuery D Obj) (d : D) (o : Obj) :
    List.Subperm (q.CheckAndAddToResult d o).queue ((d, o) :: q.queue) := by
  unfold KNNQuery.CheckAndAddToResult
  split
  · exact (knnPush_perm d o q.queue).subperm
  · split
    · exact List.Subperm.cons_self
    · split
      · exact (List.dropLast_sublist _).subperm.trans (knnPush_perm d o q.queue).subperm
      · exact List.Subperm.cons_self

theorem submitReports_subperm (l : List (D × Obj)) :
    ∀ q : KNNQuery D Obj, List.Subperm (submitReports l q).queue (l ++ q.queue) := by
  induction l with
  | nil => intro q; exact (List.Perm.refl _).subperm
  | cons a rest ih =>
    intro q
    have h1 := ih (q.CheckAndAddToResult a.1 a.2)
    have h2 : List.Subperm (rest ++ (q.CheckAndAddToResult a.1 a.2).queue)
        (rest ++ (a :: q.queue)) :=
      (List.subperm_append_left rest).mpr (knn_CheckAndAddToResult_subperm q a.1 a.2)
    have h3 : (rest ++ (a :: q.queue)).Perm ((a :: rest) ++ q.queue) := by
      simp
    exact (h1.trans h2).trans h3.subperm

/-- While the queue has room for all of them, the submitted reports all enter the queue. -/
theorem submitReports_perm (l : List (D × Obj)) :
    ∀ q : KNNQuery D Obj, q.queue.length + l.length ≤ q.k →
      (submitReports l q).queue.Perm (l ++ q.queue) := by
  induction l with
  | nil => intro q _; exact List.Perm.refl _
  | cons a rest ih =>
    intro q h
    simp only [List.length_cons] at h
    have hq := knn_CheckAndAddToResult_short q a.1 a.2 (by omega)
    obtain ⟨_, hk, _, _⟩ := knn_CheckAndAddToResult_fields q a.1 a.2
    have h1 := ih (q.CheckAndAddToResult a.1 a.2) (by
      rw [hk, hq, knnPush_length]
      omega)
    have h2 : (rest ++ (q.CheckAndAddToResult a.1 a.2).queue).Perm
        (rest ++ (a :: q.queue)) := by
      rw [hq]
      exact List.Perm.append_left rest (knnPush_perm a.1 a.2 q.queue)
    have h3 : (rest ++ (a :: q.queue)).Perm ((a :: rest) ++ q.queue) := by
      simp
    exact (h1.trans h2).trans h3

theorem sum_const {α : Type} (f : α → Nat) (e : Nat) :
    ∀ l : List α, (∀ t ∈ l, f t = e) → (l.map f).sum = l.length * e := by
  intro l
  induction l with
  | nil => intro _; simp
  | cons a rest ih =>
    intro h
    rw [List.map_cons, List.sum_cons, h a (List.mem_cons_self _ _),
      ih (fun t ht => h t (List.mem_cons_of_mem _ ht)), List.length_cons]
    ring

/-- C17 (MultiIndex dedup).  For children that return, over a dataset whose object ids are
unique, and a parent accumulator that is empty before the call, no object id appears twice in
the result of `MultiIndex::Search`, for range queries (where the children report dataset
objects) and for kNN queries, whatever the children return. -/
theorem C17_multi_index_dedup (space : Space D Obj) (objId : Obj → Int)
    (indices : List (Index D Obj)) (data : List Obj)
    (hid : ∀ a ∈ data, ∀ b ∈ data, objId a = objId b → a = b)
    (rquery : RangeQuery D Obj) (rtmps : List (RangeQuery D Obj))
    (hr : indices.map (fun c => c.SearchRange
      (RangeQuery.init rquery.query_object rquery.radius)) = rtmps.map some)
    (hrempty : rquery.result = [])
    (hdata : ∀ t ∈ rtmps, ∀ p ∈ t.result, p.2 ∈ data)
    (kquery : KNNQuery D Obj) (ktmps : List (KNNQuery D Obj))
    (hk : indices.map (fun c => c.SearchKNN
      (KNNQuery.init kquery.query_object kquery.k kquery.eps)) = ktmps.map some)
    (hkempty : kquery.queue = []) :
    (∃ res, MultiIndex.SearchRange space indices rquery = some res ∧
      (res.result.map (fun p => objId p.2)).Nodup) ∧
    (∃ res, MultiIndex.SearchKNN objId indices kquery = some res ∧
      (res.queue.map (fun p => objId p.2)).Nodup) := by
  constructor
  · refine ⟨_, searchRangeLoop_eq space indices rtmps rquery [] hr, ?_⟩
    dsimp only
    rw [hrempty, List.nil_append]
    have hobj : (((keepFirst (fun o => o) [] (rangeReports rtmps)).filter
        (fun p => decide (p.1 ≤ rquery.radius))).map Prod.snd).Nodup :=
      (keepFirst_nodup (fun o : Obj => o) (rangeReports rtmps) []).sublist
        ((List.filter_sublist _).map Prod.snd)
    have hmap := List.Nodup.map_on (f := objId) (by
      intro a ha b hb hab
      rw [List.mem_map] at ha hb
      obtain ⟨pa, hpa, rfl⟩ := ha
      obtain ⟨pb, hpb, rfl⟩ := hb
      have ha2 := (keepFirst_mem (fun o : Obj => o) _ _ pa (List.mem_filter.mp hpa).1).1
      have hb2 := (keepFirst_mem (fun o : Obj => o) _ _ pb (List.mem_filter.mp hpb).1).1
      obtain ⟨ta, hta, hta2⟩ := (rangeReports_mem rtmps pa).mp ha2
      obtain ⟨tb, htb, htb2⟩ := (rangeReports_mem rtmps pb).mp hb2
      exact hid _ (hdata ta hta pa hta2) _ (hdata tb htb pb htb2) hab) hobj
    rw [List.map_map] at hmap
    exact hmap
  · refine ⟨_, searchKNNLoop_eq objId indices ktmps kquery [] hk, ?_⟩
    have h1 := submitReports_subperm (keepFirst objId [] (knnReports ktmps)) kquery
    rw [hkempty, List.append_nil] at h1
    have h2 := subperm_map (fun p : D × Obj => objId p.2) _ _ h1
    exact subperm_nodup _ _ h2 (keepFirst_nodup objId (knnReports ktmps) [])

unseal Rat.add Rat.mul Rat.inv Rat.sub in
/-- C17 at a concrete input: a one-leaf and an exact List-of-Clusters child over the dataset
0, 8, 10, 16, 18, 20, a range query of radius 6 and a kNN query with k = 3 at the point 11. -/
theorem C17_multi_index_dedup_witness :
    (MultiIndex.SearchRange ratLineSpace [oneLeafChild, exactChild] (RangeQuery.init 11 6)
        = some { query_object := 11, radius := 6, result := [(5, 16), (3, 8), (1, 10)],
                 distance_evals := 10 } ∧
      MultiIndex.SearchKNN pointId [oneLeafChild, exactChild] (KNNQuery.init 11 3 0)
        = some { query_object := 11, k := 3, eps := 0, queue := [(1, 10), (3, 8), (5, 16)],
                 distance_evals := 10 }) ∧
    ((∃ res, MultiIndex.SearchRange ratLineSpace [oneLeafChild, exactChild]
        (RangeQuery.init 11 6) = some res ∧
      (res.result.map (fun p => pointId p.2)).Nodup) ∧
    (∃ res, MultiIndex.SearchKNN pointId [oneLeafChild, exactChild]
        (KNNQuery.init 11 3 0) = some res ∧
      (res.queue.map (fun p => pointId p.2)).Nodup)) :=
  ⟨by decide,
    C17_multi_index_dedup ratLineSpace pointId [oneLeafChild, exactChild]
      [0, 8, 10, 16, 18, 20] (by decide) (RangeQuery.init 11 6)
      [{ query_object := 11, radius := 6, result := [(5, 16)], distance_evals := 4 },
       { query_object := 11, radius := 6, result := [(3, 8), (1, 10), (5, 16)],
         distance_evals := 6 }]
      (by decide) rfl (by decide) (KNNQuery.init 11 3 0)
      [{ query_object := 11, k := 3, eps := 0, queue := [(5, 16), (7, 18), (9, 20)],
         distance_evals := 4 },
       { query_object := 11, k := 3, eps := 0, queue := [(1, 10), (3, 8), (5, 16)],
         distance_evals := 6 }]
      (by decide) rfl⟩

/-- C18 (MultiIndex distance-count additivity).  For children that return, the counter
`distance_evals` of the parent grows by the sum of the counters of the temporary queries of the
children, for range and for kNN queries; when each of the `N` children records `e` evaluations
it grows by `N * e`. -/
theorem C18_multi_index_distance_count (space : Space D Obj) (objId : Obj → Int)
    (indices : List (Index D Obj))
    (rquery : RangeQuery D Obj) (rtmps : List (RangeQuery D Obj))
    (hr : indices.map (fun c => c.SearchRange
      (RangeQuery.init rquery.query_object rquery.radius)) = rtmps.map some)
    (kquery : KNNQuery D Obj) (ktmps : List (KNNQuery D Obj))
    (hk : indices.map (fun c => c.SearchKNN
      (KNNQuery.init kquery.query_object kquery.k kquery.eps)) = ktmps.map some) :
    (∃ res, MultiIndex.SearchRange space indices rquery = some res ∧
      res.distance_evals
        = rquery.distance_evals + (rtmps.map (fun t => t.distance_evals)).sum ∧
      ∀ e, (∀ t ∈ rtmps, t.distance_evals = e) →
        res.distance_evals = rquery.distance_evals + indices.length * e) ∧
    (∃ res, MultiIndex.SearchKNN objId indices kquery = some res ∧
      res.distance_evals
        = kquery.distance_evals + (ktmps.map (fun t => t.distance_evals)).sum ∧
      ∀ e, (∀ t ∈ ktmps, t.distance_evals = e) →
        res.distance_evals = kquery.distance_evals + indices.length * e) := by
  have hlr : indices.length = rtmps.length := by
    have := congrArg List.length hr
    simpa using this
  have hlk : indices.length = ktmps.length := by
    have := congrArg List.length hk
    simpa using this
  constructor
  · refine ⟨_, searchRangeLoop_eq space indices rtmps rquery [] hr, rfl, ?_⟩
    intro e he
    dsimp only
    rw [sum_const _ e rtmps he, hlr]
  · refine ⟨_, searchKNNLoop_eq objId indices ktmps kquery [] hk, ?_, ?_⟩
    · show (submitReports _ kquery).distance_evals + _ = _
      rw [(submitReports_fields _ kquery).2.2.2]
    · intro e he
      show (submitReports _ kquery).distance_evals + _ = _
      rw [(submitReports_fields _ kquery).2.2.2, sum_const _ e ktmps he, hlk]

unseal Rat.add Rat.mul Rat.inv Rat.sub in
/-- C18 at a concrete input: two exact List-of-Clusters children over the dataset 0, 8, 10, 16,
18, 20; each child records 6 evaluations and the parent ends at 2 * 6 = 12, for the range query
of radius 6 and for the kNN query with k = 3 at the point 11. -/
theorem C18_multi_index_distance_count_witness :
    (MultiIndex.SearchRange ratLineSpace [exactChild, exactChild] (RangeQuery.init 11 6)
        = some { query_object := 11, radius := 6, result := [(3, 8), (1, 10), (5, 16)],
                 distance_evals := 12 } ∧
      MultiIndex.SearchKNN pointId [exactChild, exactChild] (KNNQuery.init 11 3 0)
        = some { query_object := 11, k := 3, eps := 0, queue := [(1, 10), (3, 8), (5, 16)],
                 distance_evals := 12 }) ∧
    ((∃ res, MultiIndex.SearchRange ratLineSpace [exactChild, exactChild]
        (RangeQuery.init 11 6) = some res ∧
      res.distance_evals = 0 + ([6, 6] : List Nat).sum ∧
      ∀ e, (∀ t ∈ ([{ query_object := 11, radius := 6,
                      result := [(3, 8), (1, 10), (5, 16)], distance_evals := 6 },
                    { query_object := 11, radius := 6,
                      result := [(3, 8), (1, 10), (5, 16)], distance_evals := 6 }] :
                  List (RangeQuery ℚ ℚ)), t.distance_evals = e) →
        res.distance_evals = 0 + 2 * e) ∧
    (∃ res, MultiIndex.SearchKNN pointId [exactChild, exactChild]
        (KNNQuery.init 11 3 0) = some res ∧
      res.distance_evals = 0 + ([6, 6] : List Nat).sum ∧
      ∀ e, (∀ t ∈ ([{ query_object := 11, k := 3, eps := 0,
                      queue := [(1, 10), (3, 8), (5, 16)], distance_evals := 6 },
                    { query_object := 11, k := 3, eps := 0,
                      queue := [(1, 10), (3, 8), (5, 16)], distance_evals := 6 }] :
                  List (KNNQuery ℚ ℚ)), t.distance_evals = e) →
        res.distance_evals = 0 + 2 * e)) :=
  ⟨by decide,
    C18_multi_index_distance_count ratLineSpace pointId [exactChild, exactChild]
      (RangeQuery.init 11 6)
      [{ query_object := 11, radius := 6, result := [(3, 8), (1, 10), (5, 16)],
         distance_evals := 6 },
       { query_object := 11, radius := 6, result := [(3, 8), (1, 10), (5, 16)],
         distance_evals := 6 }]
      (by decide) (KNNQuery.init 11 3 0)
      [{ query_object := 11, k := 3, eps := 0, queue := [(1, 10), (3, 8), (5, 16)],
         distance_evals := 6 },
       { query_object := 11, k := 3, eps := 0, queue := [(1, 10), (3, 8), (5, 16)],
         distance_evals := 6 }]
      (by decide)⟩

theorem map_eq_replicate {α β : Type} (f : α → β) (v : β) (l : List α)
    (h : ∀ c ∈ l, f c = v) : l.map f = List.replicate l.length v := by
  induction l with
  | nil => rfl
  | cons a rest ih =>
    rw [List.map_cons, List.length_cons, List.replicate_succ, h a (List.mem_cons_self _ _),
      ih (fun c hc => h c (List.mem_cons_of_mem _ hc))]

theorem knnReports_replicate_mem (tmp : KNNQuery D Obj) (p : D × Obj) :
    ∀ n : Nat, p ∈ knnReports (List.replicate n tmp) → p ∈ popOrder tmp.queue := by
  intro n
  induction n with
  | zero => intro h; simp [knnReports] at h
  | succ m ih =>
    intro h
    rw [List.replicate_succ, knnReports, List.mem_append] at h
    rcases h with h | h
    · exact h
    · exact ih h

/-- The duplicate filter over the reports of identical children keeps the reports of the first
child only. -/
theorem keepFirst_replicate (objId : Obj → Int) (tmp : KNNQuery D Obj) (n : Nat) :
    keepFirst objId [] (knnReports (List.replicate (n + 1) tmp))
      = keepFirst objId [] (popOrder tmp.queue) := by
  have hnil := keepFirst_eq_nil objId (knnReports (List.replicate n tmp))
    (((keepFirst objId [] (popOrder tmp.queue)).map (fun p => objId p.2)).reverse ++ [])
    (by
      intro p hp
      have hp1 := knnReports_replicate_mem tmp p n hp
      have h := keepFirst_keys objId (popOrder tmp.queue) [] p hp1 (by simp)
      rw [List.append_nil, List.mem_reverse]
      exact h)
  rw [List.replicate_succ, knnReports, keepFirst_append, hnil, List.append_nil]

/-- C19 (MultiIndex over identical children).  When there is at least one child, every child
returns the same accumulator `tmp` for the temporary query, and `tmp` satisfies the invariants
of a kNN accumulator (at most `k` entries, one entry per object id), `MultiIndex::Search` into
an empty accumulator with the same `k` and `eps` returns, and the parent holds exactly the
pairs of `tmp`: the same pairs as a set, and the same queue up to the order of ties; its
counter is the number of children times the counter of `tmp`. -/
theorem C19_multi_index_identical_children (objId : Obj → Int)
    (indices : List (Index D Obj)) (query_object : Obj) (k : Nat) (eps : D)
    (tmp : KNNQuery D Obj) (hne : indices ≠ [])
    (hch : ∀ c ∈ indices, c.SearchKNN (KNNQuery.init query_object k eps) = some tmp)
    (hlen : tmp.queue.length ≤ k)
    (hnd : (tmp.queue.map (fun p => objId p.2)).Nodup) :
    ∃ res, MultiIndex.SearchKNN objId indices (KNNQuery.init query_object k eps) = some res ∧
      (∀ p, p ∈ res.queue ↔ p ∈ tmp.queue) ∧
      res.queue.Perm tmp.queue ∧
      res.distance_evals = indices.length * tmp.distance_evals := by
  have hk : indices.map (fun c => c.SearchKNN (KNNQuery.init
      (KNNQuery.init query_object k eps).query_object (KNNQuery.init query_object k eps).k
      (KNNQuery.init query_object k eps).eps))
      = (List.replicate indices.length tmp).map some := by
    rw [List.map_replicate]
    exact map_eq_replicate _ _ indices hch
  obtain ⟨n, hn⟩ : ∃ n, indices.length = n + 1 := by
    cases indices with
    | nil => exact absurd rfl hne
    | cons a rest => exact ⟨rest.length, rfl⟩
  have hkeep : keepFirst objId [] (knnReports (List.replicate indices.length tmp))
      = popOrder tmp.queue := by
    rw [hn, keepFirst_replicate]
    apply keepFirst_self
    · unfold popOrder
      rw [List.map_reverse]
      exact List.nodup_reverse.mpr hnd
    · intro p _
      simp
  have hperm : (submitReports (popOrder tmp.queue)
      (KNNQuery.init query_object k eps)).queue.Perm tmp.queue := by
    have h := submitReports_perm (popOrder tmp.queue) (KNNQuery.init query_object k eps) (by
      show 0 + (popOrder tmp.queue).length ≤ k
      unfold popOrder
      rw [List.length_reverse]
      omega)
    have h2 : (popOrder tmp.queue ++ (KNNQuery.init query_object k eps).queue).Perm
        tmp.queue := by
      show (tmp.queue.reverse ++ []).Perm tmp.queue
      rw [List.append_nil]
      exact List.reverse_perm _
    exact h.trans h2
  refine ⟨_, searchKNNLoop_eq objId indices _ (KNNQuery.init query_object k eps) [] hk,
    ?_, ?_, ?_⟩
  · intro p
    rw [hkeep]
    exact hperm.mem_iff
  · rw [hkeep]
    exact hperm
  · show (submitReports _ (KNNQuery.init query_object k eps)).distance_evals + _ = _
    rw [(submitReports_fields _ _).2.2.2, sum_const (fun t => t.distance_evals)
      tmp.distance_evals (List.replicate indices.length tmp) (by
        intro t ht
        rw [(List.mem_replicate.mp ht).2]), List.length_replicate]
    show 0 + _ = _
    omega

unseal Rat.add Rat.mul Rat.inv Rat.sub in
/-- C19 at the input of scenario S4: two identical exact List-of-Clusters children over the
dataset 0, 8, 10, 16, 18, 20 and the kNN query with k = 3 at the point 11; the parent holds the
three pairs a single child returns and 2 * 6 = 12 evaluations. -/
theorem C19_multi_index_identical_children_witness :
    (exactChild.SearchKNN (KNNQuery.init 11 3 0)
        = some { query_object := 11, k := 3, eps := 0, queue := [(1, 10), (3, 8), (5, 16)],
                 distance_evals := 6 } ∧
      MultiIndex.SearchKNN pointId [exactChild, exactChild] (KNNQuery.init 11 3 0)
        = some { query_object := 11, k := 3, eps := 0, queue := [(1, 10), (3, 8), (5, 16)],
                 distance_evals := 12 }) ∧
    ∃ res, MultiIndex.SearchKNN pointId [exactChild, exactChild] (KNNQuery.init 11 3 0)
        = some res ∧
      (∀ p, p ∈ res.queue ↔ p ∈ ([(1, 10), (3, 8), (5, 16)] : List (ℚ × ℚ))) ∧
      res.queue.Perm ([(1, 10), (3, 8), (5, 16)] : List (ℚ × ℚ)) ∧
      res.distance_evals = 2 * 6 :=
  ⟨by decide,
    C19_multi_index_identical_children pointId [exactChild, exactChild] 11 3 0
      { query_object := 11, k := 3, eps := 0, queue := [(1, 10), (3, 8), (5, 16)],
        distance_evals := 6 }
      (by simp) (by decide) (by decide) (by decide)⟩

end MultiIndexClaims

section MultiIndexRangeClaims

variable {D Obj : Type} [LinearOrderedAddCommGroup D] [DistArith D] [DecidableEq Obj]

/-- C20 (MultiIndex range union).  For children that return, whose temporary range queries
hold only pairs within the radius (the invariant of a range accumulator), and a parent
accumulator that is empty before the call, `MultiIndex::Search(range)` returns; the objects of
the parent are exactly the objects some child returned, each object once, and every pair of the
parent is the first report of its object, in the order of the children. -/
theorem C20_multi_index_range_union (space : Space D Obj) (indices : List (Index D Obj))
    (query : RangeQuery D Obj) (tmps : List (RangeQuery D Obj))
    (hr : indices.map (fun c => c.SearchRange
      (RangeQuery.init query.query_object query.radius)) = tmps.map some)
    (hempty : query.result = [])
    (hvalid : ∀ t ∈ tmps, ∀ p ∈ t.result, p.1 ≤ query.radius) :
    ∃ res, MultiIndex.SearchRange space indices query = some res ∧
      (∀ o, o ∈ res.result.map Prod.snd ↔ ∃ t ∈ tmps, o ∈ t.result.map Prod.snd) ∧
      (∀ p ∈ res.result,
        (rangeReports tmps).find? (fun p1 => decide (p1.2 = p.2)) = some p) ∧
      (res.result.map Prod.snd).Nodup ∧
      res.result = keepFirst (fun o => o) [] (rangeReports tmps) := by
  have hfilter : (keepFirst (fun o : Obj => o) [] (rangeReports tmps)).filter
      (fun p => decide (p.1 ≤ query.radius))
      = keepFirst (fun o : Obj => o) [] (rangeReports tmps) := by
    rw [List.filter_eq_self]
    intro p hp
    obtain ⟨t, ht, hpt⟩ := (rangeReports_mem tmps p).mp
      (keepFirst_mem (fun o : Obj => o) _ _ p hp).1
    exact decide_eq_true (hvalid t ht p hpt)
  refine ⟨_, searchRangeLoop_eq space indices tmps query [] hr, ?_⟩
  dsimp only
  rw [hempty, List.nil_append, hfilter]
  refine ⟨?_, ?_, ?_, rfl⟩
  · intro o
    constructor
    · intro ho
      rw [List.mem_map] at ho
      obtain ⟨p, hp, rfl⟩ := ho
      obtain ⟨t, ht, hpt⟩ := (rangeReports_mem tmps p).mp
        (keepFirst_mem (fun o : Obj => o) _ _ p hp).1
      exact ⟨t, ht, List.mem_map.mpr ⟨p, hpt, rfl⟩⟩
    · rintro ⟨t, ht, ho⟩
      rw [List.mem_map] at ho
      obtain ⟨p, hpt, rfl⟩ := ho
      exact keepFirst_keys (fun o : Obj => o) (rangeReports tmps) [] p
        ((rangeReports_mem tmps p).mpr ⟨t, ht, hpt⟩) (by simp)
  · intro p hp
    exact keepFirst_find (fun o : Obj => o) (rangeReports tmps) [] p hp
  · exact keepFirst_nodup (fun o : Obj => o) (rangeReports tmps) []

unseal Rat.add Rat.mul Rat.inv Rat.sub in
/-- C20 at a concrete input: a one-leaf and an exact List-of-Clusters child over the dataset
0, 8, 10, 16, 18, 20 and the range query of radius 6 at the point 11; the first child reports
the object 16 and the second the objects 8, 10 and 16. -/
theorem C20_multi_index_range_union_witness :
    (oneLeafChild.SearchRange (RangeQuery.init 11 6) = some oneLeafReply ∧
      exactChild.SearchRange (RangeQuery.init 11 6) = some exactReply ∧
      MultiIndex.SearchRange ratLineSpace [oneLeafChild, exactChild] (RangeQuery.init 11 6)
        = some { query_object := 11, radius := 6, result := [(5, 16), (3, 8), (1, 10)],
                 distance_evals := 10 }) ∧
    ∃ res, MultiIndex.SearchRange ratLineSpace [oneLeafChild, exactChild]
        (RangeQuery.init 11 6) = some res ∧
      (∀ o, o ∈ res.result.map Prod.snd ↔
        ∃ t ∈ [oneLeafReply, exactReply], o ∈ t.result.map Prod.snd) ∧
      (∀ p ∈ res.result,
        (rangeReports [oneLeafReply, exactReply]).find? (fun p1 => decide (p1.2 = p.2))
          = some p) ∧
      (res.result.map Prod.snd).Nodup ∧
      res.result = keepFirst (fun o => o) [] (rangeReports [oneLeafReply, exactReply]) :=
  ⟨by decide,
    C20_multi_index_range_union ratLineSpace [oneLeafChild, exactChild]
      (RangeQuery.init 11 6) [oneLeafReply, exactReply] (by decide) rfl (by decide)⟩

end MultiIndexRangeClaims

/-! ## Claims on the order of the kNN drain -/

section DrainOrderClaims

variable {D Obj : Type} [LinearOrderedAddCommGroup D] [DistArith D] [DecidableEq Obj]

unseal Rat.add Rat.mul Rat.inv Rat.sub in
/-- C21 as stated fails: the exact List-of-Clusters child over the dataset 0, 8, 10, 16, 18, 20
answers the kNN query with k = 3 at the point 11 with the queue 10, 8, 16 at the distances 1, 3,
5; the drain hands the parent the pairs at the distances 5, 3, 1 in this order, which is not a
non-decreasing order of distance. -/
theorem C21_counterexample :
    exactChild.SearchKNN (KNNQuery.init 11 3 0) = some exactKnnReply ∧
    exactKnnReply.queue = [(1, 10), (3, 8), (5, 16)] ∧
    keepFirst pointId [] (popOrder exactKnnReply.queue) = [(5, 16), (3, 8), (1, 10)] ∧
    (drainKNN pointId (popOrder exactKnnReply.queue) (KNNQuery.init 11 3 0) []).1
      = (((KNNQuery.init 11 3 0).CheckAndAddToResult 5 16).CheckAndAddToResult
          3 8).CheckAndAddToResult 1 10 ∧
    ¬ (keepFirst pointId [] (popOrder exactKnnReply.queue)).Pairwise
        (fun a b => a.1 ≤ b.1) := by
  decide

/-- C21 (MultiIndex kNN drain order), amended.  The clone of a child's result queue, whose
entries are in ascending order of distance with the top at the end, is drained from worst to
best: the parent accumulator receives, by `CheckAndAddToResult`, the entries that pass the
duplicate filter in non-increasing order of distance, starting from the top of the queue. -/
theorem C21_drain_order (objId : Obj → Int) (tmp : KNNQuery D Obj) (query : KNNQuery D Obj)
    (found : List Int) (hsorted : tmp.queue.Pairwise (fun a b => a.1 ≤ b.1)) :
    (drainKNN objId (popOrder tmp.queue) query found).1
      = submitReports (keepFirst objId found (popOrder tmp.queue)) query ∧
    (keepFirst objId found (popOrder tmp.queue)).Sublist (popOrder tmp.queue) ∧
    (popOrder tmp.queue).head? = tmp.queue.getLast? ∧
    (popOrder tmp.queue).Pairwise (fun a b => b.1 ≤ a.1) ∧
    (keepFirst objId found (popOrder tmp.queue)).Pairwise (fun a b => b.1 ≤ a.1) := by
  have hpop : (popOrder tmp.queue).Pairwise (fun a b => b.1 ≤ a.1) := by
    unfold popOrder
    rw [List.pairwise_reverse]
    exact hsorted
  refine ⟨?_, keepFirst_sublist objId _ _, ?_, hpop, hpop.sublist (keepFirst_sublist objId _ _)⟩
  · rw [drainKNN_eq]
  · unfold popOrder
    rw [List.head?_reverse]

unseal Rat.add Rat.mul Rat.inv Rat.sub in
/-- C21 at a concrete input: the queue that the exact child returns for the kNN query with
k = 3 at the point 11. -/
theorem C21_drain_order_witness :
    exactKnnReply.queue.Pairwise (fun a b => a.1 ≤ b.1) ∧
    ((drainKNN pointId (popOrder exactKnnReply.queue) (KNNQuery.init 11 3 0) []).1
      = submitReports (keepFirst pointId [] (popOrder exactKnnReply.queue))
          (KNNQuery.init 11 3 0) ∧
    (keepFirst pointId [] (popOrder exactKnnReply.queue)).Sublist
      (popOrder exactKnnReply.queue) ∧
    (popOrder exactKnnReply.queue).head? = exactKnnReply.queue.getLast? ∧
    (popOrder exactKnnReply.queue).Pairwise (fun a b => b.1 ≤ a.1) ∧
    (keepFirst pointId [] (popOrder exactKnnReply.queue)).Pairwise
      (fun a b => b.1 ≤ a.1)) :=
  ⟨by decide, C21_drain_order pointId exactKnnReply (KNNQuery.init 11 3 0) [] (by decide)⟩

end DrainOrderClaims

/-! ## The build loop: the states at the start of the iterations -/

section BuildTraceLemmas

variable {D Obj : Type} [LinearOrderedAddCommGroup D] [DistArith D] [DecidableEq Obj]

/-- The first loop of the bucket-size branch returns only when it meets the centre at most
once. -/
theorem scanBucketMode_ok_count (space : Space D Obj) (center : Obj) :
    ∀ (l : List (D × Obj)) (skipped : Bool) (dp res : List (D × D × Obj)),
      scanBucketMode space center l skipped dp = .ok res →
      (l.map Prod.snd).count center + (if skipped then 1 else 0) ≤ 1 := by
  intro l
  induction l with
  | nil => intro skipped dp res _; cases skipped <;> simp
  | cons p rest ih =>
    intro skipped dp res h
    rw [scanBucketMode] at h
    rw [List.map_cons, List.count_cons]
    by_cases hp : p.2 = center
    · rw [if_pos hp] at h
      cases skipped with
      | true => simp at h
      | false =>
        simp only [Bool.false_eq_true, if_false] at h
        have h1 := ih true dp res h
        simp only [if_true] at h1
        simp only [hp, beq_self_eq_true, if_true, Bool.false_eq_true, if_false]
        omega
    · rw [if_neg hp] at h
      have h1 := ih skipped _ res h
      have h2 : (p.2 == center) = false := by simpa using hp
      simp only [h2, Bool.false_eq_true, if_false]
      omega

/-- The loop of the radius branch returns only when it meets the centre at most once. -/
theorem scanRadiusMode_ok_count (space : Space D Obj) (Radius_ : D) (center : Obj) :
    ∀ (l : List (D × Obj)) (skipped : Bool) (c : Cluster D Obj) (outside : List (D × Obj))
      (res : Cluster D Obj × List (D × Obj)),
      scanRadiusMode space Radius_ center l skipped c outside = .ok res →
      (l.map Prod.snd).count center + (if skipped then 1 else 0) ≤ 1 := by
  intro l
  induction l with
  | nil => intro skipped c outside res _; cases skipped <;> simp
  | cons p rest ih =>
    intro skipped c outside res h
    rw [scanRadiusMode] at h
    rw [List.map_cons, List.count_cons]
    by_cases hp : p.2 = center
    · rw [if_pos hp] at h
      cases skipped with
      | true => simp at h
      | false =>
        simp only [Bool.false_eq_true, if_false] at h
        have h1 := ih true c outside res h
        simp only [if_true] at h1
        simp only [hp, beq_self_eq_true, if_true, Bool.false_eq_true, if_false]
        omega
    · rw [if_neg hp] at h
      have h2 : (p.2 == center) = false := by simpa using hp
      simp only [h2, Bool.false_eq_true, if_false]
      by_cases hd : space.IndexTimeDistance p.2 center < Radius_
      · rw [if_pos hd] at h
        have h1 := ih skipped _ _ res h
        omega
      · rw [if_neg hd] at h
        have h1 := ih skipped _ _ res h
        omega

/-- An iteration that does not abort ran on a pool that holds the centre at most once. -/
theorem buildStep_ok_count (space : Space D Obj)
    (srt : List (D × D × Obj) → List (D × D × Obj))
    (UseBucketSize_ : Bool) (BucketSize_ : Nat) (Radius_ : D)
    (remaining : List (D × Obj)) (center : Obj) (res : Cluster D Obj × List (D × Obj))
    (h : buildStep space srt UseBucketSize_ BucketSize_ Radius_ remaining center = .ok res) :
    (remaining.map Prod.snd).count center ≤ 1 := by
  cases UseBucketSize_ with
  | true =>
    simp only [buildStep, if_true] at h
    split at h
    · cases h
    · rename_i dp hdp
      have h1 := scanBucketMode_ok_count space center remaining false [] dp hdp
      simpa using h1
  | false =>
    simp only [buildStep, Bool.false_eq_true, if_false] at h
    have h1 := scanRadiusMode_ok_count space Radius_ center remaining false _ _ res h
    simpa using h1

theorem buildStates_head (space : Space D Obj)
    (srt : List (D × D × Obj) → List (D × D × Obj))
    (rnd : Nat → Nat) (Strategy_ : ListClustersStrategy)
    (UseBucketSize_ : Bool) (BucketSize_ : Nat) (Radius_ : D)
    (fuel : Nat) (remaining : List (D × Obj)) (cl : List (Cluster D Obj)) (it : Nat)
    (hne : remaining ≠ []) :
    (buildStates space srt rnd Strategy_ UseBucketSize_ BucketSize_ Radius_
      fuel remaining cl it).head? = some (remaining, cl) := by
  have hempty : remaining.isEmpty = false := by
    cases remaining with
    | nil => exact absurd rfl hne
    | cons a l => rfl
  cases fuel with
  | zero =>
    rw [buildStates]
    simp only [hempty, Bool.false_eq_true, if_false]
    rfl
  | succ fuel =>
    rw [buildStates]
    simp only [hempty, Bool.false_eq_true, if_false]
    split
    · rfl
    · split
      · rfl
      · split
        · rfl
        · rfl

/-- Proof rule for the states of the build loop: a property of the pool and the cluster list
that holds at the start of the first iteration and that every iteration hands on holds at the
start of every iteration. -/
theorem buildStates_rule (space : Space D Obj)
    (srt : List (D × D × Obj) → List (D × D × Obj))
    (rnd : Nat → Nat) (Strategy_ : ListClustersStrategy)
    (UseBucketSize_ : Bool) (BucketSize_ : Nat) (Radius_ : D)
    (P : List (D × Obj) → List (Cluster D Obj) → Prop)
    (hstep : ∀ remaining cl center, P remaining cl →
      (remaining.map Prod.snd).count center ≤ 1 → center ∈ remaining.map Prod.snd →
      P ((stepOutside space srt UseBucketSize_ BucketSize_ Radius_ remaining center).map
            outsideEntry)
        (cl ++ [(stepInside space srt UseBucketSize_ BucketSize_ Radius_ remaining
            center).foldl addTuple (Cluster.init center)])) :
    ∀ (fuel : Nat) (remaining : List (D × Obj)) (cl : List (Cluster D Obj)) (it : Nat),
      P remaining cl →
      ∀ st ∈ buildStates space srt rnd Strategy_ UseBucketSize_ BucketSize_ Radius_
          fuel remaining cl it, P st.1 st.2 := by
  intro fuel
  induction fuel with
  | zero =>
    intro remaining cl it hP st hst
    rw [buildStates] at hst
    split at hst
    · simp at hst
    · rw [List.mem_singleton.mp hst]
      exact hP
  | succ fuel ih =>
    intro remaining cl it hP st hst
    rw [buildStates] at hst
    split at hst
    · simp at hst
    · split at hst
      · rw [List.mem_singleton.mp hst]
        exact hP
      · rename_i center hsel
        split at hst
        · rw [List.mem_singleton.mp hst]
          exact hP
        · split at hst
          · rw [List.mem_singleton.mp hst]
            exact hP
          · rename_i new_cluster outside hstepeq
            rcases List.mem_cons.mp hst with h | h
            · rw [h]
              exact hP
            · have hcount := buildStep_ok_count space srt UseBucketSize_ BucketSize_ Radius_
                remaining center _ hstepeq
              rw [buildStep_eq space srt UseBucketSize_ BucketSize_ Radius_ remaining center
                hcount] at hstepeq
              cases hstepeq
              exact ih _ _ _ (hstep remaining cl center hP hcount
                (SelectNextCenter_mem remaining Strategy_ (rnd it) center hsel)) st h

theorem buildStates_nil (space : Space D Obj)
    (srt : List (D × D × Obj) → List (D × D × Obj))
    (rnd : Nat → Nat) (Strategy_ : ListClustersStrategy)
    (UseBucketSize_ : Bool) (BucketSize_ : Nat) (Radius_ : D)
    (fuel : Nat) (cl : List (Cluster D Obj)) (it : Nat) :
    buildStates space srt rnd Strategy_ UseBucketSize_ BucketSize_ Radius_ fuel [] cl it
      = [] := by
  unfold buildStates
  simp

theorem buildStates_succ (space : Space D Obj)
    (srt : List (D × D × Obj) → List (D × D × Obj))
    (rnd : Nat → Nat) (Strategy_ : ListClustersStrategy)
    (UseBucketSize_ : Bool) (BucketSize_ : Nat) (Radius_ : D)
    (fuel : Nat) (remaining : List (D × Obj)) (cl : List (Cluster D Obj)) (it : Nat)
    (center : Obj) (hne : remaining ≠ [])
    (hsel : SelectNextCenter remaining Strategy_ (rnd it) = some center) :
    buildStates space srt rnd Strategy_ UseBucketSize_ BucketSize_ Radius_
        (fuel + 1) remaining cl it
      = if remaining.length = 1 then [(remaining, cl)]
        else
          match buildStep space srt UseBucketSize_ BucketSize_ Radius_ remaining center with
          | .error _ => [(remaining, cl)]
          | .ok (new_cluster, outside) =>
            (remaining, cl) ::
              buildStates space srt rnd Strategy_ UseBucketSize_ BucketSize_ Radius_
                fuel outside (cl ++ [new_cluster]) (it + 1) := by
  have hempty : remaining.isEmpty = false := by
    cases remaining with
    | nil => exact absurd rfl hne
    | cons a l => rfl
  rw [buildStates]
  simp only [hempty, Bool.false_eq_true, if_false, hsel]

/-- The trace and the loop agree: when the loop returns, the trace has one state for each
iteration the loop executed, and the cluster list of every state is an initial part of the
cluster list the loop returns. -/
theorem buildStates_buildLoop (space : Space D Obj)
    (srt : List (D × D × Obj) → List (D × D × Obj))
    (rnd : Nat → Nat) (Strategy_ : ListClustersStrategy)
    (UseBucketSize_ : Bool) (BucketSize_ : Nat) (Radius_ : D) :
    ∀ (fuel : Nat) (remaining : List (D × Obj)) (cl : List (Cluster D Obj)) (it : Nat)
      (res : List (Cluster D Obj)) (n : Nat),
      buildLoop space srt rnd Strategy_ UseBucketSize_ BucketSize_ Radius_
        fuel remaining cl it = .ok (res, n) →
      it + (buildStates space srt rnd Strategy_ UseBucketSize_ BucketSize_ Radius_
        fuel remaining cl it).length = n ∧
      ∀ st ∈ buildStates space srt rnd Strategy_ UseBucketSize_ BucketSize_ Radius_
        fuel remaining cl it, ∃ more, res = st.2 ++ more := by
  intro fuel
  induction fuel with
  | zero =>
    intro remaining cl it res n h
    by_cases hne : remaining = []
    · subst hne
      rw [buildLoop_nil] at h
      cases h
      rw [buildStates_nil]
      exact ⟨rfl, by intro st hst; simp at hst⟩
    · have hempty : remaining.isEmpty = false := by
        cases remaining with
        | nil => exact absurd rfl hne
        | cons a l => rfl
      rw [buildLoop] at h
      simp [hempty] at h
  | succ fuel ih =>
    intro remaining cl it res n h
    by_cases hne : remaining = []
    · subst hne
      rw [buildLoop_nil] at h
      cases h
      rw [buildStates_nil]
      exact ⟨rfl, by intro st hst; simp at hst⟩
    · obtain ⟨center, hsel, hmem⟩ := SelectNextCenter_some remaining Strategy_ (rnd it) hne
      rw [buildLoop_succ space srt rnd Strategy_ UseBucketSize_ BucketSize_ Radius_ fuel
        remaining cl it center hne hsel] at h
      rw [buildStates_succ space srt rnd Strategy_ UseBucketSize_ BucketSize_ Radius_ fuel
        remaining cl it center hne hsel]
      by_cases h1 : remaining.length = 1
      · rw [if_pos h1] at h ⊢
        cases h
        refine ⟨rfl, ?_⟩
        intro st hst
        rw [List.mem_singleton.mp hst]
        exact ⟨_, rfl⟩
      · rw [if_neg h1] at h ⊢
        cases hb : buildStep space srt UseBucketSize_ BucketSize_ Radius_ remaining center with
        | error e =>
          rw [hb] at h
          cases h
        | ok r =>
          obtain ⟨new_cluster, outside⟩ := r
          rw [hb] at h
          dsimp only at h ⊢
          obtain ⟨hlen, hpre⟩ := ih _ _ _ res n h
          refine ⟨by rw [List.length_cons]; omega, ?_⟩
          intro st hst
          rcases List.mem_cons.mp hst with e | e
          · rw [e]
            by_cases hout : outside = []
            · subst hout
              rw [buildLoop_nil] at h
              cases h
              exact ⟨_, rfl⟩
            · obtain ⟨more, hmore⟩ := hpre _ (List.mem_of_mem_head?
                (buildStates_head space srt rnd Strategy_ UseBucketSize_ BucketSize_ Radius_
                  fuel outside (cl ++ [new_cluster]) (it + 1) hout))
              exact ⟨_, hmore.trans (List.append_assoc _ _ _)⟩
          · exact hpre st e

end BuildTraceLemmas

/-! ## Claims on the states of the build loop -/

section BuildTraceClaims

variable {D Obj : Type} [LinearOrderedAddCommGroup D] [DistArith D] [DecidableEq Obj]

theorem sumToCenters_append (space : Space D Obj) (cl : List (Cluster D Obj))
    (c : Cluster D Obj) (o : Obj) :
    sumToCenters space (cl ++ [c]) o
      = sumToCenters space cl o + space.IndexTimeDistance o c.center_ := by
  unfold sumToCenters
  rw [List.map_append, List.sum_append]
  simp

theorem machineSum_append (space : Space D Obj) (cl : List (Cluster D Obj))
    (c : Cluster D Obj) (o : Obj) :
    machineSum space (cl ++ [c]) o
      = DistArith.add (machineSum space cl o) (space.IndexTimeDistance o c.center_) := by
  unfold machineSum
  rw [List.foldl_append]
  rfl

/-- Where no addition overflows or rounds, the accumulated sum is the sum of the distances. -/
theorem foldl_add_exact (space : Space D Obj) (o : Obj) :
    ∀ (cl : List (Cluster D Obj)) (s : D), sumsExactFrom space o cl s = true →
      cl.foldl (fun s c => DistArith.add s (space.IndexTimeDistance o c.center_)) s
        = s + sumToCenters space cl o := by
  intro cl
  induction cl with
  | nil => intro s _; simp [sumToCenters]
  | cons c rest ih =>
    intro s h
    rw [sumsExactFrom, Bool.and_eq_true, decide_eq_true_eq] at h
    rw [List.foldl_cons, h.1, ih _ h.2]
    unfold sumToCenters
    rw [List.map_cons, List.sum_cons, add_assoc]

/-- C22 as stated fails for the `int` instantiation: on the integer line, for the dataset 0,
100, 1100000000 with `closestPrevCenter` and buckets of no object, the object 1100000000 starts
the third iteration with the running sum -2094967396, while its distances to the centres 0 and
100 add up to 2199999900; the addition of line 137 has wrapped around. -/
theorem C22_counterexample :
    buildStates lineSpace insertionSortDp (fun _ => 0) ListClustersStrategy.kClosestPrevCenter
        true 0 1 3 [(0, 0), (0, 100), (0, 1100000000)] [] 0 = wrappedStates ∧
    (([(-2094967396, 1100000000)], [⟨0, 0, []⟩, ⟨100, 0, []⟩]) :
      List (Int × Int) × List (Cluster Int Int)) ∈ wrappedStates ∧
    sumToCenters lineSpace [⟨0, 0, []⟩, ⟨100, 0, []⟩] 1100000000 = 2199999900 ∧
    lineSpace.IndexTimeDistance 1100000000 0 = 1100000000 ∧
    lineSpace.IndexTimeDistance 1100000000 100 = 1099999900 ∧
    (1100000000 : Int) < 2147483648 := by
  decide

/-- C22 (running-sum invariant), amended.  For every dataset, strategy, outcome of the random
choices and both build modes, at the start of every iteration of the build loop each pair
`(s, obj)` of the pool `remaining` has `s` equal to the running sum accumulated in `dist_t`:
starting from 0, `IndexTimeDistance(obj, c)` is added for each centre `c` of the clusters
created so far, in the order of creation.  Where none of these additions overflows or rounds,
`s` is the sum of `IndexTimeDistance(obj, c)` over these centres.  The first state is the
initial pool with no cluster, where the sum is 0. -/
theorem C22_running_sum (space : Space D Obj)
    (srt : List (D × D × Obj) → List (D × D × Obj)) (hsrt : IsStdSort srt)
    (rnd : Nat → Nat) (Strategy_ : ListClustersStrategy)
    (UseBucketSize_ : Bool) (BucketSize_ : Nat) (Radius_ : D) (data : List Obj) :
    (data ≠ [] →
      (buildStates space srt rnd Strategy_ UseBucketSize_ BucketSize_ Radius_
        data.length (data.map (fun object => ((0 : D), object))) [] 0).head?
        = some (data.map (fun object => ((0 : D), object)), [])) ∧
    ∀ st ∈ buildStates space srt rnd Strategy_ UseBucketSize_ BucketSize_ Radius_
        data.length (data.map (fun object => ((0 : D), object))) [] 0,
      ∀ p ∈ st.1, p.1 = machineSum space st.2 p.2 ∧
        (sumsExactFrom space p.2 st.2 0 = true → p.1 = sumToCenters space st.2 p.2) := by
  constructor
  · intro hne
    apply buildStates_head
    intro h
    apply hne
    simpa using h
  · have hrule := buildStates_rule space srt rnd Strategy_ UseBucketSize_ BucketSize_ Radius_
      (fun remaining cl => ∀ p ∈ remaining, p.1 = machineSum space cl p.2)
      (by
        intro remaining cl center hP _ _ q hq
        rw [List.mem_map] at hq
        obtain ⟨t, ht, rfl⟩ := hq
        obtain ⟨h1, _, h3⟩ := stepTuples_mem space center remaining t
          (stepOutside_subset space srt hsrt _ _ _ _ _ t ht)
        have h4 := hP _ h3
        rw [machineSum_append, (stepCluster space center _).1]
        show DistArith.add t.1 t.2.1
          = DistArith.add (machineSum space cl t.2.2) (space.IndexTimeDistance t.2.2 center)
        rw [h1]
        dsimp only at h4
        rw [h4, DistArith.add_comm])
      data.length (data.map (fun object => ((0 : D), object))) [] 0
      (by
        intro p hp
        rw [List.mem_map] at hp
        obtain ⟨o, _, rfl⟩ := hp
        rfl)
    intro st hst p hp
    have h := hrule st hst p hp
    refine ⟨h, ?_⟩
    intro hexact
    rw [h]
    unfold machineSum
    rw [foldl_add_exact space p.2 st.2 0 hexact, zero_add]

/-- C22 at a concrete input: the dataset 0, 7, 3, 9, 20 on the integer line with
`closestPrevCenter` and buckets of one object; at the start of the third iteration the object 20
carries 33 = |20 - 0| + |20 - 7|, and no addition overflows. -/
theorem C22_running_sum_witness :
    (buildStates lineSpace insertionSortDp (fun _ => 0)
        ListClustersStrategy.kClosestPrevCenter
        true 1 1 [0, 7, 3, 9, 20].length
        ([0, 7, 3, 9, 20].map (fun object => ((0 : Int), object))) [] 0 = fivePointStates ∧
      ∀ st ∈ fivePointStates, ∀ p ∈ st.1, sumsExactFrom lineSpace p.2 st.2 0 = true) ∧
    (([0, 7, 3, 9, 20] ≠ ([] : List Int) →
      (buildStates lineSpace insertionSortDp (fun _ => 0)
        ListClustersStrategy.kClosestPrevCenter true 1 1 [0, 7, 3, 9, 20].length
        ([0, 7, 3, 9, 20].map (fun object => ((0 : Int), object))) [] 0).head?
        = some ([0, 7, 3, 9, 20].map (fun object => ((0 : Int), object)), [])) ∧
    ∀ st ∈ buildStates lineSpace insertionSortDp (fun _ => 0)
        ListClustersStrategy.kClosestPrevCenter true 1 1 [0, 7, 3, 9, 20].length
        ([0, 7, 3, 9, 20].map (fun object => ((0 : Int), object))) [] 0,
      ∀ p ∈ st.1, p.1 = machineSum lineSpace st.2 p.2 ∧
        (sumsExactFrom lineSpace p.2 st.2 0 = true → p.1 = sumToCenters lineSpace st.2 p.2)) :=
  ⟨by decide,
    C22_running_sum lineSpace insertionSortDp insertionSortDp_isStdSort (fun _ => 0)
      ListClustersStrategy.kClosestPrevCenter true 1 1 [0, 7, 3, 9, 20]⟩

theorem SelectNextCenter_closest (space : Space D Obj) (center : Obj)
    (remaining : List (D × Obj)) (hsorted : SortedToward space center remaining)
    (r : Nat) (c : Obj)
    (hsel : SelectNextCenter remaining ListClustersStrategy.kClosestPrevCenter r = some c) :
    c ∈ remaining.map Prod.snd ∧
    ∀ p ∈ remaining, space.IndexTimeDistance c center ≤ space.IndexTimeDistance p.2 center := by
  refine ⟨SelectNextCenter_mem _ _ _ _ hsel, ?_⟩
  cases remaining with
  | nil => simp [SelectNextCenter] at hsel
  | cons a rest =>
    simp only [SelectNextCenter, List.isEmpty_cons, Bool.false_eq_true, if_false,
      List.head?_cons, Option.map_some', Option.some.injEq] at hsel
    subst hsel
    unfold SortedToward at hsorted
    rw [List.pairwise_cons] at hsorted
    intro p hp
    rcases List.mem_cons.mp hp with e | e
    · rw [e]
    · exact hsorted.1 p e

theorem SelectNextCenter_farthest (space : Space D Obj) (center : Obj)
    (remaining : List (D × Obj)) (hsorted : SortedToward space center remaining)
    (r : Nat) (c : Obj)
    (hsel : SelectNextCenter remaining ListClustersStrategy.kFarthestPrevCenter r = some c) :
    c ∈ remaining.map Prod.snd ∧
    ∀ p ∈ remaining, space.IndexTimeDistance p.2 center ≤ space.IndexTimeDistance c center := by
  refine ⟨SelectNextCenter_mem _ _ _ _ hsel, ?_⟩
  rcases List.eq_nil_or_concat remaining with h | ⟨front, z, h⟩
  · subst h
    simp [SelectNextCenter] at hsel
  · rw [List.concat_eq_append] at h
    subst h
    have hempty : (front ++ [z]).isEmpty = false := by
      cases front <;> rfl
    simp only [SelectNextCenter, hempty, Bool.false_eq_true, if_false,
      List.getLast?_concat, Option.map_some', Option.some.injEq] at hsel
    subst hsel
    unfold SortedToward at hsorted
    rw [List.pairwise_append] at hsorted
    intro p hp
    rcases List.mem_append.mp hp with e | e
    · exact hsorted.2.2 p e z (List.mem_singleton_self z)
    · rw [List.mem_singleton.mp e]

/-- C26 (pool ordering in bucket mode).  With `useBucketSize = true`, for every dataset,
strategy and outcome of the random choices, at the start of every iteration after the first the
pool is in non-decreasing order of `IndexTimeDistance` to the centre of the cluster created
last; hence the centre that `closestPrevCenter` selects from this pool is a pool object at
minimal distance to that centre, and the one that `farthestPrevCenter` selects is a pool object
at maximal distance. -/
theorem C26_pool_ordering (space : Space D Obj)
    (srt : List (D × D × Obj) → List (D × D × Obj)) (hsrt : IsStdSort srt)
    (rnd : Nat → Nat) (Strategy_ : ListClustersStrategy)
    (BucketSize_ : Nat) (Radius_ : D) (data : List Obj) :
    ∀ st ∈ buildStates space srt rnd Strategy_ true BucketSize_ Radius_
        data.length (data.map (fun object => ((0 : D), object))) [] 0,
      ∀ prev, st.2.getLast? = some prev →
        SortedToward space prev.center_ st.1 ∧
        (∀ r c, SelectNextCenter st.1 ListClustersStrategy.kClosestPrevCenter r = some c →
          c ∈ st.1.map Prod.snd ∧
          ∀ p ∈ st.1, space.IndexTimeDistance c prev.center_
            ≤ space.IndexTimeDistance p.2 prev.center_) ∧
        (∀ r c, SelectNextCenter st.1 ListClustersStrategy.kFarthestPrevCenter r = some c →
          c ∈ st.1.map Prod.snd ∧
          ∀ p ∈ st.1, space.IndexTimeDistance p.2 prev.center_
            ≤ space.IndexTimeDistance c prev.center_) := by
  have hrule := buildStates_rule space srt rnd Strategy_ true BucketSize_ Radius_
    (fun remaining cl => ∀ prev, cl.getLast? = some prev →
      SortedToward space prev.center_ remaining)
    (by
      intro remaining cl center _ _ _ prev hprev
      rw [List.getLast?_concat, Option.some.injEq] at hprev
      subst hprev
      rw [(stepCluster space center _).1]
      unfold SortedToward
      rw [List.pairwise_map]
      have hs : (stepOutside space srt true BucketSize_ Radius_ remaining center).Pairwise
          (fun x y => ¬ y.1 < x.1) := by
        simp only [stepOutside, if_true]
        exact (hsrt _).2.sublist (List.drop_sublist _ _)
      refine hs.imp_of_mem ?_
      intro t1 t2 h1 h2 h
      have e1 := (stepTuples_mem space center remaining t1
        (stepOutside_subset space srt hsrt _ _ _ _ _ t1 h1)).1
      have e2 := (stepTuples_mem space center remaining t2
        (stepOutside_subset space srt hsrt _ _ _ _ _ t2 h2)).1
      show space.IndexTimeDistance t1.2.2 center ≤ space.IndexTimeDistance t2.2.2 center
      rw [← e1, ← e2]
      exact not_lt.mp h)
    data.length (data.map (fun object => ((0 : D), object))) [] 0
    (by intro prev hprev; simp at hprev)
  intro st hst prev hprev
  have hsorted := hrule st hst prev hprev
  exact ⟨hsorted, fun r c h => SelectNextCenter_closest space _ _ hsorted r c h,
    fun r c h => SelectNextCenter_farthest space _ _ hsorted r c h⟩

/-- C26 at a concrete input: the dataset 0, 7, 3, 9, 20 on the integer line with
`closestPrevCenter` and buckets of one object; after the first iteration the pool 7, 9, 20 is in
the order of the distances 7, 9, 20 to the centre 0. -/
theorem C26_pool_ordering_witness :
    buildStates lineSpace insertionSortDp (fun _ => 0) ListClustersStrategy.kClosestPrevCenter
        true 1 1 [0, 7, 3, 9, 20].length
        ([0, 7, 3, 9, 20].map (fun object => ((0 : Int), object))) [] 0
      = [([(0, 0), (0, 7), (0, 3), (0, 9), (0, 20)], []),
         ([(7, 7), (9, 9), (20, 20)], [⟨0, 3, [3]⟩]),
         ([(33, 20)], [⟨0, 3, [3]⟩, ⟨7, 2, [9]⟩])] ∧
    ∀ st ∈ buildStates lineSpace insertionSortDp (fun _ => 0)
        ListClustersStrategy.kClosestPrevCenter true 1 1 [0, 7, 3, 9, 20].length
        ([0, 7, 3, 9, 20].map (fun object => ((0 : Int), object))) [] 0,
      ∀ prev, st.2.getLast? = some prev →
        SortedToward lineSpace prev.center_ st.1 ∧
        (∀ r c, SelectNextCenter st.1 ListClustersStrategy.kClosestPrevCenter r = some c →
          c ∈ st.1.map Prod.snd ∧
          ∀ p ∈ st.1, lineSpace.IndexTimeDistance c prev.center_
            ≤ lineSpace.IndexTimeDistance p.2 prev.center_) ∧
        (∀ r c, SelectNextCenter st.1 ListClustersStrategy.kFarthestPrevCenter r = some c →
          c ∈ st.1.map Prod.snd ∧
          ∀ p ∈ st.1, lineSpace.IndexTimeDistance p.2 prev.center_
            ≤ lineSpace.IndexTimeDistance c prev.center_) :=
  ⟨by decide,
    C26_pool_ordering lineSpace insertionSortDp insertionSortDp_isStdSort (fun _ => 0)
      ListClustersStrategy.kClosestPrevCenter 1 1 [0, 7, 3, 9, 20]⟩

end BuildTraceClaims

/-! ## Claims on the number of clusters -/

section ClusterCountClaims

variable {D Obj : Type} [LinearOrderedAddCommGroup D] [DistArith D] [DecidableEq Obj]

theorem ceil_div_step (B m x : Nat) (h1 : 1 ≤ x) (h2 : x ≤ B + 1) :
    (x + m * (B + 1) + B) / (B + 1) = m + 1 := by
  have e : x + m * (B + 1) + B = (x + B) + m * (B + 1) := by omega
  have hpos : 0 < B + 1 := by omega
  rw [e, Nat.add_mul_div_right _ _ hpos]
  have h : (x + B) / (B + 1) = 1 :=
    Nat.div_eq_of_lt_le (by omega) (by
      show x + B < 2 * (B + 1)
      omega)
  rw [h, Nat.add_comm]

/-- The tuples of an iteration on a pool of distinct objects that holds the centre: one for
every pool entry but the centre. -/
theorem stepTuples_length (space : Space D Obj) (center : Obj) (remaining : List (D × Obj))
    (hnd : (remaining.map Prod.snd).Nodup) (hc : center ∈ remaining.map Prod.snd) :
    (stepTuples space center remaining).length + 1 = remaining.length := by
  have h := others_length center remaining
  rw [List.count_eq_one_of_mem hnd hc] at h
  unfold stepTuples
  rw [List.length_map]
  exact h

/-- The build loop in bucket mode on a dataset of `n` distinct objects with buckets of `B`
objects returns `⌈n / (B + 1)⌉` clusters; all but the last hold `B` bucket members and the last
holds at most `B`. -/
theorem buildClusters_count (space : Space D Obj)
    (srt : List (D × D × Obj) → List (D × D × Obj)) (hsrt : IsStdSort srt)
    (rnd : Nat → Nat) (Strategy_ : ListClustersStrategy)
    (BucketSize_ : Nat) (Radius_ : D) (data : List Obj) (hnd : data.Nodup) :
    ∃ cl n, buildClusters space srt rnd Strategy_ true BucketSize_ Radius_ data
        = .ok (cl, n) ∧
      cl.length = (data.length + BucketSize_) / (BucketSize_ + 1) ∧
      (∀ c ∈ cl.dropLast, c.bucket_.length = BucketSize_) ∧
      (∀ c, cl.getLast? = some c → c.bucket_.length ≤ BucketSize_) := by
  have hrule := buildLoop_rule space srt hsrt rnd Strategy_ true BucketSize_ Radius_
    (fun remaining cl _ =>
      (remaining ≠ [] → (∀ c ∈ cl, c.bucket_.length = BucketSize_) ∧
        remaining.length + cl.length * (BucketSize_ + 1) = data.length) ∧
      (remaining = [] →
        cl.length = (data.length + BucketSize_) / (BucketSize_ + 1) ∧
        (∀ c ∈ cl.dropLast, c.bucket_.length = BucketSize_) ∧
        (∀ c, cl.getLast? = some c → c.bucket_.length ≤ BucketSize_)))
    (by
      intro remaining cl it center hP hlen _
      have hne : remaining ≠ [] := by
        intro h
        rw [h] at hlen
        simp at hlen
      obtain ⟨hall, hsum⟩ := hP.1 hne
      refine ⟨fun h => absurd rfl h, fun _ => ⟨?_, ?_, ?_⟩⟩
      · rw [List.length_append, List.length_singleton, ← hsum, hlen]
        exact (ceil_div_step BucketSize_ cl.length 1 (le_refl 1) (by omega)).symm
      · rw [List.dropLast_concat]
        exact hall
      · intro c hc
        rw [List.getLast?_concat, Option.some.injEq] at hc
        rw [← hc]
        exact Nat.zero_le _)
    (by
      intro remaining cl it center hP hnd2 hc _ h2
      have hne : remaining ≠ [] := by
        intro h
        rw [h] at h2
        simp at h2
      obtain ⟨hall, hsum⟩ := hP.1 hne
      have htl := stepTuples_length space center remaining hnd2 hc
      have hsl : (srt (stepTuples space center remaining)).length
          = (stepTuples space center remaining).length := (hsrt _).1.length_eq
      have hin : ((stepInside space srt true BucketSize_ Radius_ remaining center).foldl
          addTuple (Cluster.init center)).bucket_.length
            = min BucketSize_ (remaining.length - 1) := by
        rw [(stepCluster space center _).2.1, List.length_map]
        simp only [stepInside, if_true]
        rw [List.length_take, hsl]
        congr 1
        omega
      have hout : ((stepOutside space srt true BucketSize_ Radius_ remaining center).map
          outsideEntry).length = remaining.length - 1 - BucketSize_ := by
        rw [List.length_map]
        simp only [stepOutside, if_true]
        rw [List.length_drop, hsl]
        omega
      have hmul : (cl.length + 1) * (BucketSize_ + 1)
          = cl.length * (BucketSize_ + 1) + (BucketSize_ + 1) := by ring
      constructor
      · intro hne2
        have hpos : 0 < ((stepOutside space srt true BucketSize_ Radius_ remaining
            center).map outsideEntry).length := List.length_pos.mpr hne2
        rw [hout] at hpos
        refine ⟨?_, ?_⟩
        · intro c hcm
          rcases List.mem_append.mp hcm with h | h
          · exact hall c h
          · rw [List.mem_singleton.mp h, hin]
            exact Nat.min_eq_left (by omega)
        · rw [hout, List.length_append, List.length_singleton, hmul]
          omega
      · intro hnil
        have hzero := congrArg List.length hnil
        rw [hout, List.length_nil] at hzero
        refine ⟨?_, ?_, ?_⟩
        · rw [List.length_append, List.length_singleton, ← hsum]
          exact (ceil_div_step BucketSize_ cl.length remaining.length (by omega)
            (by omega)).symm
        · rw [List.dropLast_concat]
          exact hall
        · intro c hcm
          rw [List.getLast?_concat, Option.some.injEq] at hcm
          rw [← hcm, hin]
          exact Nat.min_le_left _ _)
    data.length (data.map (fun object => ((0 : D), object))) [] 0
    (by rw [initialPool_snd]; exact hnd) (by simp)
    (by
      constructor
      · intro _
        refine ⟨by intro c hc; simp at hc, by simp⟩
      · intro hnil
        have hd : data = [] := by simpa using hnil
        subst hd
        refine ⟨?_, by intro c hc; simp at hc, by intro c hc; simp at hc⟩
        simp only [List.length_nil, Nat.zero_add]
        exact (Nat.div_eq_of_lt (Nat.lt_succ_self _)).symm)
  obtain ⟨res, n, hres, hP⟩ := hrule
  exact ⟨res, n, hres, hP.2 rfl⟩

/-- C25 (cluster count in bucket mode).  With `useBucketSize = true` (or absent) and
`bucketSize = B`, for every dataset of `n` pairwise-distinct objects, every strategy,
every outcome of the random choices and every distance function, the constructor returns an
index of exactly `⌈n / (B + 1)⌉ = (n + B) / (B + 1)` clusters; every cluster except the last
has exactly `B` bucket members and the last has at most `B`. -/
theorem C25_cluster_count [One D] (FAKE_MAX_LEAVES_TO_VISIT : Int) (space : Space D Obj)
    (srt : List (D × D × Obj) → List (D × D × Obj)) (hsrt : IsStdSort srt)
    (rnd : Nat → Nat) (data : List Obj) (hnd : data.Nodup) (MethParams : AnyParams D)
    (strat : ListClustersStrategy)
    (hs : parseStrategy (MethParams.strategy.getD "random") = .ok strat)
    (hbucket : MethParams.useBucketSize.getD true = true) :
    ∃ index, ListClusters.create FAKE_MAX_LEAVES_TO_VISIT space srt rnd data MethParams
        = .ok index ∧
      index.cluster_list_.length
        = (data.length + MethParams.bucketSize.getD 50) / (MethParams.bucketSize.getD 50 + 1) ∧
      (data ≠ [] →
        (index.cluster_list_.length - 1) * (MethParams.bucketSize.getD 50 + 1)
          < data.length) ∧
      data.length ≤ index.cluster_list_.length * (MethParams.bucketSize.getD 50 + 1) ∧
      (∀ c ∈ index.cluster_list_.dropLast,
        c.bucket_.length = MethParams.bucketSize.getD 50) ∧
      (∀ c, index.cluster_list_.getLast? = some c →
        c.bucket_.length ≤ MethParams.bucketSize.getD 50) := by
  obtain ⟨cl, n, hb, hlen, hfull, hlast⟩ := buildClusters_count space srt hsrt rnd strat
    (MethParams.bucketSize.getD 50) (MethParams.radius.getD 1) data hnd
  rw [← hbucket] at hb
  refine ⟨_, create_eq FAKE_MAX_LEAVES_TO_VISIT space srt rnd data MethParams strat cl n hs hb,
    hlen, ?_, ?_, hfull, hlast⟩
  · intro hne
    have hpos : 0 < data.length := List.length_pos.mpr hne
    show (cl.length - 1) * _ < _
    rw [hlen]
    have h := Nat.div_mul_le_self (data.length + MethParams.bucketSize.getD 50)
      (MethParams.bucketSize.getD 50 + 1)
    have h2 : ((data.length + MethParams.bucketSize.getD 50) /
        (MethParams.bucketSize.getD 50 + 1) - 1) * (MethParams.bucketSize.getD 50 + 1)
        = (data.length + MethParams.bucketSize.getD 50) /
          (MethParams.bucketSize.getD 50 + 1) * (MethParams.bucketSize.getD 50 + 1)
          - (MethParams.bucketSize.getD 50 + 1) := by
      rw [Nat.sub_mul, Nat.one_mul]
    omega
  · show _ ≤ cl.length * _
    rw [hlen]
    have hpos : 0 < MethParams.bucketSize.getD 50 + 1 := by omega
    have h : data.length + MethParams.bucketSize.getD 50
        < (data.length + MethParams.bucketSize.getD 50) /
          (MethParams.bucketSize.getD 50 + 1) * (MethParams.bucketSize.getD 50 + 1)
          + (MethParams.bucketSize.getD 50 + 1) := Nat.lt_div_mul_add hpos
    omega

/-- C25 at a concrete input: the dataset 0, 7, 3, 9, 20 on the integer line with
`closestPrevCenter` and buckets of one object gives three clusters, two with one bucket member
and the last with none. -/
theorem C25_cluster_count_witness :
    ListClusters.create sentinel lineSpace insertionSortDp (fun _ => 0) [0, 7, 3, 9, 20]
        oneObjectBucketParams
      = .ok { Strategy_ := .kClosestPrevCenter, UseBucketSize_ := true, BucketSize_ := 1,
              Radius_ := 1, MaxLeavesToVisit_ := 2147483647, ChunkBucket_ := true,
              cluster_list_ := [⟨0, 3, [3]⟩, ⟨7, 2, [9]⟩, ⟨20, 0, []⟩] } ∧
    ∃ index, ListClusters.create sentinel lineSpace insertionSortDp (fun _ => 0)
        [0, 7, 3, 9, 20] oneObjectBucketParams = .ok index ∧
      index.cluster_list_.length = (5 + 1) / (1 + 1) ∧
      (([0, 7, 3, 9, 20] : List Int) ≠ [] → (index.cluster_list_.length - 1) * (1 + 1) < 5) ∧
      5 ≤ index.cluster_list_.length * (1 + 1) ∧
      (∀ c ∈ index.cluster_list_.dropLast, c.bucket_.length = 1) ∧
      (∀ c, index.cluster_list_.getLast? = some c → c.bucket_.length ≤ 1) :=
  ⟨by decide,
    C25_cluster_count sentinel lineSpace insertionSortDp insertionSortDp_isStdSort (fun _ => 0)
      [0, 7, 3, 9, 20] (by decide) oneObjectBucketParams
      ListClustersStrategy.kClosestPrevCenter rfl rfl⟩

end ClusterCountClaims

/-! ## Approximate mode with a budget that covers every cluster -/

section UnlimitedBudgetClaims

/-- A queue within its contract hands out two pushed elements with the nearer one first. -/
theorem pq_pair {D Obj : Type} [LinearOrderedAddCommGroup D] [DistArith D] [DecidableEq Obj]
    (pq : List (Elem D Obj) → List (Elem D Obj)) (hpq : IsPqOrder pq)
    (a b : Elem D Obj) (hlt : b.dist_qc < a.dist_qc) : pq [a, b] = [b, a] := by
  obtain ⟨hperm, hsorted⟩ := hpq [a, b]
  have hlen := hperm.length_eq
  match hl : pq [a, b], hlen with
  | [x, y], _ =>
    rw [hl] at hperm hsorted
    have hx : x ∈ [a, b] := hperm.mem_iff.mp (by simp)
    have ha : a ∈ [x, y] := hperm.mem_iff.mpr (by simp)
    have hb : b ∈ [x, y] := hperm.mem_iff.mpr (by simp)
    have hxy : x.dist_qc ≤ y.dist_qc := by
      rw [List.pairwise_cons] at hsorted
      exact hsorted.1 y (by simp)
    simp only [List.mem_cons, List.mem_singleton, List.mem_nil_iff, or_false] at hx ha hb
    rcases hx with hx | hx
    · subst hx
      rcases hb with hb | hb
      · rw [hb] at hlt
        exact absurd hlt (lt_irrefl _)
      · subst hb
        exact absurd hlt (not_lt.mpr hxy)
    · subst hx
      rcases ha with ha | ha
      · rw [ha] at hlt
        exact absurd hlt (lt_irrefl _)
      · subst ha
        rfl

/-- C23 (approximate mode is not exact even with an unlimited budget).  On the integer line
with the metric `|a - b|`, for the index that the constructor returns for the dataset 0, 4, 10,
18 with `closestPrevCenter` and buckets of one object (two clusters), and the range query of
radius 5 at the point 8: exact mode returns the objects 4 and 10, and approximate mode with any
budget `m` of at least two leaves returns the object 10 only, for every queue within its
contract.  The object 4, at distance 4 from the query, is in the bucket of the first cluster;
the second cluster is nearer to the query, contains the query ball and ends the search. -/
theorem C23_approx_not_exact (pq : List (Elem Int Int) → List (Elem Int Int))
    (hpq : IsPqOrder pq) (m : Int)
    (hm : (overlapIndex.cluster_list_.length : Int) ≤ m) (hne : m ≠ sentinel) :
    ((∀ a b, lineSpace.distance a b = lineSpace.distance b a) ∧
      (∀ a b, 0 ≤ lineSpace.distance a b) ∧
      (∀ a b, lineSpace.distance a b = 0 ↔ a = b) ∧
      (∀ a b c, lineSpace.distance a c ≤ lineSpace.distance a b + lineSpace.distance b c) ∧
      (∀ a b, lineSpace.IndexTimeDistance a b = lineSpace.distance a b)) ∧
    ListClusters.create sentinel lineSpace insertionSortDp (fun _ => 0) [0, 4, 10, 18]
      oneObjectBucketParams = .ok overlapIndex ∧
    ListClusters.SearchRange sentinel lineSpace pq overlapIndex (RangeQuery.init 8 5)
      = some { query_object := 8, radius := 5, result := [(4, 4), (2, 10)],
               distance_evals := 4 } ∧
    ListClusters.SearchRange sentinel lineSpace pq (overlapIndex.SetQueryTimeParams (some m))
        (RangeQuery.init 8 5)
      = some { query_object := 8, radius := 5, result := [(2, 10)], distance_evals := 3 } ∧
    lineSpace.distance 8 4 < 5 := by
  refine ⟨⟨?_, ?_, ?_, ?_, ?_⟩, by decide, ?_, ?_, by decide⟩
  · intro a b
    exact abs_sub_comm a b
  · intro a b
    exact abs_nonneg _
  · intro a b
    show |a - b| = 0 ↔ a = b
    rw [abs_eq_zero, sub_eq_zero]
  · intro a b c
    exact abs_sub_le a b c
  · intro a b
    rfl
  · unfold ListClusters.SearchRange GenSearch
    rw [if_pos (by decide)]
    decide
  · have hm2 : (0 : Int) < m := by
      have h2 : ((2 : Nat) : Int) ≤ m := hm
      omega
    have hcol : collectCandidates (rangeOps lineSpace) overlapIndex.cluster_list_
        (RangeQuery.init 8 5) []
        = ({ query_object := 8, radius := 5, result := [(2, 10)], distance_evals := 2 },
            [Elem.mk ⟨0, 4, [4]⟩ 8, Elem.mk ⟨10, 8, [18]⟩ 2]) := by decide
    unfold ListClusters.SearchRange GenSearch
    have hmax : (overlapIndex.SetQueryTimeParams (some m)).MaxLeavesToVisit_ = m := rfl
    have hcl : (overlapIndex.SetQueryTimeParams (some m)).cluster_list_
        = overlapIndex.cluster_list_ := rfl
    rw [hmax, hcl, if_neg hne]
    dsimp only
    rw [hcol]
    dsimp only
    rw [pq_pair pq hpq _ _ (by decide), visitLeaves_cons, if_pos hm2, if_pos (by decide),
      if_pos (by decide)]
    decide

/-- C23 at a concrete input: insertion sort as the queue and a budget of two leaves, the number
of clusters. -/
theorem C23_approx_not_exact_witness :
    ((overlapIndex.cluster_list_.length : Int) ≤ 2 ∧ (2 : Int) ≠ sentinel) ∧
    (((∀ a b, lineSpace.distance a b = lineSpace.distance b a) ∧
      (∀ a b, 0 ≤ lineSpace.distance a b) ∧
      (∀ a b, lineSpace.distance a b = 0 ↔ a = b) ∧
      (∀ a b c, lineSpace.distance a c ≤ lineSpace.distance a b + lineSpace.distance b c) ∧
      (∀ a b, lineSpace.IndexTimeDistance a b = lineSpace.distance a b)) ∧
    ListClusters.create sentinel lineSpace insertionSortDp (fun _ => 0) [0, 4, 10, 18]
      oneObjectBucketParams = .ok overlapIndex ∧
    ListClusters.SearchRange sentinel lineSpace insertionSortPq overlapIndex
        (RangeQuery.init 8 5)
      = some { query_object := 8, radius := 5, result := [(4, 4), (2, 10)],
               distance_evals := 4 } ∧
    ListClusters.SearchRange sentinel lineSpace insertionSortPq
        (overlapIndex.SetQueryTimeParams (some 2)) (RangeQuery.init 8 5)
      = some { query_object := 8, radius := 5, result := [(2, 10)], distance_evals := 3 } ∧
    lineSpace.distance 8 4 < 5) :=
  ⟨by decide,
    C23_approx_not_exact insertionSortPq insertionSortPq_isPqOrder 2 (by decide) (by decide)⟩

end UnlimitedBudgetClaims

/-! ## Pruning in exact mode under a metric -/

section PruningClaims

variable {D Obj : Type} [LinearOrderedAddCommGroup D] [DistArith D] [DecidableEq Obj]

theorem IndexOrdered_suffix (space : Space D Obj) :
    ∀ (front rest : List (Cluster D Obj)), IndexOrdered space (front ++ rest) →
      IndexOrdered space rest := by
  intro front
  induction front with
  | nil => intro rest h; exact h
  | cons a l ih =>
    intro rest h
    exact ih rest h.2.2

/-- The bucket skip is sound under a metric where the subtraction of line 200 neither overflows
nor rounds: when the intersection test fails at a cluster, no bucket member is strictly inside
the query ball. -/
theorem skip_sound (space : Space D Obj)
    (hIT : ∀ a b, space.IndexTimeDistance a b = space.distance a b)
    (htri : ∀ a b c, space.distance a c ≤ space.distance a b + space.distance b c)
    (c : Cluster D Obj) (rest : List (Cluster D Obj))
    (hord : IndexOrdered space (c :: rest)) (x : Obj) (r : D)
    (hsub : DistArith.sub (space.distance x c.center_) r = space.distance x c.center_ - r)
    (hskip : ballIntersects (space.distance x c.center_) (some r) c.covering_radius_ = false) :
    ∀ o ∈ c.bucket_, ¬ space.distance x o < r := by
  intro o ho hlt
  obtain ⟨r1, hr1, hle⟩ := ballIntersects_false _ _ _ hskip
  cases hr1
  rw [hsub] at hle
  have h1 := hord.1 o ho
  rw [hIT] at h1
  have h2 := htri x o c.center_
  have h3 : space.distance x o + space.distance o c.center_ < r + c.covering_radius_ :=
    add_lt_add_of_lt_of_le hlt h1
  have h4 : r + c.covering_radius_ ≤ space.distance x c.center_ := by
    have := add_le_add_left hle r
    rwa [add_sub_cancel] at this
  exact absurd (lt_of_lt_of_le h3 h4) (not_lt.mpr h2)

/-- The containment break is sound under a metric where the addition of line 202 neither
overflows nor rounds: when the containment test holds at a cluster, no object of a later cluster
is strictly inside the query ball. -/
theorem break_sound (space : Space D Obj)
    (hIT : ∀ a b, space.IndexTimeDistance a b = space.distance a b)
    (hsymm : ∀ a b, space.distance a b = space.distance b a)
    (htri : ∀ a b c, space.distance a c ≤ space.distance a b + space.distance b c)
    (c : Cluster D Obj) (rest : List (Cluster D Obj))
    (hord : IndexOrdered space (c :: rest)) (x : Obj) (r : D)
    (hadd : DistArith.add (space.distance x c.center_) r = space.distance x c.center_ + r)
    (hcont : ballContained (space.distance x c.center_) (some r) c.covering_radius_ = true) :
    ∀ o ∈ allMembers rest, ¬ space.distance x o < r := by
  intro o ho hlt
  obtain ⟨r1, hr1, hlt2⟩ := ballContained_true _ _ _ hcont
  cases hr1
  rw [hadd] at hlt2
  have h1 := hord.2.1 o ho
  rw [hIT] at h1
  have h2 := htri o x c.center_
  rw [hsymm o x] at h2
  have h3 : space.distance o c.center_ < c.covering_radius_ :=
    lt_of_le_of_lt h2 (lt_trans (by
      rw [add_comm]
      exact add_lt_add_left hlt _) hlt2)
  exact absurd h1 (not_le.mpr h3)

/-- The exact branch for a range query on a cluster list of the shape `IndexOrdered`, under a
symmetric distance with the triangle inequality, where the two pruning tests are computed
without overflow or rounding: the result holds every indexed object strictly inside the query
ball, and only indexed objects of the closed ball, each with its distance. -/
theorem exactSearch_range_sandwich (space : Space D Obj)
    (hIT : ∀ a b, space.IndexTimeDistance a b = space.distance a b)
    (hsymm : ∀ a b, space.distance a b = space.distance b a)
    (htri : ∀ a b c, space.distance a c ≤ space.distance a b + space.distance b c)
    (cl : List (Cluster D Obj)) (hord : IndexOrdered space cl) (x : Obj) (r : D)
    (harith : ∀ o ∈ allMembers cl,
      DistArith.sub (space.distance x o) r = space.distance x o - r ∧
      DistArith.add (space.distance x o) r = space.distance x o + r) :
    (∀ o ∈ allMembers cl, space.distance x o < r →
      o ∈ (exactSearch (rangeOps space) cl (RangeQuery.init x r)).result.map Prod.snd) ∧
    (∀ p ∈ (exactSearch (rangeOps space) cl (RangeQuery.init x r)).result,
      p.2 ∈ allMembers cl ∧ p.1 = space.distance x p.2 ∧ p.1 ≤ r) := by
  constructor
  · have h := exactSearch_settled space (rangeOps space)
      (fun q o => o ∈ q.result.map Prod.snd) x
      (fun q => q.query_object = x ∧ q.radius = r)
      (fun o => o ∈ allMembers cl)
      (fun q o hq => by
        show space.distance q.query_object o = _
        rw [hq.1])
      hIT hsymm htri
      (fun q o r1 ho hq hr => by
        have hr2 : q.radius = r1 := Option.some.inj hr
        rw [← hr2, hq.2]
        exact harith o ho)
      (fun q o _ hq => (rangeOps_settled_step space x r q o hq).1)
      (fun q o o1 _ hq h1 => (rangeOps_settled_step space x r q o hq).2.2 o1 h1)
      (fun q o _ hq => (rangeOps_settled_step space x r q o hq).2.1)
      cl (RangeQuery.init x r) (fun _ => False) (fun o ho => ho) hord ⟨rfl, rfl⟩
      (fun o ho => absurd ho id)
    obtain ⟨hI, hset⟩ := h
    intro o ho hlt
    rcases hset o (Or.inr ho) with h1 | h1
    · exact h1
    · exfalso
      apply h1
      show space.distance x o < _
      rw [hI.2]
      exact hlt
  · have h := exactSearch_preserves_mem (rangeOps space)
      (fun q => (q.query_object = x ∧ q.radius = r) ∧
        ∀ p ∈ q.result, p.2 ∈ allMembers cl ∧ p.1 = space.distance x p.2 ∧ p.1 ≤ r)
      (fun o => o ∈ allMembers cl)
      (fun q o ho hq => by
        obtain ⟨hq1, hq2⟩ := hq
        rw [rangeOps_CheckAndAddObj]
        split
        · rename_i hle
          refine ⟨hq1, ?_⟩
          intro p hp
          rcases List.mem_append.mp hp with hp | hp
          · exact hq2 p hp
          · rw [List.mem_singleton.mp hp]
            rw [hq1.1, hq1.2] at hle
            rw [hq1.1]
            exact ⟨ho, rfl, hle⟩
        · exact ⟨hq1, hq2⟩)
      cl (RangeQuery.init x r)
      (fun o ho => ho)
      ⟨⟨rfl, rfl⟩, by intro p hp; simp [RangeQuery.init] at hp⟩
    exact h.2

/-- C24 as stated fails for the `int` instantiation: on the integer line with the metric
`|a - b|`, for the index that the constructor returns for the dataset 0, 2, 10 with
`closestPrevCenter` and buckets of one object, the exact search for the query 3 with the
non-negative radius 2147483647 returns the objects 0 and 2 only.  The object 10 is at distance
7, strictly inside the query ball: at the first cluster `dist_qc + Radius()` is
`3 + 2147483647`, which wraps around to -2147483646, the containment test of line 202 holds
and the loop breaks. -/
theorem C24_counterexample :
    ((∀ a b, lineSpace.distance a b = lineSpace.distance b a) ∧
      (∀ a b, 0 ≤ lineSpace.distance a b) ∧
      (∀ a b c, lineSpace.distance a c ≤ lineSpace.distance a b + lineSpace.distance b c) ∧
      (∀ a b, lineSpace.IndexTimeDistance a b = lineSpace.distance a b)) ∧
    ListClusters.create sentinel lineSpace insertionSortDp (fun _ => 0) [0, 2, 10]
      oneObjectBucketParams = .ok boundaryIndex ∧
    boundaryIndex.MaxLeavesToVisit_ = sentinel ∧
    ListClusters.SearchRange sentinel lineSpace insertionSortPq boundaryIndex
        (RangeQuery.init 3 2147483647)
      = some { query_object := 3, radius := 2147483647, result := [(3, 0), (1, 2)],
               distance_evals := 2 } ∧
    (10 : Int) ∈ ([0, 2, 10] : List Int) ∧ lineSpace.distance 3 10 < 2147483647 ∧
    (0 : Int) ≤ 2147483647 ∧
    DistArith.add (lineSpace.distance 3 0) (2147483647 : Int) = -2147483646 ∧
    ballContained (lineSpace.distance 3 0) (some (2147483647 : Int)) 2 = true := by
  refine ⟨⟨?_, ?_, ?_, ?_⟩, by decide, by decide, by decide, by decide, by decide, by decide,
    by decide, by decide⟩
  · intro a b
    exact abs_sub_comm a b
  · intro a b
    exact abs_nonneg _
  · intro a b c
    exact abs_sub_le a b c
  · intro a b
    rfl

/-- C24 (pruning soundness under a metric), amended.  In exact mode, under a distance that is
symmetric, non-negative and satisfies the triangle inequality, with `IndexTimeDistance` equal to
`distance`, for every dataset of distinct objects, every build configuration and every range
query for which `distance(query, obj) - radius` and `distance(query, obj) + radius` are
computed in `dist_t` without overflow or rounding at the dataset objects: the constructor and
the search return, and the result set `S` satisfies `{obj : distance(query, obj) < radius} ⊆ S
⊆ {obj : distance(query, obj) ≤ radius}` within the dataset.  Neither pruning step discards an
object strictly inside the query ball: where the intersection test fails at a cluster no bucket
member is strictly inside, and where the containment test holds no object of a later cluster
is. -/
theorem C24_pruning_soundness [One D] (FAKE_MAX_LEAVES_TO_VISIT : Int) (space : Space D Obj)
    (srt : List (D × D × Obj) → List (D × D × Obj)) (hsrt : IsStdSort srt)
    (rnd : Nat → Nat) (data : List Obj) (hnd : data.Nodup) (MethParams : AnyParams D)
    (strat : ListClustersStrategy)
    (hs : parseStrategy (MethParams.strategy.getD "random") = .ok strat)
    (hexact : MethParams.maxLeavesToVisit.getD FAKE_MAX_LEAVES_TO_VISIT
      = FAKE_MAX_LEAVES_TO_VISIT)
    (hIT : ∀ a b, space.IndexTimeDistance a b = space.distance a b)
    (hsymm : ∀ a b, space.distance a b = space.distance b a)
    (hnn : ∀ a b, 0 ≤ space.distance a b)
    (htri : ∀ a b c, space.distance a c ≤ space.distance a b + space.distance b c)
    (pq : List (Elem D Obj) → List (Elem D Obj)) (query_object : Obj) (radius : D)
    (harith : ∀ o ∈ data,
      DistArith.sub (space.distance query_object o) radius
        = space.distance query_object o - radius ∧
      DistArith.add (space.distance query_object o) radius
        = space.distance query_object o + radius) :
    ∃ index res, ListClusters.create FAKE_MAX_LEAVES_TO_VISIT space srt rnd data MethParams
        = .ok index ∧
      ListClusters.SearchRange FAKE_MAX_LEAVES_TO_VISIT space pq index
        (RangeQuery.init query_object radius) = some res ∧
      (∀ o ∈ data, space.distance query_object o < radius → o ∈ res.result.map Prod.snd) ∧
      (∀ p ∈ res.result, p.2 ∈ data ∧ p.1 = space.distance query_object p.2 ∧
        space.distance query_object p.2 ≤ radius) ∧
      (∀ front c rest, index.cluster_list_ = front ++ c :: rest →
        ballIntersects (space.distance query_object c.center_) (some radius)
          c.covering_radius_ = false →
        ∀ o ∈ c.bucket_, ¬ space.distance query_object o < radius) ∧
      (∀ front c rest, index.cluster_list_ = front ++ c :: rest →
        ballContained (space.distance query_object c.center_) (some radius)
          c.covering_radius_ = true →
        ∀ o ∈ allMembers rest, ¬ space.distance query_object o < radius) := by
  obtain ⟨cl, n, hb, hperm⟩ := buildClusters_partition space srt hsrt rnd strat
    (MethParams.useBucketSize.getD true) (MethParams.bucketSize.getD 50)
    (MethParams.radius.getD 1) data hnd
  obtain ⟨cl2, n2, hb2, hord⟩ := buildClusters_ordered space srt hsrt rnd strat
    (MethParams.useBucketSize.getD true) (MethParams.bucketSize.getD 50)
    (MethParams.radius.getD 1) data hnd (fun a b => by rw [hIT]; exact hnn a b)
  rw [hb] at hb2
  cases hb2
  have harith2 : ∀ o ∈ allMembers cl,
      DistArith.sub (space.distance query_object o) radius
        = space.distance query_object o - radius ∧
      DistArith.add (space.distance query_object o) radius
        = space.distance query_object o + radius :=
    fun o ho => harith o (hperm.mem_iff.mp ho)
  obtain ⟨hin, hout⟩ := exactSearch_range_sandwich space hIT hsymm htri cl hord
    query_object radius harith2
  have hcenter : ∀ front c rest, cl = front ++ c :: rest → c.center_ ∈ allMembers cl := by
    intro front c rest hcl
    rw [hcl]
    clear hcl
    induction front with
    | nil => simp [allMembers, Cluster.members]
    | cons a l ih =>
      simp only [List.cons_append, allMembers, List.mem_append]
      exact Or.inr ih
  refine ⟨_, exactSearch (rangeOps space) cl (RangeQuery.init query_object radius),
    create_eq FAKE_MAX_LEAVES_TO_VISIT space srt rnd data MethParams strat cl n hs hb,
    ?_, ?_, ?_, ?_, ?_⟩
  · unfold ListClusters.SearchRange GenSearch
    dsimp only
    rw [if_pos hexact]
  · intro o ho hlt
    exact hin o (hperm.mem_iff.mpr ho) hlt
  · intro p hp
    obtain ⟨h1, h2, h3⟩ := hout p hp
    exact ⟨hperm.mem_iff.mp h1, h2, by rw [← h2]; exact h3⟩
  · intro front c rest hsplit hskip
    have hcl : cl = front ++ c :: rest := hsplit
    have hc := hcenter front c rest hcl
    rw [hcl] at hord
    exact skip_sound space hIT htri c rest (IndexOrdered_suffix space front _ hord)
      query_object radius (harith2 _ hc).1 hskip
  · intro front c rest hsplit hcont
    have hcl : cl = front ++ c :: rest := hsplit
    have hc := hcenter front c rest hcl
    rw [hcl] at hord
    exact break_sound space hIT hsymm htri c rest (IndexOrdered_suffix space front _ hord)
      query_object radius (harith2 _ hc).2 hcont

/-- C24 at a concrete input: the dataset 0, 4, 10, 18 on the integer line with
`closestPrevCenter` and buckets of one object, and the range query of radius 5 at the point 8;
the containment test holds at the second and last cluster, and no operation overflows. -/
theorem C24_pruning_soundness_witness :
    (ListClusters.create sentinel lineSpace insertionSortDp (fun _ => 0) [0, 4, 10, 18]
        oneObjectBucketParams = .ok overlapIndex ∧
      ListClusters.SearchRange sentinel lineSpace insertionSortPq overlapIndex
          (RangeQuery.init 8 5)
        = some { query_object := 8, radius := 5, result := [(4, 4), (2, 10)],
                 distance_evals := 4 } ∧
      ∀ o ∈ ([0, 4, 10, 18] : List Int),
        DistArith.sub (lineSpace.distance 8 o) 5 = lineSpace.distance 8 o - 5 ∧
        DistArith.add (lineSpace.distance 8 o) 5 = lineSpace.distance 8 o + 5) ∧
    ∃ index res, ListClusters.create sentinel lineSpace insertionSortDp (fun _ => 0)
        [0, 4, 10, 18] oneObjectBucketParams = .ok index ∧
      ListClusters.SearchRange sentinel lineSpace insertionSortPq index
        (RangeQuery.init 8 5) = some res ∧
      (∀ o ∈ ([0, 4, 10, 18] : List Int), lineSpace.distance 8 o < 5 →
        o ∈ res.result.map Prod.snd) ∧
      (∀ p ∈ res.result, p.2 ∈ ([0, 4, 10, 18] : List Int) ∧
        p.1 = lineSpace.distance 8 p.2 ∧ lineSpace.distance 8 p.2 ≤ 5) ∧
      (∀ front c rest, index.cluster_list_ = front ++ c :: rest →
        ballIntersects (lineSpace.distance 8 c.center_) (some 5) c.covering_radius_ = false →
        ∀ o ∈ c.bucket_, ¬ lineSpace.distance 8 o < 5) ∧
      (∀ front c rest, index.cluster_list_ = front ++ c :: rest →
        ballContained (lineSpace.distance 8 c.center_) (some 5) c.covering_radius_ = true →
        ∀ o ∈ allMembers rest, ¬ lineSpace.distance 8 o < 5) :=
  ⟨by decide,
    C24_pruning_soundness sentinel lineSpace insertionSortDp insertionSortDp_isStdSort
      (fun _ => 0) [0, 4, 10, 18] (by decide) oneObjectBucketParams
      ListClustersStrategy.kClosestPrevCenter rfl rfl (fun _ _ => rfl)
      (fun a b => abs_sub_comm a b) (fun a b => abs_nonneg _) (fun a b c => abs_sub_le a b c)
      insertionSortPq 8 5 (by decide)⟩

end PruningClaims

end similarity
